import Mathlib

/-!
# Firework particle store and simulation step

A shallow embedding of the CPU-side particle simulation of `Scene.cpp`
(`AddFirework`, `RemoveFireworkIfDeadAndMoveToNext`, `UpdateFireworks`) and of the
vector helpers of `Math/CVector3.cpp` it uses.

Conventions of the embedding:

* `float` values are rationals (`ℚ`), and `roundFloat32` is the rounding of a rational to
  the nearest `float` (IEEE 754 binary32, ties to even).  The timer of a trail star decides
  how often its loop runs, so `timer += 0.05f` is rounded as the machine rounds it
  (`rearm`), and the literal `0.05f` set into a timer is `roundFloat32 (1/20)`.  The
  subtraction `timer -= frameTime` in front of the loop is kept exact: on `float` operands
  the test `timer <= 0` has the same outcome on the rounded difference, and the first
  `timer += 0.05f` rounds it.
* Positions, velocities, colours, scales and lives are computed exactly, with the decimal
  literals of the source as the corresponding fractions (`0.4f` is `2/5`, ...).
  `starDecay32` is the decay of a simple star with every operation rounded, for the
  comparison of two steps with one.
* `std::vector` is a `List`; `push_back x` is `· ++ [x]`, `pop_back` is `List.dropLast`,
  `back()` is the last element, an iterator is the index it points at, and `end()` is
  the length.  Dereferencing an iterator that is not inside its vector has no defined
  behaviour in the source and makes the embedded operation return `none`.
* The two global vectors `Fireworks` and `FireworkUpdates` are the fields of `Scene`.
  Both are reserved to `MaxFireworks` at start-up, so appending never moves the
  elements an iterator points at.
* `Random`, `powf` and the contents of a local `FireworkUpdate` declared without an
  initialiser come from outside the two source files; they are the fields of `Env`.
  The scene counts the calls made to `Random`, so that successive calls are
  independent draws.  That `Random(-r, r)` returns a value between `-r` and `r` is the
  hypothesis `RandomInRange` of the theorems that need it.
* `IsZero`, `InvSqrt`, `ToRadians`, `sin`, `cos` and `sqrt`, which `Normalise`, `Length`
  and `RandomVectorInCone` call, come from outside the two source files as well; they are
  the fields of `MathLib`, and the theorems on these functions name what they assume of
  them.
* The two `while` loops of `UpdateFireworks` take fuel and return `none` when it runs
  out.
-/

namespace Fireworks

/-! ## Data model -/

/-- The enumeration `FireworkType` of `Scene.cpp`. -/
inductive FireworkType where
  | PeonyRocket
  | FancyPeonyRocket
  | StarSimple
  | StarSmallTrail
  | CometRocket
  | BrocadeRocket
  deriving DecidableEq

/-- The class `CVector3`: three `float` components. -/
structure CVector3 where
  x : ℚ
  y : ℚ
  z : ℚ
  deriving DecidableEq

/-- The struct `ColourRGBA`: four `float` components. -/
structure ColourRGBA where
  r : ℚ
  g : ℚ
  b : ℚ
  a : ℚ
  deriving DecidableEq

/-- The struct `FireworkUpdate`: data only needed to update a firework. -/
structure FireworkUpdate where
  type : FireworkType
  velocity : CVector3
  life : ℚ
  timer : ℚ
  payloadTypeA : FireworkType
  payloadTypeB : FireworkType
  payloadIntA : ℤ
  payloadIntB : ℤ
  payloadColourA : ColourRGBA
  payloadColourB : ColourRGBA
  deriving DecidableEq

/-- The struct `Firework`: data to render a firework. -/
structure Firework where
  position : CVector3
  scale : ℚ
  colour : ColourRGBA
  rotation : ℚ
  deriving DecidableEq

/-- The two global vectors of `Scene.cpp`, and the number of calls made to `Random`
so far. -/
structure Scene where
  Fireworks : List Firework
  FireworkUpdates : List FireworkUpdate
  randomCalls : ℕ
  deriving DecidableEq

/-- What the simulation takes from outside the two source files: the value returned
by the `k`-th call `Random(min, max)`, the library function `powf`, and the contents
of a local `FireworkUpdate` declared without an initialiser (indexed like the random
draws, so that they too may differ from one declaration to the next). -/
structure Env where
  Random : ℕ → ℚ → ℚ → ℚ
  powf : ℚ → ℚ → ℚ
  uninitialised : ℕ → FireworkUpdate

/-- The constant `MaxFireworks`. -/
def MaxFireworks : ℕ := 50000

/-- The constant `Gravity`. -/
def Gravity : ℚ := -30

/-! ## `CVector3` operators -/

/-- Vector-vector addition, `operator+ (v, w)`. -/
def CVector3.add (v w : CVector3) : CVector3 :=
  { x := v.x + w.x, y := v.y + w.y, z := v.z + w.z }

/-- Vector-scalar multiplication, `operator* (v, s)`. -/
def CVector3.mul (v : CVector3) (s : ℚ) : CVector3 :=
  { x := v.x * s, y := v.y * s, z := v.z * s }

/-- In-place addition, `operator+= (v)`: the new value of the left operand. -/
def CVector3.addAssign (self v : CVector3) : CVector3 :=
  { x := self.x + v.x, y := self.y + v.y, z := self.z + v.z }

/-- In-place scaling, `operator*= (s)`: the new value of the left operand. -/
def CVector3.mulAssign (self : CVector3) (s : ℚ) : CVector3 :=
  { x := self.x * s, y := self.y * s, z := self.z * s }

/-! ## Vector helpers of `Math/CVector3.cpp` -/

/-- The number of halvings that bring `n` below two, with `fuel` halvings to spare: the
position of the leading bit of `n` when `fuel` is at least `n`. -/
def leadingBit : ℕ → ℕ → ℕ
  | 0, _ => 0
  | fuel + 1, n => if n < 2 then 0 else leadingBit fuel (n / 2) + 1

/-- The exponent of the binade of `x`: the integer `e` with `2 ^ e <= |x| < 2 ^ (e + 1)`,
for `x` other than zero. -/
def binadeExp (x : ℚ) : ℤ :=
  let e : ℤ := (leadingBit x.num.natAbs x.num.natAbs : ℤ) - (leadingBit x.den x.den : ℤ)
  if (2 : ℚ) ^ e ≤ |x| then e else e - 1

/-- Rounding to the nearest integer, ties to the even one. -/
def roundHalfEven (r : ℚ) : ℤ :=
  if r - ⌊r⌋ < 1 / 2 then ⌊r⌋
  else if 1 / 2 < r - ⌊r⌋ then ⌊r⌋ + 1
  else if ⌊r⌋ % 2 = 0 then ⌊r⌋ else ⌊r⌋ + 1

/-- The `float` (IEEE 754 binary32) nearest to `x`, ties to even: a multiple of
`2 ^ (e - 23)` in the binade `2 ^ e <= |x| < 2 ^ (e + 1)`, and of `2 ^ (-149)` below
`2 ^ (-126)`.  There is no infinity: beyond the largest `float` the exponent keeps
growing. -/
def roundFloat32 (x : ℚ) : ℚ :=
  if x = 0 then 0
  else (roundHalfEven (x / 2 ^ (max (binadeExp x) (-126) - 23)) : ℚ) *
    2 ^ (max (binadeExp x) (-126) - 23)

/-- The `float` sum `a + b`: the sum of the operands, rounded.  An operand that is not a
`float` stands for the `float` nearest to it. -/
def addFloat32 (a b : ℚ) : ℚ := roundFloat32 (roundFloat32 a + roundFloat32 b)

/-- The `float` difference `a - b`. -/
def subFloat32 (a b : ℚ) : ℚ := roundFloat32 (roundFloat32 a - roundFloat32 b)

/-- The `float` product `a * b`. -/
def mulFloat32 (a b : ℚ) : ℚ := roundFloat32 (roundFloat32 a * roundFloat32 b)

/-! ## The particle store -/

/-- The function `AddFirework`: appends the pair unless the store is full; returns whether
it did, and the new scene. -/
def AddFirework (firework : Firework) (fireworkUpdate : FireworkUpdate) (s : Scene) :
    Bool × Scene :=
  if s.Fireworks.length ≥ MaxFireworks then (false, s)
  else
    (true, { s with
      Fireworks := s.Fireworks ++ [firework]
      FireworkUpdates := s.FireworkUpdates ++ [fireworkUpdate] })

/-- The function `RemoveFireworkIfDeadAndMoveToNext`, on the iterators `fireworkIt` and
`fireworkUpdateIt`: the new scene and the new values of the two iterators. -/
def RemoveFireworkIfDeadAndMoveToNext (s : Scene) (fireworkIt fireworkUpdateIt : ℕ) :
    Option (Scene × ℕ × ℕ) :=
  match s.FireworkUpdates[fireworkUpdateIt]? with
  | none => none
  | some u =>
    if u.life ≤ 0 then
      if fireworkIt + 1 = s.Fireworks.length then
        let s1 : Scene := { s with
          Fireworks := s.Fireworks.dropLast
          FireworkUpdates := s.FireworkUpdates.dropLast }
        some (s1, s1.Fireworks.length, s1.FireworkUpdates.length)
      else
        match s.Fireworks[fireworkIt]?, s.Fireworks.getLast?, s.FireworkUpdates.getLast? with
        | some _, some lastF, some lastU =>
          some ({ s with
            Fireworks := (s.Fireworks.set fireworkIt lastF).dropLast
            FireworkUpdates := (s.FireworkUpdates.set fireworkUpdateIt lastU).dropLast },
            fireworkIt, fireworkUpdateIt)
        | _, _, _ => none
    else
      some (s, fireworkIt + 1, fireworkUpdateIt + 1)

/-! ## The simulation step -/

/-- The braced vector `CVector3{ Random(-r, r), Random(-r, r), Random(-r, r) }`, whose
components are the draws number `k`, `k + 1` and `k + 2`. -/
def randomJitter (env : Env) (k : ℕ) (r : ℚ) : CVector3 :=
  { x := env.Random k (-r) r, y := env.Random (k + 1) (-r) r, z := env.Random (k + 2) (-r) r }

/-- The body of the `while` loop of the small trail star: builds one simple star from the
trail star `(f, u)` and hands it to `AddFirework`. -/
def emitTrailStar (env : Env) (f : Firework) (u : FireworkUpdate) (s : Scene) : Scene :=
  let firework : Firework :=
    { position := f.position, scale := 3 / 4, colour := f.colour, rotation := 0 }
  let fireworkUpdate : FireworkUpdate :=
    { env.uninitialised s.randomCalls with
      type := FireworkType.StarSimple
      velocity := (u.velocity.mul (1 / 2)).add (randomJitter env s.randomCalls 5)
      life := 2 / 5 }
  (AddFirework firework fireworkUpdate { s with randomCalls := s.randomCalls + 3 }).2

/-- The statement `fireworkUpdateIt->timer += 0.05f`: the new value of the timer, a `float`
sum. -/
def rearm (timer : ℚ) : ℚ := addFloat32 timer (1 / 20)

/-- The loop `while (fireworkUpdateIt->timer <= 0)` of the small trail star: each round
emits one simple star and adds `0.05f` to the timer. -/
def trailLoop (env : Env) (f : Firework) : ℕ → FireworkUpdate → Scene →
    Option (FireworkUpdate × Scene)
  | 0, u, s => if u.timer ≤ 0 then none else some (u, s)
  | fuel + 1, u, s =>
    if u.timer ≤ 0 then
      trailLoop env f fuel { u with timer := rearm u.timer } (emitTrailStar env f u s)
    else some (u, s)

/-- The block run for a `CometRocket` on every visit: builds one simple star and hands it
to `AddFirework`. -/
def emitCometStar (env : Env) (f : Firework) (u : FireworkUpdate) (s : Scene) : Scene :=
  let firework : Firework :=
    { position := f.position, scale := 3 / 4, colour := f.colour, rotation := 0 }
  let fireworkUpdate : FireworkUpdate :=
    { env.uninitialised s.randomCalls with
      type := FireworkType.StarSimple
      velocity := (u.velocity.mul (1 / 2)).add (randomJitter env s.randomCalls 5)
      life := 2 / 5
      timer := roundFloat32 (1 / 20) }
  (AddFirework firework fireworkUpdate { s with randomCalls := s.randomCalls + 3 }).2

/-- One round of the burst loop of a `PeonyRocket`. -/
def emitPeonyStar (env : Env) (f : Firework) (u : FireworkUpdate) (s : Scene) : Scene :=
  let firework : Firework :=
    { position := f.position, scale := 3 / 2, colour := u.payloadColourA, rotation := 0 }
  let fireworkUpdate : FireworkUpdate :=
    { env.uninitialised s.randomCalls with
      type := u.payloadTypeA
      velocity := u.velocity.add (randomJitter env s.randomCalls 50)
      life := 7 / 5
      timer := 0 }
  (AddFirework firework fireworkUpdate { s with randomCalls := s.randomCalls + 3 }).2

/-- One round of the burst loop of a `BrocadeRocket`. -/
def emitBrocadeStar (env : Env) (f : Firework) (u : FireworkUpdate) (s : Scene) : Scene :=
  let firework : Firework :=
    { position := f.position, scale := 3 / 2, colour := u.payloadColourA, rotation := 0 }
  let fireworkUpdate : FireworkUpdate :=
    { env.uninitialised s.randomCalls with
      type := FireworkType.StarSmallTrail
      velocity := u.velocity.add (randomJitter env s.randomCalls 60)
      life := 7
      timer := roundFloat32 (1 / 20) }
  (AddFirework firework fireworkUpdate { s with randomCalls := s.randomCalls + 3 }).2

/-- The loop `for (int i = 0; i < n; ++i)` around an emission block. -/
def burstLoop (emit : Scene → Scene) : ℕ → Scene → Scene
  | 0, s => s
  | n + 1, s => burstLoop emit n (emit s)

/-- The first statements of the loop body of `UpdateFireworks`: movement, gravity, and
the decrease of life. -/
def moveAndAge (frameTime : ℚ) (f : Firework) (u : FireworkUpdate) :
    Firework × FireworkUpdate :=
  let f : Firework := { f with position := f.position.addAssign (u.velocity.mul frameTime) }
  let u : FireworkUpdate :=
    { u with velocity := { u.velocity with y := u.velocity.y + Gravity * frameTime } }
  (f, { u with life := u.life - frameTime })

/-- The fade, shrink and slow-down that the simple star block and the trail star block
both start with. -/
def fadeAndSlow (env : Env) (frameTime : ℚ) (f : Firework) (u : FireworkUpdate) :
    Firework × FireworkUpdate :=
  let f : Firework := { f with colour := { f.colour with a := f.colour.a - 1 / 2 * frameTime } }
  let f : Firework := { f with scale := f.scale - 1 * frameTime }
  (f, { u with velocity := u.velocity.mulAssign (env.powf (1 / 2) frameTime) })

/-- The block `if (type == StarSimple)`. -/
def simpleStarUpdate (env : Env) (frameTime : ℚ) (f : Firework) (u : FireworkUpdate) :
    Firework × FireworkUpdate :=
  if u.type = FireworkType.StarSimple then fadeAndSlow env frameTime f u else (f, u)

/-- The block `if (type == StarSmallTrail)`. -/
def trailStarUpdate (env : Env) (trailFuel : ℕ) (frameTime : ℚ) (f : Firework)
    (u : FireworkUpdate) (s : Scene) : Option (Firework × FireworkUpdate × Scene) :=
  if u.type = FireworkType.StarSmallTrail then
    let fu := fadeAndSlow env frameTime f u
    match trailLoop env fu.1 trailFuel { fu.2 with timer := fu.2.timer - frameTime } s with
    | some (u1, s1) => some (fu.1, u1, s1)
    | none => none
  else some (f, u, s)

/-- The block `if (type == CometRocket)`. -/
def cometUpdate (env : Env) (f : Firework) (u : FireworkUpdate) (s : Scene) : Scene :=
  if u.type = FireworkType.CometRocket then emitCometStar env f u s else s

/-- The block `if (type == PeonyRocket)` inside the burst. -/
def peonyBurst (env : Env) (f : Firework) (u : FireworkUpdate) (s : Scene) : Scene :=
  if u.type = FireworkType.PeonyRocket then
    burstLoop (emitPeonyStar env f u) u.payloadIntA.toNat s
  else s

/-- The block `if (type == BrocadeRocket)` inside the burst. -/
def brocadeBurst (env : Env) (f : Firework) (u : FireworkUpdate) (s : Scene) : Scene :=
  if u.type = FireworkType.BrocadeRocket then
    burstLoop (emitBrocadeStar env f u) u.payloadIntA.toNat s
  else s

/-- The block `if (life <= 0)`: the bursts of the peony and of the brocade rocket. -/
def burstWhenDead (env : Env) (f : Firework) (u : FireworkUpdate) (s : Scene) : Scene :=
  if u.life ≤ 0 then brocadeBurst env f u (peonyBurst env f u s) else s

/-- The body of the `while` loop of `UpdateFireworks` up to, and not including, the call
of `RemoveFireworkIfDeadAndMoveToNext`, for the particle `(f, u)` the two iterators point
at: the new value of that particle and the scene with the particles it emitted. -/
def updateParticle (env : Env) (trailFuel : ℕ) (frameTime : ℚ) (f : Firework)
    (u : FireworkUpdate) (s : Scene) : Option (Firework × FireworkUpdate × Scene) :=
  let fu := moveAndAge frameTime f u
  let fu := simpleStarUpdate env frameTime fu.1 fu.2
  match trailStarUpdate env trailFuel frameTime fu.1 fu.2 s with
  | some (f1, u1, s1) => some (f1, u1, burstWhenDead env f1 u1 (cometUpdate env f1 u1 s1))
  | none => none

/-- The writes made through the two iterators: the records they point at are replaced by
the updated particle. -/
def writeBack (s : Scene) (fireworkIt fireworkUpdateIt : ℕ) (f : Firework)
    (u : FireworkUpdate) : Scene :=
  { s with
    Fireworks := s.Fireworks.set fireworkIt f
    FireworkUpdates := s.FireworkUpdates.set fireworkUpdateIt u }

/-- One round of the `while` loop of `UpdateFireworks`: the particle under the iterators
is updated in place, then `RemoveFireworkIfDeadAndMoveToNext` is called. -/
def updateStep (env : Env) (trailFuel : ℕ) (frameTime : ℚ) (s : Scene)
    (fireworkIt fireworkUpdateIt : ℕ) : Option (Scene × ℕ × ℕ) :=
  match s.Fireworks[fireworkIt]?, s.FireworkUpdates[fireworkUpdateIt]? with
  | some f, some u =>
    match updateParticle env trailFuel frameTime f u s with
    | some (f1, u1, s1) =>
      RemoveFireworkIfDeadAndMoveToNext (writeBack s1 fireworkIt fireworkUpdateIt f1 u1)
        fireworkIt fireworkUpdateIt
    | none => none
  | _, _ => none

/-- The loop `while (fireworkIt != Fireworks.end())` of `UpdateFireworks`. -/
def updateLoop (env : Env) (trailFuel : ℕ) (frameTime : ℚ) : ℕ → Scene → ℕ → ℕ →
    Option Scene
  | 0, s, fireworkIt, _ => if fireworkIt = s.Fireworks.length then some s else none
  | fuel + 1, s, fireworkIt, fireworkUpdateIt =>
    if fireworkIt = s.Fireworks.length then some s
    else
      match updateStep env trailFuel frameTime s fireworkIt fireworkUpdateIt with
      | some (s1, it1, uit1) => updateLoop env trailFuel frameTime fuel s1 it1 uit1
      | none => none

/-- The function `UpdateFireworks`: both iterators start at `begin()`.  The fuel bounds the
rounds of the outer loop and, separately, the rounds of each trail loop. -/
def UpdateFireworks (env : Env) (fuel : ℕ) (frameTime : ℚ) (s : Scene) : Option Scene :=
  updateLoop env fuel frameTime fuel s 0 0

/-! ## Predicates and functions used in the statements -/

/-- Both vectors have the same length. -/
def Aligned (s : Scene) : Prop := s.Fireworks.length = s.FireworkUpdates.length

instance (s : Scene) : Decidable (Aligned s) := by unfold Aligned; infer_instance

/-- The store invariant: both vectors have the same length, at most `MaxFireworks`. -/
def StoreInv (s : Scene) : Prop := Aligned s ∧ s.Fireworks.length ≤ MaxFireworks

/-- The scene `t` is the scene `s` with particles appended to the end of both vectors, all
of whose update records satisfy `P`. -/
def GrowsBy (P : FireworkUpdate → Prop) (s t : Scene) : Prop :=
  ∃ lf lu, lf.length = lu.length ∧ t.Fireworks = s.Fireworks ++ lf ∧
    t.FireworkUpdates = s.FireworkUpdates ++ lu ∧ (∀ u ∈ lu, P u) ∧
    (s.Fireworks.length ≤ MaxFireworks → t.Fireworks.length ≤ MaxFireworks)

/-- What the trail and comet blocks emit: a simple star with life `0.4`. -/
def IsTrailSpawn (u : FireworkUpdate) : Prop :=
  u.type = FireworkType.StarSimple ∧ u.life = 2 / 5

/-- Every particle in front of position `i` is alive. -/
def AlivePrefix (s : Scene) (i : ℕ) : Prop :=
  ∀ k, k < i → ∀ u, s.FireworkUpdates[k]? = some u → 0 < u.life

/-- The aligned render/update pairs of a store. -/
def pairs (s : Scene) : List (Firework × FireworkUpdate) :=
  s.Fireworks.zip s.FireworkUpdates

/-- The store whose two vectors are the two components of a list of pairs. -/
def ofPairs (l : List (Firework × FireworkUpdate)) (k : ℕ) : Scene :=
  { Fireworks := l.map Prod.fst, FireworkUpdates := l.map Prod.snd, randomCalls := k }

/-- The effect of one visit of `UpdateFireworks` on the visited particle, its timer and the
particles it emits left aside: movement and ageing, then the fade and slow-down of the
simple star block and of the trail star block. -/
def flightUpdate (env : Env) (frameTime : ℚ) (p : Firework × FireworkUpdate) :
    Firework × FireworkUpdate :=
  let fu := moveAndAge frameTime p.1 p.2
  let fu := simpleStarUpdate env frameTime fu.1 fu.2
  if fu.2.type = FireworkType.StarSmallTrail then fadeAndSlow env frameTime fu.1 fu.2 else fu

/-- The update of a simple star in one visit: movement and ageing, then fade, shrink and
slow-down. -/
def simpleStarTick (env : Env) (frameTime : ℚ) (p : Firework × FireworkUpdate) :
    Firework × FireworkUpdate :=
  fadeAndSlow env frameTime (moveAndAge frameTime p.1 p.2).1 (moveAndAge frameTime p.1 p.2).2

/-- The rounds of the trail loop entered with the timer at `t`, counted up to `n`. -/
def trailRoundsWithin : ℕ → ℚ → ℕ
  | 0, _ => 0
  | n + 1, t => if t ≤ 0 then trailRoundsWithin n (rearm t) + 1 else 0

/-- The number of rounds of the trail loop entered with the timer at `t`: as many as it
takes `timer += 0.05f` to bring the timer above zero.  The count is cut off at
`floor (-64 t) + 1` rounds, which is not reached for `t >= -500000`, where every round
raises the timer by at least `1 / 64`. -/
def trailRounds (t : ℚ) : ℕ :=
  trailRoundsWithin (⌊-t * 64⌋.toNat + 1) t

/-- The timer after `n` rounds of the trail loop entered with the timer at `t`. -/
def timerAfter : ℕ → ℚ → ℚ
  | 0, t => t
  | n + 1, t => timerAfter n (rearm t)

/-- The timer of a trail star, lowered by the frame time, is not below `-500000`: the
range in which `timer += 0.05f` still raises the timer in `float` arithmetic (from
`-2 ^ 20` down the sum rounds back to the timer). -/
def RearmInRange (frameTime : ℚ) (u : FireworkUpdate) : Prop :=
  u.type = FireworkType.StarSmallTrail → -500000 ≤ u.timer - frameTime

instance (frameTime : ℚ) (u : FireworkUpdate) : Decidable (RearmInRange frameTime u) := by
  unfold RearmInRange; infer_instance

/-- A particle after a visit it survived: the in-flight update of the particle it was, up
to the timer. -/
def SurvivorOf (env : Env) (frameTime : ℚ) (p q : Firework × FireworkUpdate) : Prop :=
  q.1 = (flightUpdate env frameTime p).1 ∧
    q.2 = { (flightUpdate env frameTime p).2 with timer := q.2.timer }

/-- The number of particles a visit of `p` may append while `p` stays alive: one per round
of the trail loop, or one from the comet block. -/
def spawnBound (frameTime : ℚ) (p : Firework × FireworkUpdate) : ℕ :=
  trailRounds (p.2.timer - frameTime) + 1

/-- Fuel that suffices for a step in which no particle of the initial store expires: one
round per initial particle and one per particle they may emit. -/
def stepFuel (frameTime : ℚ) (s : Scene) : ℕ :=
  s.Fireworks.length + ((pairs s).map (spawnBound frameTime)).sum

/-- The particle `p` of the initial store is still waiting at or behind position `i`, or
its update is in front of position `i`. -/
def Tracked (env : Env) (frameTime : ℚ) (p : Firework × FireworkUpdate) (s : Scene)
    (i : ℕ) : Prop :=
  (∃ j, i ≤ j ∧ s.Fireworks[j]? = some p.1 ∧ s.FireworkUpdates[j]? = some p.2) ∨
  (∃ j q, j < i ∧ s.Fireworks[j]? = some q.1 ∧ s.FireworkUpdates[j]? = some q.2 ∧
    SurvivorOf env frameTime p q)

/-- The render record built in the burst loops of the peony and of the brocade rocket, for
the rocket `(f, u)`. -/
def burstFirework (f : Firework) (u : FireworkUpdate) : Firework :=
  { position := f.position, scale := 3 / 2, colour := u.payloadColourA, rotation := 0 }

/-- The update record built in the burst loop of the peony rocket `u` when `k` random draws
have been made. -/
def peonyUpdate (env : Env) (u : FireworkUpdate) (k : ℕ) : FireworkUpdate :=
  { env.uninitialised k with
    type := u.payloadTypeA
    velocity := u.velocity.add (randomJitter env k 50)
    life := 7 / 5
    timer := 0 }

/-- The update record built in the burst loop of the brocade rocket `u` when `k` random
draws have been made. -/
def brocadeUpdate (env : Env) (u : FireworkUpdate) (k : ℕ) : FireworkUpdate :=
  { env.uninitialised k with
    type := FireworkType.StarSmallTrail
    velocity := u.velocity.add (randomJitter env k 60)
    life := 7
    timer := roundFloat32 (1 / 20) }

/-- The shape shared by the emission blocks: three random draws, then `AddFirework` on the
render record `fw` and the update record built from the draws. -/
def cappedEmit (fw : Firework) (mk : ℕ → FireworkUpdate) (s : Scene) : Scene :=
  (AddFirework fw (mk s.randomCalls) { s with randomCalls := s.randomCalls + 3 }).2

/-- The particles a burst of `n` rounds appends to a store of `len` particles holding `k`
random draws: one per round while there is room. -/
def burstSpawns (fw : Firework) (mk : ℕ → FireworkUpdate) (n len k : ℕ) :
    List (Firework × FireworkUpdate) :=
  (List.range (min n (MaxFireworks - len))).map (fun i => (fw, mk (k + 3 * i)))

/-- The two star types. -/
def IsStarType (t : FireworkType) : Prop :=
  t = FireworkType.StarSimple ∨ t = FireworkType.StarSmallTrail

/-- The four rocket types. -/
def IsRocketType (t : FireworkType) : Prop :=
  t = FireworkType.PeonyRocket ∨ t = FireworkType.FancyPeonyRocket ∨
    t = FireworkType.CometRocket ∨ t = FireworkType.BrocadeRocket

instance (t : FireworkType) : Decidable (IsStarType t) := by unfold IsStarType; infer_instance

instance (t : FireworkType) : Decidable (IsRocketType t) := by
  unfold IsRocketType; infer_instance

/-- A bound on the number of particles the visit of `u` appends: the rounds of the trail
loop, the one star of the comet block, or the rounds of a burst loop. -/
def spawnCap (frameTime : ℚ) (u : FireworkUpdate) : ℕ :=
  match u.type with
  | FireworkType.StarSimple => 0
  | FireworkType.FancyPeonyRocket => 0
  | FireworkType.StarSmallTrail => trailRounds (u.timer - frameTime)
  | FireworkType.CometRocket => 1
  | FireworkType.PeonyRocket => u.payloadIntA.toNat
  | FireworkType.BrocadeRocket => u.payloadIntA.toNat

/-- A bound on the weight of one particle the visit of `u` appends: burst particles may be
trail stars, whose timer starts at `0` (peony) or `0.05f` (brocade); all others are simple
stars. -/
def spawnWeightCap (frameTime : ℚ) (u : FireworkUpdate) : ℕ :=
  match u.type with
  | FireworkType.PeonyRocket => 1 + trailRounds (0 - frameTime)
  | FireworkType.BrocadeRocket => 1 + trailRounds (roundFloat32 (1 / 20) - frameTime)
  | _ => 1

/-- The weight of a particle that has not been visited yet: a bound on the rounds of the
outer loop spent on it and on everything it emits in this step. -/
def visitWeight (frameTime : ℚ) (u : FireworkUpdate) : ℕ :=
  1 + spawnCap frameTime u * spawnWeightCap frameTime u

/-- Fuel that suffices for a step on a store whose rockets carry stars: the weights of its
particles, added up. -/
def terminationFuel (frameTime : ℚ) (s : Scene) : ℕ :=
  ((pairs s).map (fun p => visitWeight frameTime p.2)).sum

/-- The render record built in the trail star block and in the comet block, for the emitting
particle `f`. -/
def trailFirework (f : Firework) : Firework :=
  { position := f.position, scale := 3 / 4, colour := f.colour, rotation := 0 }

/-- The update record built in one round of the trail loop of the trail star `u` when `k`
random draws have been made; its timer is whatever the uninitialised local held. -/
def trailUpdate (env : Env) (u : FireworkUpdate) (k : ℕ) : FireworkUpdate :=
  { env.uninitialised k with
    type := FireworkType.StarSimple
    velocity := (u.velocity.mul (1 / 2)).add (randomJitter env k 5)
    life := 2 / 5 }

/-- The update record built in the comet block of the comet rocket `u` when `k` random draws
have been made. -/
def cometStarUpdate (env : Env) (u : FireworkUpdate) (k : ℕ) : FireworkUpdate :=
  { env.uninitialised k with
    type := FireworkType.StarSimple
    velocity := (u.velocity.mul (1 / 2)).add (randomJitter env k 5)
    life := 2 / 5
    timer := roundFloat32 (1 / 20) }

/-- Every call `Random(-r, r)` returns a value between `-r` and `r`. -/
def RandomInRange (env : Env) (r : ℚ) : Prop :=
  ∀ k, -r ≤ env.Random k (-r) r ∧ env.Random k (-r) r ≤ r

/-- On each axis the difference `v - w` lies between `-r` and `r`. -/
def WithinJitter (r : ℚ) (v w : CVector3) : Prop :=
  (-r ≤ v.x - w.x ∧ v.x - w.x ≤ r) ∧ (-r ≤ v.y - w.y ∧ v.y - w.y ≤ r) ∧
    (-r ≤ v.z - w.z ∧ v.z - w.z ≤ r)

/-- The fields of a simple star whose decay does not depend on its position or on gravity:
life, alpha, scale and the two horizontal components of the velocity. -/
structure StarDecay where
  life : ℚ
  alpha : ℚ
  scale : ℚ
  vx : ℚ
  vz : ℚ
  deriving DecidableEq

/-- What one visit of `UpdateFireworks` does to these fields of a simple star, every
operation rounded to `float`: `life -= frameTime`, `colour.a -= 0.5f * frameTime`,
`scale -= 1.0f * frameTime` and, on each component, `velocity *= powf(0.5f, frameTime)`. -/
def starDecay32 (env : Env) (frameTime : ℚ) (d : StarDecay) : StarDecay :=
  { life := subFloat32 d.life frameTime
    alpha := subFloat32 d.alpha (mulFloat32 (1 / 2) frameTime)
    scale := subFloat32 d.scale (mulFloat32 1 frameTime)
    vx := mulFloat32 d.vx (env.powf (1 / 2) frameTime)
    vz := mulFloat32 d.vz (env.powf (1 / 2) frameTime) }

/-- A vector with all components zero. -/
def zeroVector : CVector3 := { x := 0, y := 0, z := 0 }

/-- Solid white. -/
def white : ColourRGBA := { r := 1, g := 1, b := 1, a := 1 }

/-- A render record at the origin. -/
def sampleFirework : Firework :=
  { position := zeroVector, scale := 1, colour := white, rotation := 0 }

/-- An update record of the given type, life and timer, at rest. -/
def sampleUpdate (type : FireworkType) (life timer : ℚ) : FireworkUpdate :=
  { type := type, velocity := zeroVector, life := life, timer := timer,
    payloadTypeA := FireworkType.StarSimple, payloadTypeB := FireworkType.StarSimple,
    payloadIntA := 0, payloadIntB := 0, payloadColourA := white, payloadColourB := white }

/-- A sample environment: `Random` returns the middle of its range, `powf` is exact at
whole exponents, and uninitialised records are zeroed. -/
def sampleEnv : Env :=
  { Random := fun _ lo hi => (lo + hi) / 2
    powf := fun b e => b ^ ⌊e⌋
    uninitialised := fun _ => sampleUpdate FireworkType.PeonyRocket 0 0 }

/-- A store holding one simple star with two seconds to live. -/
def oneStar : Scene :=
  { Fireworks := [sampleFirework]
    FireworkUpdates := [sampleUpdate FireworkType.StarSimple 2 0]
    randomCalls := 0 }

/-- A store filled to `MaxFireworks` with copies of one simple star. -/
def fullStore : Scene :=
  { Fireworks := List.replicate MaxFireworks sampleFirework
    FireworkUpdates := List.replicate MaxFireworks (sampleUpdate FireworkType.StarSimple 2 0)
    randomCalls := 0 }

/-- A store of three simple stars of which the middle one is dead; the render records are
told apart by their scale. -/
def threeStars : Scene :=
  { Fireworks := [{ sampleFirework with scale := 1 }, { sampleFirework with scale := 2 },
      { sampleFirework with scale := 3 }]
    FireworkUpdates := [sampleUpdate FireworkType.StarSimple 1 0,
      sampleUpdate FireworkType.StarSimple 0 0, sampleUpdate FireworkType.StarSimple 3 0]
    randomCalls := 0 }

/-- The store `threeStars` after a step of one second: only the third star is left. -/
def threeStarsAfter : Scene :=
  { Fireworks := [{ sampleFirework with scale := 2, colour := { white with a := 1 / 2 } }]
    FireworkUpdates := [{ sampleUpdate FireworkType.StarSimple 2 0 with
      velocity := { x := 0, y := -15, z := 0 } }]
    randomCalls := 0 }

/-- A store of a live trail star, whose timer has run out, and a simple star that is
already dead. -/
def trailAndDead : Scene :=
  { Fireworks := [sampleFirework, sampleFirework]
    FireworkUpdates := [sampleUpdate FireworkType.StarSmallTrail 2 0,
      sampleUpdate FireworkType.StarSimple 0 0]
    randomCalls := 0 }

/-- The store `trailAndDead` after a step of frame time zero: the trail star has emitted
one simple star, which has taken the place of the dead one. -/
def trailAndDeadAfter : Scene :=
  { Fireworks := [sampleFirework, { sampleFirework with scale := 3 / 4 }]
    FireworkUpdates := [sampleUpdate FireworkType.StarSmallTrail 2 (roundFloat32 (1 / 20)),
      { sampleUpdate FireworkType.PeonyRocket (2 / 5) 0 with type := FireworkType.StarSimple }]
    randomCalls := 3 }

/-- A store of a comet rocket, a trail star whose timer has run out, and a simple star, each
with two seconds to live. -/
def mixedStore : Scene :=
  { Fireworks := [sampleFirework, sampleFirework, sampleFirework]
    FireworkUpdates := [sampleUpdate FireworkType.CometRocket 2 0,
      sampleUpdate FireworkType.StarSmallTrail 2 0, sampleUpdate FireworkType.StarSimple 2 0]
    randomCalls := 0 }

/-- The store `oneStar` after a step of one second. -/
def oneStarAfter : Scene :=
  { Fireworks := [{ sampleFirework with scale := 0, colour := { white with a := 1 / 2 } }]
    FireworkUpdates := [{ sampleUpdate FireworkType.StarSimple 1 0 with
      velocity := { x := 0, y := -15, z := 0 } }]
    randomCalls := 0 }

/-- A store holding one comet rocket with two seconds to live. -/
def oneComet : Scene :=
  { Fireworks := [sampleFirework]
    FireworkUpdates := [sampleUpdate FireworkType.CometRocket 2 0]
    randomCalls := 0 }

/-- The store `oneComet` after a step of one second: the star the comet emitted has
expired within the step. -/
def oneCometAfter : Scene :=
  { Fireworks := [sampleFirework]
    FireworkUpdates := [{ sampleUpdate FireworkType.CometRocket 1 0 with
      velocity := { x := 0, y := -30, z := 0 } }]
    randomCalls := 3 }

/-- A store holding one trail star with timer `0.12f` and two seconds to live. -/
def oneTrail : Scene :=
  { Fireworks := [sampleFirework]
    FireworkUpdates := [sampleUpdate FireworkType.StarSmallTrail 2 (roundFloat32 (3 / 25))]
    randomCalls := 0 }

/-- A store holding one fancy peony rocket, a type for which `UpdateFireworks` has no block,
with two seconds to live. -/
def oneFancy : Scene :=
  { Fireworks := [sampleFirework]
    FireworkUpdates := [sampleUpdate FireworkType.FancyPeonyRocket 2 0]
    randomCalls := 0 }

/-- The store `oneFancy` after a step of one second. -/
def oneFancyAfter : Scene :=
  { Fireworks := [sampleFirework]
    FireworkUpdates := [{ sampleUpdate FireworkType.FancyPeonyRocket 1 0 with
      velocity := { x := 0, y := -30, z := 0 } }]
    randomCalls := 0 }

/-- A store of a peony rocket, a trail star whose timer is running, and a simple star, all
alive. -/
def threeLive : Scene :=
  { Fireworks := [sampleFirework, sampleFirework, sampleFirework]
    FireworkUpdates := [sampleUpdate FireworkType.PeonyRocket 2 0,
      sampleUpdate FireworkType.StarSmallTrail 2 (roundFloat32 (1 / 20)),
      sampleUpdate FireworkType.StarSimple 2 0]
    randomCalls := 0 }

/-- A comet rocket whose life has run out, carrying a payload count of three. -/
def deadComet : FireworkUpdate :=
  { sampleUpdate FireworkType.CometRocket 0 0 with payloadIntA := 3 }

/-- A brocade rocket whose life has run out, carrying two simple stars as payload. -/
def deadBrocade : FireworkUpdate :=
  { sampleUpdate FireworkType.BrocadeRocket 0 0 with payloadIntA := 2 }

/-- A peony rocket whose life has run out, carrying two simple stars as payload. -/
def deadPeony : FireworkUpdate :=
  { sampleUpdate FireworkType.PeonyRocket 0 0 with payloadIntA := 2 }

/-- A store holding the rocket `u` alone. -/
def storeOf (u : FireworkUpdate) : Scene :=
  { Fireworks := [sampleFirework], FireworkUpdates := [u], randomCalls := 0 }

/-- A store of a peony rocket about to burst into two trail stars, a comet rocket in
flight, and a brocade rocket about to burst into one trail star. -/
def rocketStore : Scene :=
  { Fireworks := [sampleFirework, sampleFirework, sampleFirework]
    FireworkUpdates := [
      { sampleUpdate FireworkType.PeonyRocket (1 / 2) 0 with
        payloadTypeA := FireworkType.StarSmallTrail, payloadIntA := 2 },
      sampleUpdate FireworkType.CometRocket 2 0,
      { sampleUpdate FireworkType.BrocadeRocket (1 / 2) 0 with payloadIntA := 1 }]
    randomCalls := 0 }

/-- A direction of length two, straight up. -/
def upTwo : CVector3 := { x := 0, y := 2, z := 0 }

/-- The decaying fields of a simple star with three seconds to live, at full alpha and
scale, with the horizontal velocity `(4, -4)`. -/
def freshStar : StarDecay :=
  { life := 3, alpha := 1, scale := 1, vx := 4, vz := -4 }

/-- A sample environment whose `powf` returns, for the base `0.5`, the `float` nearest to
the power at the exponents `0.1f` and `0.2f`, and one elsewhere. -/
def floatEnv : Env :=
  { sampleEnv with
    powf := fun _ e =>
      if e = roundFloat32 (1 / 10) then 244589 / 262144
      else if e = roundFloat32 (1 / 5) then 14605415 / 16777216
      else 1 }

/-- A trail star whose timer is a quarter of a second overdue and whose life ends within a
quarter of a second. -/
def dyingTrail : FireworkUpdate :=
  sampleUpdate FireworkType.StarSmallTrail (1 / 4) (-1 / 4)

/-- An expired trail star whose timer is five thousand seconds overdue. -/
def staleTrail : FireworkUpdate :=
  sampleUpdate FireworkType.StarSmallTrail 0 (-5000)

/-- An expired trail star whose timer is `2 ^ 21` seconds overdue. -/
def stuckTrail : FireworkUpdate :=
  sampleUpdate FireworkType.StarSmallTrail 0 (-2097152)

/-! ## Lemmas on `float` rounding -/

theorem leadingBit_spec (fuel n : ℕ) (hn : 1 ≤ n) (hf : n ≤ fuel) :
    2 ^ leadingBit fuel n ≤ n ∧ n < 2 ^ (leadingBit fuel n + 1) := by
  induction fuel generalizing n with
  | zero => omega
  | succ f ih =>
    unfold leadingBit
    split
    · constructor <;> simp <;> omega
    · rename_i h
      obtain ⟨h1, h2⟩ := ih (n / 2) (by omega) (by omega)
      constructor
      · rw [pow_succ]
        omega
      · rw [pow_succ]
        omega

theorem binadeExp_spec (x : ℚ) (hx : x ≠ 0) :
    (2 : ℚ) ^ binadeExp x ≤ |x| ∧ |x| < 2 ^ (binadeExp x + 1) := by
  have hnum : 1 ≤ x.num.natAbs := by
    have : x.num ≠ 0 := Rat.num_ne_zero.mpr hx
    omega
  have hden : 1 ≤ x.den := x.den_pos
  obtain ⟨n1, n2⟩ := leadingBit_spec _ _ hnum le_rfl
  obtain ⟨d1, d2⟩ := leadingBit_spec _ _ hden le_rfl
  have habs : |x| = (x.num.natAbs : ℚ) / (x.den : ℚ) := by
    conv_lhs => rw [← Rat.num_div_den x]
    rw [abs_div, Nat.abs_cast, Nat.cast_natAbs, Int.cast_abs]
  have hdpos : (0 : ℚ) < x.den := by exact_mod_cast hden
  have n1q : (2 : ℚ) ^ leadingBit x.num.natAbs x.num.natAbs ≤ (x.num.natAbs : ℚ) := by
    exact_mod_cast n1
  have n2q : (x.num.natAbs : ℚ) < 2 ^ (leadingBit x.num.natAbs x.num.natAbs + 1) := by
    exact_mod_cast n2
  have d1q : (2 : ℚ) ^ leadingBit x.den x.den ≤ (x.den : ℚ) := by exact_mod_cast d1
  have d2q : (x.den : ℚ) < 2 ^ (leadingBit x.den x.den + 1) := by exact_mod_cast d2
  unfold binadeExp
  simp only
  generalize leadingBit x.num.natAbs x.num.natAbs = a at *
  generalize leadingBit x.den x.den = b at *
  have h2 : (0 : ℚ) < 2 := by norm_num
  have hlow : (2 : ℚ) ^ ((a : ℤ) - (b : ℤ) - 1) ≤ |x| := by
    rw [habs, le_div_iff₀ hdpos]
    calc (2 : ℚ) ^ ((a : ℤ) - (b : ℤ) - 1) * x.den
        ≤ 2 ^ ((a : ℤ) - (b : ℤ) - 1) * 2 ^ (b + 1) :=
          mul_le_mul_of_nonneg_left d2q.le (zpow_nonneg h2.le _)
      _ = 2 ^ a := by
          rw [← zpow_natCast (2 : ℚ) (b + 1), ← zpow_add₀ h2.ne', ← zpow_natCast (2 : ℚ) a]
          congr 1
          push_cast
          ring
      _ ≤ x.num.natAbs := n1q
  have hhigh : |x| < (2 : ℚ) ^ ((a : ℤ) - (b : ℤ) + 1) := by
    rw [habs, div_lt_iff₀ hdpos]
    calc (x.num.natAbs : ℚ) < 2 ^ (a + 1) := n2q
      _ = 2 ^ ((a : ℤ) - (b : ℤ) + 1) * 2 ^ b := by
          rw [← zpow_natCast (2 : ℚ) b, ← zpow_add₀ h2.ne', ← zpow_natCast (2 : ℚ) (a + 1)]
          congr 1
          push_cast
          ring
      _ ≤ 2 ^ ((a : ℤ) - (b : ℤ) + 1) * x.den :=
          mul_le_mul_of_nonneg_left d1q (zpow_nonneg h2.le _)
  split
  · rename_i h
    exact ⟨h, hhigh⟩
  · rename_i h
    refine ⟨hlow, ?_⟩
    rw [sub_add_cancel]
    exact not_le.mp h

/-- Rounding to the nearest integer moves by at most one half. -/
theorem roundHalfEven_error (r : ℚ) : |(roundHalfEven r : ℚ) - r| ≤ 1 / 2 := by
  have h1 := Int.floor_le r
  have h2 := Int.lt_floor_add_one r
  unfold roundHalfEven
  rw [abs_le]
  split_ifs <;> push_cast <;> constructor <;> linarith

theorem roundHalfEven_le (r : ℚ) (n : ℤ) (h : r ≤ n) : roundHalfEven r ≤ n := by
  have h1 := Int.floor_le r
  have hfl : ⌊r⌋ ≤ n := by
    have : (⌊r⌋ : ℚ) ≤ n := le_trans h1 h
    exact_mod_cast this
  by_cases heq : (⌊r⌋ : ℚ) = r
  · unfold roundHalfEven
    rw [if_pos (by rw [heq]; norm_num)]
    exact hfl
  · have hlt : (⌊r⌋ : ℚ) < n := lt_of_lt_of_le (lt_of_le_of_ne h1 heq) h
    have hfl1 : ⌊r⌋ + 1 ≤ n := by
      have : ⌊r⌋ < n := by exact_mod_cast hlt
      omega
    unfold roundHalfEven
    split_ifs <;> omega

theorem le_roundHalfEven (r : ℚ) (n : ℤ) (h : (n : ℚ) ≤ r) : n ≤ roundHalfEven r := by
  have hfl : n ≤ ⌊r⌋ := Int.le_floor.mpr h
  unfold roundHalfEven
  split_ifs <;> omega


/-- The rounding error of `roundFloat32` is at most half a unit in the last place: for
`|x| < 2 ^ (k + 1)` with `k >= -126` it is at most `2 ^ (k - 24)`. -/
theorem roundFloat32_error (x : ℚ) (k : ℤ) (hk : -126 ≤ k) (hx : |x| < 2 ^ (k + 1)) :
    |roundFloat32 x - x| ≤ 2 ^ (k - 24) := by
  have h2 : (0 : ℚ) < 2 := by norm_num
  unfold roundFloat32
  split
  · rename_i h0
    rw [h0]
    simp only [sub_self, abs_zero]
    exact zpow_nonneg h2.le _
  · rename_i h0
    obtain ⟨hlo, -⟩ := binadeExp_spec x h0
    have he : binadeExp x ≤ k := by
      have hlt : (2 : ℚ) ^ binadeExp x < 2 ^ (k + 1) := lt_of_le_of_lt hlo hx
      have := (zpow_lt_zpow_iff_right₀ (by norm_num : (1 : ℚ) < 2)).mp hlt
      omega
    have hmax : max (binadeExp x) (-126) ≤ k := max_le he hk
    generalize max (binadeExp x) (-126) = e at hmax
    have hq : (0 : ℚ) < 2 ^ (e - 23) := zpow_pos h2 _
    have herr := roundHalfEven_error (x / 2 ^ (e - 23))
    have hfac : (roundHalfEven (x / 2 ^ (e - 23)) : ℚ) * 2 ^ (e - 23) - x =
        ((roundHalfEven (x / 2 ^ (e - 23)) : ℚ) - x / 2 ^ (e - 23)) * 2 ^ (e - 23) := by
      field_simp
    rw [hfac, abs_mul, abs_of_pos hq]
    calc |(roundHalfEven (x / 2 ^ (e - 23)) : ℚ) - x / 2 ^ (e - 23)| * 2 ^ (e - 23)
        ≤ 1 / 2 * 2 ^ (e - 23) := mul_le_mul_of_nonneg_right herr hq.le
      _ = 2 ^ (e - 24) := by
          rw [show e - 23 = (e - 24) + 1 by ring, zpow_add_one₀ h2.ne']
          ring
      _ ≤ 2 ^ (k - 24) := zpow_le_zpow_right₀ (by norm_num) (by omega)

theorem roundFloat32_nonpos (x : ℚ) (hx : x ≤ 0) : roundFloat32 x ≤ 0 := by
  unfold roundFloat32
  split
  · exact le_rfl
  · have hq : (0 : ℚ) < 2 ^ (max (binadeExp x) (-126) - 23) := zpow_pos (by norm_num) _
    have h : roundHalfEven (x / 2 ^ (max (binadeExp x) (-126) - 23)) ≤ 0 :=
      roundHalfEven_le _ 0 (by
        push_cast
        exact div_nonpos_of_nonpos_of_nonneg hx hq.le)
    have h1 : (roundHalfEven (x / 2 ^ (max (binadeExp x) (-126) - 23)) : ℚ) ≤ 0 := by
      exact_mod_cast h
    exact mul_nonpos_of_nonpos_of_nonneg h1 hq.le

/-- The `float` literal `0.05f`. -/
theorem roundFloat32_twentieth : roundFloat32 (1 / 20) = 13421773 / 268435456 := by decide!

/-- Nothing at or below `0.05f` rounds to a value above it. -/
theorem roundFloat32_le_twentieth (y : ℚ) (hy : y ≤ 13421773 / 268435456) :
    roundFloat32 y ≤ 13421773 / 268435456 := by
  have h2 : (0 : ℚ) < 2 := by norm_num
  rcases le_or_lt y 0 with h0 | h0
  · exact le_trans (roundFloat32_nonpos y h0) (by norm_num)
  · unfold roundFloat32
    rw [if_neg h0.ne']
    obtain ⟨hlo, hhi⟩ := binadeExp_spec y h0.ne'
    rw [abs_of_pos h0] at hlo hhi
    have he : binadeExp y ≤ -5 := by
      have hlt : (2 : ℚ) ^ binadeExp y < 2 ^ (-4 : ℤ) :=
        lt_of_le_of_lt hlo (lt_of_le_of_lt hy (by norm_num))
      have := (zpow_lt_zpow_iff_right₀ (by norm_num : (1 : ℚ) < 2)).mp hlt
      omega
    have hmax : max (binadeExp y) (-126) ≤ -5 := max_le he (by norm_num)
    have hge : binadeExp y ≤ max (binadeExp y) (-126) := le_max_left _ _
    generalize max (binadeExp y) (-126) = e at hmax hge
    have hq : (0 : ℚ) < 2 ^ (e - 23) := zpow_pos h2 _
    rcases eq_or_lt_of_le hmax with heq | hlt
    · subst heq
      have h : roundHalfEven (y / 2 ^ ((-5 : ℤ) - 23)) ≤ 13421773 :=
        roundHalfEven_le _ _ (by
          rw [div_le_iff₀ hq]
          refine le_trans hy (le_of_eq ?_)
          norm_num)
      have h1 : (roundHalfEven (y / 2 ^ ((-5 : ℤ) - 23)) : ℚ) ≤ 13421773 := by exact_mod_cast h
      calc (roundHalfEven (y / 2 ^ ((-5 : ℤ) - 23)) : ℚ) * 2 ^ ((-5 : ℤ) - 23)
          ≤ 13421773 * 2 ^ ((-5 : ℤ) - 23) := mul_le_mul_of_nonneg_right h1 hq.le
        _ = 13421773 / 268435456 := by norm_num
    · have hy2 : y < 2 ^ (e + 1) :=
        lt_of_lt_of_le hhi (zpow_le_zpow_right₀ (by norm_num) (by omega))
      have hpow : (16777216 : ℚ) * 2 ^ (e - 23) = 2 ^ (e + 1) := by
        rw [show (16777216 : ℚ) = 2 ^ (24 : ℤ) by norm_num, ← zpow_add₀ h2.ne']
        congr 1
        ring
      have h : roundHalfEven (y / 2 ^ (e - 23)) ≤ 16777216 :=
        roundHalfEven_le _ _ (by
          rw [div_le_iff₀ hq]
          push_cast
          rw [hpow]
          exact hy2.le)
      have h1 : (roundHalfEven (y / 2 ^ (e - 23)) : ℚ) ≤ 16777216 := by exact_mod_cast h
      calc (roundHalfEven (y / 2 ^ (e - 23)) : ℚ) * 2 ^ (e - 23)
          ≤ 16777216 * 2 ^ (e - 23) := mul_le_mul_of_nonneg_right h1 hq.le
        _ = 2 ^ (e + 1) := hpow
        _ ≤ 2 ^ (-5 : ℤ) := zpow_le_zpow_right₀ (by norm_num) (by omega)
        _ ≤ 13421773 / 268435456 := by norm_num

/-! ## Lemmas on the store operations -/

theorem addFirework_full (f : Firework) (u : FireworkUpdate) (s : Scene)
    (h : MaxFireworks ≤ s.Fireworks.length) : AddFirework f u s = (false, s) := by
  unfold AddFirework
  rw [if_pos h]

theorem addFirework_room (f : Firework) (u : FireworkUpdate) (s : Scene)
    (h : s.Fireworks.length < MaxFireworks) :
    AddFirework f u s = (true, { s with
      Fireworks := s.Fireworks ++ [f]
      FireworkUpdates := s.FireworkUpdates ++ [u] }) := by
  unfold AddFirework
  rw [if_neg (by omega)]

theorem growsBy_refl (P : FireworkUpdate → Prop) (s : Scene) : GrowsBy P s s :=
  ⟨[], [], rfl, by simp, by simp, by simp, fun h => h⟩

theorem growsBy_trans {P : FireworkUpdate → Prop} {s t r : Scene}
    (h1 : GrowsBy P s t) (h2 : GrowsBy P t r) : GrowsBy P s r := by
  obtain ⟨lf, lu, hl, hf, hu, hP, hc⟩ := h1
  obtain ⟨lf2, lu2, hl2, hf2, hu2, hP2, hc2⟩ := h2
  refine ⟨lf ++ lf2, lu ++ lu2, by simp [hl, hl2], by simp [hf2, hf], by simp [hu2, hu], ?_,
    fun h => hc2 (hc h)⟩
  intro u hu
  rcases List.mem_append.mp hu with h | h
  · exact hP u h
  · exact hP2 u h

theorem growsBy_mono {P Q : FireworkUpdate → Prop} {s t : Scene} (hPQ : ∀ u, P u → Q u)
    (h : GrowsBy P s t) : GrowsBy Q s t := by
  obtain ⟨lf, lu, hl, hf, hu, hP, hc⟩ := h
  exact ⟨lf, lu, hl, hf, hu, fun u hu => hPQ u (hP u hu), hc⟩

theorem growsBy_addFirework (P : FireworkUpdate → Prop) (f : Firework) (u : FireworkUpdate)
    (s : Scene) (k : ℕ) (hu : P u) :
    GrowsBy P s (AddFirework f u { s with randomCalls := k }).2 := by
  by_cases h : MaxFireworks ≤ s.Fireworks.length
  · rw [addFirework_full f u ⟨s.Fireworks, s.FireworkUpdates, k⟩ h]
    exact ⟨[], [], rfl, by simp, by simp, by simp, fun h => h⟩
  · rw [addFirework_room f u ⟨s.Fireworks, s.FireworkUpdates, k⟩ (by simpa using h)]
    refine ⟨[f], [u], rfl, rfl, rfl, by simpa using hu, fun _ => ?_⟩
    simp only [List.length_append, List.length_singleton]
    omega

theorem growsBy_aligned {P : FireworkUpdate → Prop} {s t : Scene} (h : GrowsBy P s t)
    (ha : Aligned s) : Aligned t := by
  obtain ⟨lf, lu, hl, hf, hu, -, -⟩ := h
  unfold Aligned at *
  rw [hf, hu, List.length_append, List.length_append, ha, hl]

theorem growsBy_storeInv {P : FireworkUpdate → Prop} {s t : Scene} (h : GrowsBy P s t)
    (hs : StoreInv s) : StoreInv t :=
  ⟨growsBy_aligned h hs.1, by obtain ⟨_, _, _, _, _, _, hc⟩ := h; exact hc hs.2⟩

theorem growsBy_length_le {P : FireworkUpdate → Prop} {s t : Scene} (h : GrowsBy P s t) :
    s.Fireworks.length ≤ t.Fireworks.length ∧
      s.FireworkUpdates.length ≤ t.FireworkUpdates.length := by
  obtain ⟨lf, lu, _, hf, hu, -, -⟩ := h
  rw [hf, hu, List.length_append, List.length_append]
  omega

theorem remove_alive (s : Scene) (i j : ℕ) (u : FireworkUpdate)
    (hu : s.FireworkUpdates[j]? = some u) (hlife : 0 < u.life) :
    RemoveFireworkIfDeadAndMoveToNext s i j = some (s, i + 1, j + 1) := by
  unfold RemoveFireworkIfDeadAndMoveToNext
  rw [hu]
  simp only
  rw [if_neg (not_le.mpr hlife)]

theorem remove_dead_last (s : Scene) (i j : ℕ) (u : FireworkUpdate)
    (hu : s.FireworkUpdates[j]? = some u) (hlife : u.life ≤ 0)
    (hlast : i + 1 = s.Fireworks.length) :
    RemoveFireworkIfDeadAndMoveToNext s i j =
      some ({ s with Fireworks := s.Fireworks.dropLast
                     FireworkUpdates := s.FireworkUpdates.dropLast },
        s.Fireworks.dropLast.length, s.FireworkUpdates.dropLast.length) := by
  unfold RemoveFireworkIfDeadAndMoveToNext
  rw [hu]
  simp only
  rw [if_pos hlife, if_pos hlast]

theorem remove_dead_inner (s : Scene) (i j : ℕ) (u : FireworkUpdate) (x lastF : Firework)
    (lastU : FireworkUpdate) (hu : s.FireworkUpdates[j]? = some u) (hlife : u.life ≤ 0)
    (hlast : i + 1 ≠ s.Fireworks.length) (hx : s.Fireworks[i]? = some x)
    (hF : s.Fireworks.getLast? = some lastF) (hU : s.FireworkUpdates.getLast? = some lastU) :
    RemoveFireworkIfDeadAndMoveToNext s i j =
      some ({ s with Fireworks := (s.Fireworks.set i lastF).dropLast
                     FireworkUpdates := (s.FireworkUpdates.set j lastU).dropLast }, i, j) := by
  unfold RemoveFireworkIfDeadAndMoveToNext
  rw [hu]
  simp only
  rw [if_pos hlife, if_neg hlast, hx, hF, hU]

theorem getLast?_of_pos {α : Type} (l : List α) (h : 0 < l.length) :
    ∃ a, l.getLast? = some a ∧ l[l.length - 1]? = some a := by
  refine ⟨l[l.length - 1], ?_, ?_⟩
  · rw [List.getLast?_eq_getElem?, List.getElem?_eq_getElem (by omega)]
  · rw [List.getElem?_eq_getElem (by omega)]

/-- Removal keeps the store invariant, whatever valid positions the iterators have. -/
theorem remove_storeInv (s : Scene) (i j : ℕ) (hs : StoreInv s)
    (hi : i < s.Fireworks.length) (hj : j < s.FireworkUpdates.length) :
    ∃ r, RemoveFireworkIfDeadAndMoveToNext s i j = some r ∧ StoreInv r.1 := by
  obtain ⟨ha, hc⟩ := hs
  unfold Aligned at ha
  have hu : s.FireworkUpdates[j]? = some s.FireworkUpdates[j] := List.getElem?_eq_getElem hj
  by_cases hlife : s.FireworkUpdates[j].life ≤ 0
  · by_cases hlast : i + 1 = s.Fireworks.length
    · refine ⟨_, remove_dead_last s i j _ hu hlife hlast, ?_, ?_⟩
      · simp [Aligned, ha]
      · simp only [List.length_dropLast]
        omega
    · obtain ⟨lastF, hF, -⟩ := getLast?_of_pos s.Fireworks (by omega)
      obtain ⟨lastU, hU, -⟩ := getLast?_of_pos s.FireworkUpdates (by omega)
      refine ⟨_, remove_dead_inner s i j _ s.Fireworks[i] lastF lastU hu hlife hlast
        (List.getElem?_eq_getElem hi) hF hU, ?_, ?_⟩
      · simp [Aligned, ha]
      · simp only [List.length_dropLast, List.length_set]
        omega
  · exact ⟨_, remove_alive s i j _ hu (not_le.mp hlife), ha, hc⟩

/-! ## Lemmas on the emission blocks and on the update of one particle -/

theorem emitTrailStar_grows (env : Env) (f : Firework) (u : FireworkUpdate) (s : Scene) :
    GrowsBy IsTrailSpawn s (emitTrailStar env f u s) :=
  growsBy_addFirework _ _ _ s _ ⟨rfl, rfl⟩

theorem emitCometStar_grows (env : Env) (f : Firework) (u : FireworkUpdate) (s : Scene) :
    GrowsBy IsTrailSpawn s (emitCometStar env f u s) :=
  growsBy_addFirework _ _ _ s _ ⟨rfl, rfl⟩

theorem emitPeonyStar_grows (env : Env) (f : Firework) (u : FireworkUpdate) (s : Scene) :
    GrowsBy (fun _ => True) s (emitPeonyStar env f u s) :=
  growsBy_addFirework _ _ _ s _ trivial

theorem emitBrocadeStar_grows (env : Env) (f : Firework) (u : FireworkUpdate) (s : Scene) :
    GrowsBy (fun _ => True) s (emitBrocadeStar env f u s) :=
  growsBy_addFirework _ _ _ s _ trivial

theorem burstLoop_grows (P : FireworkUpdate → Prop) (emit : Scene → Scene)
    (hemit : ∀ s, GrowsBy P s (emit s)) (n : ℕ) (s : Scene) :
    GrowsBy P s (burstLoop emit n s) := by
  induction n generalizing s with
  | zero => exact growsBy_refl P s
  | succ n ih => exact growsBy_trans (hemit s) (ih (emit s))

/-- A trail loop that returns has only appended trail spawns and only changed the timer,
which it leaves positive. -/
theorem trailLoop_some (env : Env) (f : Firework) (fuel : ℕ) (u u1 : FireworkUpdate)
    (s s1 : Scene) (h : trailLoop env f fuel u s = some (u1, s1)) :
    GrowsBy IsTrailSpawn s s1 ∧ u1 = { u with timer := u1.timer } ∧ 0 < u1.timer := by
  induction fuel generalizing u s with
  | zero =>
    unfold trailLoop at h
    split at h
    · exact absurd h (by simp)
    · rename_i ht
      simp only [Option.some.injEq, Prod.mk.injEq] at h
      obtain ⟨rfl, rfl⟩ := h
      exact ⟨growsBy_refl _ _, rfl, not_le.mp ht⟩
  | succ n ih =>
    unfold trailLoop at h
    split at h
    · obtain ⟨hg, he, ht⟩ := ih _ _ h
      refine ⟨growsBy_trans (emitTrailStar_grows env f u s) hg, ?_, ht⟩
      rw [he]
    · rename_i ht
      simp only [Option.some.injEq, Prod.mk.injEq] at h
      obtain ⟨rfl, rfl⟩ := h
      exact ⟨growsBy_refl _ _, rfl, not_le.mp ht⟩

theorem moveAndAge_snd (ft : ℚ) (f : Firework) (u : FireworkUpdate) :
    (moveAndAge ft f u).2.life = u.life - ft ∧ (moveAndAge ft f u).2.type = u.type ∧
      (moveAndAge ft f u).2.timer = u.timer :=
  ⟨rfl, rfl, rfl⟩

theorem simpleStarUpdate_snd (env : Env) (ft : ℚ) (f : Firework) (u : FireworkUpdate) :
    (simpleStarUpdate env ft f u).2.life = u.life ∧
      (simpleStarUpdate env ft f u).2.type = u.type ∧
      (simpleStarUpdate env ft f u).2.timer = u.timer := by
  unfold simpleStarUpdate
  split <;> exact ⟨rfl, rfl, rfl⟩

theorem trailStarUpdate_some (env : Env) (tf : ℕ) (ft : ℚ) (f f1 : Firework)
    (u u1 : FireworkUpdate) (s s1 : Scene)
    (h : trailStarUpdate env tf ft f u s = some (f1, u1, s1)) :
    GrowsBy IsTrailSpawn s s1 ∧ u1.life = u.life ∧ u1.type = u.type := by
  unfold trailStarUpdate at h
  split at h
  · simp only at h
    split at h
    · rename_i u2 s2 hl
      simp only [Option.some.injEq, Prod.mk.injEq] at h
      obtain ⟨-, rfl, rfl⟩ := h
      obtain ⟨hg, he, -⟩ := trailLoop_some _ _ _ _ _ _ _ hl
      refine ⟨hg, ?_, ?_⟩ <;> (rw [he]; rfl)
    · exact absurd h (by simp)
  · simp only [Option.some.injEq, Prod.mk.injEq] at h
    obtain ⟨-, rfl, rfl⟩ := h
    exact ⟨growsBy_refl _ _, rfl, rfl⟩

theorem cometUpdate_grows (env : Env) (f : Firework) (u : FireworkUpdate) (s : Scene) :
    GrowsBy IsTrailSpawn s (cometUpdate env f u s) := by
  unfold cometUpdate
  split
  · exact emitCometStar_grows env f u s
  · exact growsBy_refl _ _

theorem peonyBurst_grows (env : Env) (f : Firework) (u : FireworkUpdate) (s : Scene) :
    GrowsBy (fun _ => True) s (peonyBurst env f u s) := by
  unfold peonyBurst
  split
  · exact burstLoop_grows _ _ (emitPeonyStar_grows env f u) _ _
  · exact growsBy_refl _ _

theorem brocadeBurst_grows (env : Env) (f : Firework) (u : FireworkUpdate) (s : Scene) :
    GrowsBy (fun _ => True) s (brocadeBurst env f u s) := by
  unfold brocadeBurst
  split
  · exact burstLoop_grows _ _ (emitBrocadeStar_grows env f u) _ _
  · exact growsBy_refl _ _

theorem burstWhenDead_grows (env : Env) (f : Firework) (u : FireworkUpdate) (s : Scene) :
    GrowsBy (fun _ => True) s (burstWhenDead env f u s) := by
  unfold burstWhenDead
  split
  · exact growsBy_trans (peonyBurst_grows env f u s) (brocadeBurst_grows env f u _)
  · exact growsBy_refl _ _

theorem burstWhenDead_alive (env : Env) (f : Firework) (u : FireworkUpdate) (s : Scene)
    (h : 0 < u.life) : burstWhenDead env f u s = s := by
  unfold burstWhenDead
  rw [if_neg (not_le.mpr h)]

/-- The update of one particle only appends to the store, lowers the life by the frame
time and keeps the type. -/
theorem updateParticle_some (env : Env) (tf : ℕ) (ft : ℚ) (f f1 : Firework)
    (u u1 : FireworkUpdate) (s s1 : Scene)
    (h : updateParticle env tf ft f u s = some (f1, u1, s1)) :
    GrowsBy (fun _ => True) s s1 ∧ u1.life = u.life - ft ∧ u1.type = u.type := by
  unfold updateParticle at h
  simp only at h
  split at h
  · rename_i f2 u2 s2 ht
    simp only [Option.some.injEq, Prod.mk.injEq] at h
    obtain ⟨rfl, rfl, rfl⟩ := h
    obtain ⟨hg, hl, hty⟩ := trailStarUpdate_some _ _ _ _ _ _ _ _ _ ht
    refine ⟨?_, ?_, ?_⟩
    · exact growsBy_trans (growsBy_mono (fun _ _ => trivial) hg)
        (growsBy_trans (growsBy_mono (fun _ _ => trivial) (cometUpdate_grows env _ _ s2))
          (burstWhenDead_grows env _ _ _))
    · rw [hl, (simpleStarUpdate_snd _ _ _ _).1, (moveAndAge_snd _ _ _).1]
    · rw [hty, (simpleStarUpdate_snd _ _ _ _).2.1, (moveAndAge_snd _ _ _).2.1]
  · exact absurd h (by simp)

/-! ## The loop invariant of `UpdateFireworks` -/

theorem updateStep_eq (env : Env) (tf : ℕ) (ft : ℚ) (s s1 : Scene) (i j : ℕ)
    (f f1 : Firework) (u u1 : FireworkUpdate) (hf : s.Fireworks[i]? = some f)
    (hu : s.FireworkUpdates[j]? = some u)
    (hp : updateParticle env tf ft f u s = some (f1, u1, s1)) :
    updateStep env tf ft s i j =
      RemoveFireworkIfDeadAndMoveToNext (writeBack s1 i j f1 u1) i j := by
  unfold updateStep
  rw [hf, hu]
  simp only
  rw [hp]

theorem updateStep_some (env : Env) (tf : ℕ) (ft : ℚ) (s : Scene) (i j : ℕ)
    (r : Scene × ℕ × ℕ) (h : updateStep env tf ft s i j = some r) :
    ∃ f u f1 u1 s1, s.Fireworks[i]? = some f ∧ s.FireworkUpdates[j]? = some u ∧
      updateParticle env tf ft f u s = some (f1, u1, s1) ∧
      RemoveFireworkIfDeadAndMoveToNext (writeBack s1 i j f1 u1) i j = some r := by
  unfold updateStep at h
  split at h
  · rename_i f u hf hu
    split at h
    · rename_i f1 u1 s1 hp
      exact ⟨f, u, f1, u1, s1, hf, hu, hp, h⟩
    · exact absurd h (by simp)
  · exact absurd h (by simp)

theorem getElem?_growsBy {P : FireworkUpdate → Prop} {s t : Scene} (h : GrowsBy P s t)
    (k : ℕ) :
    (k < s.Fireworks.length → t.Fireworks[k]? = s.Fireworks[k]?) ∧
      (k < s.FireworkUpdates.length → t.FireworkUpdates[k]? = s.FireworkUpdates[k]?) := by
  obtain ⟨lf, lu, -, hf, hu, -, -⟩ := h
  rw [hf, hu]
  exact ⟨fun hk => List.getElem?_append_left hk, fun hk => List.getElem?_append_left hk⟩

/-- One round of the loop, started on an aligned store with both iterators at the same
position, keeps the store aligned and the iterators together and inside the store, keeps
the capacity bound, and keeps everything in front of the iterators alive. -/
theorem updateStep_inv (env : Env) (tf : ℕ) (ft : ℚ) (s : Scene) (i : ℕ)
    (r : Scene × ℕ × ℕ) (ha : Aligned s) (h : updateStep env tf ft s i i = some r) :
    Aligned r.1 ∧ r.2.1 = r.2.2 ∧ r.2.1 ≤ r.1.Fireworks.length ∧
      (s.Fireworks.length ≤ MaxFireworks → r.1.Fireworks.length ≤ MaxFireworks) ∧
      (AlivePrefix s i → AlivePrefix r.1 r.2.1) := by
  obtain ⟨f, u, f1, u1, s1, hf, hu, hp, hr⟩ := updateStep_some _ _ _ _ _ _ _ h
  obtain ⟨hg, hlife, -⟩ := updateParticle_some _ _ _ _ _ _ _ _ _ hp
  have ha1 : Aligned s1 := growsBy_aligned hg ha
  unfold Aligned at ha ha1
  have hi : i < s.Fireworks.length := (List.getElem?_eq_some.mp hf).1
  have hle := growsBy_length_le hg
  have hi1 : i < s1.Fireworks.length := by omega
  have hcap := hg.choose_spec.choose_spec.2.2.2.2
  have hwu : (writeBack s1 i i f1 u1).FireworkUpdates[i]? = some u1 := by
    unfold writeBack
    exact List.getElem?_set_self (by omega)
  have hwk : ∀ k, k < i → (writeBack s1 i i f1 u1).FireworkUpdates[k]? =
      s.FireworkUpdates[k]? := by
    intro k hk
    unfold writeBack
    simp only
    rw [List.getElem?_set_ne (by omega), (getElem?_growsBy hg k).2 (by omega)]
  have hwl : (writeBack s1 i i f1 u1).Fireworks.length = s1.Fireworks.length := by
    simp [writeBack]
  have hwl2 : (writeBack s1 i i f1 u1).FireworkUpdates.length = s1.Fireworks.length := by
    simp [writeBack, ha1]
  by_cases hdead : u1.life ≤ 0
  · by_cases hlast : i + 1 = (writeBack s1 i i f1 u1).Fireworks.length
    · rw [remove_dead_last _ i i u1 hwu hdead hlast] at hr
      simp only [Option.some.injEq] at hr
      subst hr
      simp only [Aligned, List.length_dropLast, hwl, hwl2]
      refine ⟨trivial, trivial, le_refl _, fun hc => ?_, fun hpre k hk u2 hu2 => ?_⟩
      · have := hcap hc
        omega
      · rw [hwl] at hlast
        rw [List.getElem?_dropLast, hwl2, if_pos hk, hwk k (by omega)] at hu2
        exact hpre k (by omega) u2 hu2
    · obtain ⟨lastF, hF, -⟩ := getLast?_of_pos (writeBack s1 i i f1 u1).Fireworks (by omega)
      obtain ⟨lastU, hU, -⟩ :=
        getLast?_of_pos (writeBack s1 i i f1 u1).FireworkUpdates (by omega)
      have hx : (writeBack s1 i i f1 u1).Fireworks[i]? = some f1 := by
        unfold writeBack
        exact List.getElem?_set_self hi1
      rw [remove_dead_inner _ i i u1 f1 lastF lastU hwu hdead hlast hx hF hU] at hr
      simp only [Option.some.injEq] at hr
      subst hr
      simp only [Aligned, List.length_dropLast, List.length_set, hwl, hwl2]
      rw [hwl] at hlast
      refine ⟨trivial, trivial, by omega, fun hc => ?_, fun hpre k hk u2 hu2 => ?_⟩
      · have := hcap hc
        omega
      · rw [List.getElem?_dropLast, List.length_set, hwl2, if_pos (by omega),
          List.getElem?_set_ne (by omega), hwk k hk] at hu2
        exact hpre k hk u2 hu2
  · rw [remove_alive _ i i u1 hwu (not_le.mp hdead)] at hr
    simp only [Option.some.injEq] at hr
    subst hr
    simp only [Aligned, hwl, hwl2]
    refine ⟨trivial, trivial, by omega, hcap, fun hpre k hk u2 hu2 => ?_⟩
    by_cases hki : k = i
    · subst hki
      rw [hwu] at hu2
      simp only [Option.some.injEq] at hu2
      subst hu2
      exact not_le.mp hdead
    · rw [hwk k (by omega)] at hu2
      exact hpre k (by omega) u2 hu2

/-- The loop, started on an aligned store with both iterators at the same position inside
the store, ends on an aligned store; the capacity bound is kept, and when everything in
front of the iterators was alive, everything in the final store is. -/
theorem updateLoop_inv (env : Env) (tf : ℕ) (ft : ℚ) (fuel : ℕ) (s s1 : Scene) (i : ℕ)
    (ha : Aligned s) (h : updateLoop env tf ft fuel s i i = some s1) :
    Aligned s1 ∧ (s.Fireworks.length ≤ MaxFireworks → s1.Fireworks.length ≤ MaxFireworks) ∧
      (AlivePrefix s i → AlivePrefix s1 s1.Fireworks.length) := by
  induction fuel generalizing s i with
  | zero =>
    unfold updateLoop at h
    split at h
    · rename_i hend
      simp only [Option.some.injEq] at h
      subst h
      exact ⟨ha, fun hc => hc, fun hp => hend ▸ hp⟩
    · exact absurd h (by simp)
  | succ n ih =>
    unfold updateLoop at h
    split at h
    · rename_i hend
      simp only [Option.some.injEq] at h
      subst h
      exact ⟨ha, fun hc => hc, fun hp => hend ▸ hp⟩
    · split at h
      · rename_i s2 i2 j2 hstep
        obtain ⟨ha2, hij, -, hcap, hpre⟩ := updateStep_inv _ _ _ _ _ _ ha hstep
        simp only at ha2 hij hcap hpre
        subst hij
        obtain ⟨ha3, hcap3, hpre3⟩ := ih s2 i2 ha2 h
        exact ⟨ha3, fun hc => hcap3 (hcap hc), fun hp => hpre3 (hpre hp)⟩
      · exact absurd h (by simp)

/-! ## Stores as lists of pairs -/

theorem pairs_ofPairs (l : List (Firework × FireworkUpdate)) (k : ℕ) :
    pairs (ofPairs l k) = l := by
  unfold pairs ofPairs
  simp only
  rw [List.zip_map']
  simp

theorem ofPairs_pairs (s : Scene) (ha : Aligned s) : ofPairs (pairs s) s.randomCalls = s := by
  unfold Aligned at ha
  unfold pairs ofPairs
  rw [List.map_fst_zip _ _ (by omega), List.map_snd_zip _ _ (by omega)]

theorem getElem?_mid {α : Type} (A B : List α) (q : α) : (A ++ q :: B)[A.length]? = some q := by
  rw [List.getElem?_append_right (le_refl _)]
  simp

theorem dropLast_mid {α : Type} (A C : List α) (q x : α) :
    (A ++ q :: (C ++ [x])).dropLast = A ++ q :: C := by
  rw [show A ++ q :: (C ++ [x]) = (A ++ q :: C) ++ [x] by simp]
  exact List.dropLast_concat

theorem getLast?_mid {α : Type} (A C : List α) (q x : α) :
    (A ++ q :: (C ++ [x])).getLast? = some x := by
  rw [show A ++ q :: (C ++ [x]) = (A ++ q :: C) ++ [x] by simp]
  exact List.getLast?_concat _

theorem getElem?_map_mid {α β : Type} (g : α → β) (A B : List α) (q : α) :
    ((A ++ q :: B).map g)[A.length]? = some (g q) := by
  rw [List.getElem?_map, getElem?_mid]
  rfl

theorem set_map_mid {α β : Type} (g : α → β) (A B : List α) (q : α) (y : β) :
    ((A ++ q :: B).map g).set A.length y = A.map g ++ y :: B.map g := by
  rw [List.map_append, List.map_cons, List.set_append_right _ _ (by simp)]
  simp

theorem writeBack_ofPairs (A B : List (Firework × FireworkUpdate)) (p q : Firework × FireworkUpdate)
    (k : ℕ) :
    writeBack (ofPairs (A ++ p :: B) k) A.length A.length q.1 q.2 = ofPairs (A ++ q :: B) k := by
  unfold writeBack ofPairs
  simp only
  rw [set_map_mid, set_map_mid]
  simp

theorem remove_ofPairs_alive (A B : List (Firework × FireworkUpdate))
    (q : Firework × FireworkUpdate) (k : ℕ) (hq : 0 < q.2.life) :
    RemoveFireworkIfDeadAndMoveToNext (ofPairs (A ++ q :: B) k) A.length A.length =
      some (ofPairs (A ++ q :: B) k, (A ++ [q]).length, (A ++ [q]).length) := by
  have hu : (ofPairs (A ++ q :: B) k).FireworkUpdates[A.length]? = some q.2 :=
    getElem?_map_mid _ _ _ _
  rw [remove_alive _ _ _ q.2 hu hq]
  simp

theorem remove_ofPairs_last (A : List (Firework × FireworkUpdate))
    (q : Firework × FireworkUpdate) (k : ℕ) (hq : q.2.life ≤ 0) :
    RemoveFireworkIfDeadAndMoveToNext (ofPairs (A ++ [q]) k) A.length A.length =
      some (ofPairs A k, A.length, A.length) := by
  have hu : (ofPairs (A ++ [q]) k).FireworkUpdates[A.length]? = some q.2 :=
    getElem?_map_mid _ _ _ _
  have hlast : A.length + 1 = (ofPairs (A ++ [q]) k).Fireworks.length := by simp [ofPairs]
  rw [remove_dead_last _ _ _ q.2 hu hq hlast]
  simp [ofPairs]

theorem remove_ofPairs_inner (A C : List (Firework × FireworkUpdate))
    (q x : Firework × FireworkUpdate) (k : ℕ) (hq : q.2.life ≤ 0) :
    RemoveFireworkIfDeadAndMoveToNext (ofPairs (A ++ q :: (C ++ [x])) k) A.length A.length =
      some (ofPairs (A ++ x :: C) k, A.length, A.length) := by
  have hu : (ofPairs (A ++ q :: (C ++ [x])) k).FireworkUpdates[A.length]? = some q.2 :=
    getElem?_map_mid _ _ _ _
  have hx : (ofPairs (A ++ q :: (C ++ [x])) k).Fireworks[A.length]? = some q.1 :=
    getElem?_map_mid _ _ _ _
  have hlast : A.length + 1 ≠ (ofPairs (A ++ q :: (C ++ [x])) k).Fireworks.length := by
    simp [ofPairs]
  have hF : (ofPairs (A ++ q :: (C ++ [x])) k).Fireworks.getLast? = some x.1 := by
    unfold ofPairs
    simp only
    rw [List.getLast?_map, getLast?_mid]
    rfl
  have hU : (ofPairs (A ++ q :: (C ++ [x])) k).FireworkUpdates.getLast? = some x.2 := by
    unfold ofPairs
    simp only
    rw [List.getLast?_map, getLast?_mid]
    rfl
  rw [remove_dead_inner _ _ _ q.2 q.1 x.1 x.2 hu hq hlast hx hF hU]
  unfold ofPairs
  simp only
  rw [set_map_mid, set_map_mid]
  simp only [List.map_append, List.map_cons, List.map_nil]
  rw [dropLast_mid, dropLast_mid]

/-! ## The traversal over simple stars -/

theorem cometUpdate_of_ne (env : Env) (f : Firework) (u : FireworkUpdate) (s : Scene)
    (h : u.type ≠ FireworkType.CometRocket) : cometUpdate env f u s = s := by
  unfold cometUpdate
  rw [if_neg h]

theorem burstWhenDead_of_ne (env : Env) (f : Firework) (u : FireworkUpdate) (s : Scene)
    (h1 : u.type ≠ FireworkType.PeonyRocket) (h2 : u.type ≠ FireworkType.BrocadeRocket) :
    burstWhenDead env f u s = s := by
  unfold burstWhenDead peonyBurst brocadeBurst
  rw [if_neg h1, if_neg h2]
  simp

theorem flightUpdate_snd (env : Env) (ft : ℚ) (p : Firework × FireworkUpdate) :
    (flightUpdate env ft p).2.life = p.2.life - ft ∧ (flightUpdate env ft p).2.type = p.2.type ∧
      (flightUpdate env ft p).2.timer = p.2.timer := by
  unfold flightUpdate
  simp only
  have h1 := simpleStarUpdate_snd env ft (moveAndAge ft p.1 p.2).1 (moveAndAge ft p.1 p.2).2
  have h2 := moveAndAge_snd ft p.1 p.2
  split
  · refine ⟨?_, ?_, ?_⟩
    · exact h1.1.trans h2.1
    · exact h1.2.1.trans h2.2.1
    · exact h1.2.2.trans h2.2.2
  · exact ⟨h1.1.trans h2.1, h1.2.1.trans h2.2.1, h1.2.2.trans h2.2.2⟩

/-- The visit of a simple star emits nothing. -/
theorem updateParticle_star (env : Env) (tf : ℕ) (ft : ℚ) (p : Firework × FireworkUpdate)
    (s : Scene) (hp : p.2.type = FireworkType.StarSimple) :
    updateParticle env tf ft p.1 p.2 s =
      some ((flightUpdate env ft p).1, (flightUpdate env ft p).2, s) := by
  have h1 := simpleStarUpdate_snd env ft (moveAndAge ft p.1 p.2).1 (moveAndAge ft p.1 p.2).2
  have h2 := moveAndAge_snd ft p.1 p.2
  have hty : (simpleStarUpdate env ft (moveAndAge ft p.1 p.2).1 (moveAndAge ft p.1 p.2).2).2.type
      = FireworkType.StarSimple := by rw [h1.2.1, h2.2.1, hp]
  unfold updateParticle flightUpdate
  simp only
  unfold trailStarUpdate
  rw [if_neg (by rw [hty]; decide), if_neg (by rw [hty]; decide)]
  simp only
  rw [cometUpdate_of_ne _ _ _ _ (by rw [hty]; decide),
    burstWhenDead_of_ne _ _ _ _ (by rw [hty]; decide) (by rw [hty]; decide)]

theorem updateStep_ofPairs_star (env : Env) (tf : ℕ) (ft : ℚ)
    (A B : List (Firework × FireworkUpdate)) (p : Firework × FireworkUpdate) (k : ℕ)
    (hp : p.2.type = FireworkType.StarSimple) :
    updateStep env tf ft (ofPairs (A ++ p :: B) k) A.length A.length =
      RemoveFireworkIfDeadAndMoveToNext (ofPairs (A ++ flightUpdate env ft p :: B) k)
        A.length A.length := by
  rw [updateStep_eq env tf ft _ _ _ _ p.1 _ p.2 _ (getElem?_map_mid _ _ _ _)
    (getElem?_map_mid _ _ _ _) (updateParticle_star env tf ft p _ hp), writeBack_ofPairs]

theorem updateLoop_end (env : Env) (tf : ℕ) (ft : ℚ) (fuel : ℕ) (s : Scene) (i j : ℕ)
    (h : i = s.Fireworks.length) : updateLoop env tf ft fuel s i j = some s := by
  cases fuel with
  | zero => unfold updateLoop; rw [if_pos h]
  | succ n => unfold updateLoop; rw [if_pos h]

theorem updateLoop_succ (env : Env) (tf : ℕ) (ft : ℚ) (fuel : ℕ) (s s1 : Scene)
    (i j i1 j1 : ℕ) (h : i ≠ s.Fireworks.length)
    (hstep : updateStep env tf ft s i j = some (s1, i1, j1)) :
    updateLoop env tf ft (fuel + 1) s i j = updateLoop env tf ft fuel s1 i1 j1 := by
  rw [updateLoop, if_neg h, hstep]

/-- The traversal of a tail of simple stars: with the iterators at the start of the tail
`B` and fuel for one round per star, the loop ends; what is in front of the iterators stays
as it is, and the tail becomes a rearrangement of the updated stars that are still
alive. -/
theorem updateLoop_stars (env : Env) (tf : ℕ) (ft : ℚ) (k : ℕ) :
    ∀ (n : ℕ) (A B : List (Firework × FireworkUpdate)) (fuel : ℕ), B.length = n →
      (∀ p ∈ B, p.2.type = FireworkType.StarSimple) → n ≤ fuel →
      ∃ rest, updateLoop env tf ft fuel (ofPairs (A ++ B) k) A.length A.length
          = some (ofPairs (A ++ rest) k) ∧
        rest.Perm ((B.map (flightUpdate env ft)).filter (fun q => 0 < q.2.life)) := by
  intro n
  induction n with
  | zero =>
    intro A B fuel hB _ _
    have hnil : B = [] := List.length_eq_zero.mp hB
    subst hnil
    exact ⟨[], updateLoop_end _ _ _ _ _ _ _ (by simp [ofPairs]), by simp⟩
  | succ n ih =>
    intro A B fuel hB hstar hfuel
    obtain ⟨p, B1, rfl⟩ : ∃ p B1, B = p :: B1 := by
      cases B with
      | nil => simp at hB
      | cons p B1 => exact ⟨p, B1, rfl⟩
    obtain ⟨fuel1, rfl⟩ : ∃ fuel1, fuel = fuel1 + 1 := ⟨fuel - 1, by omega⟩
    have hp : p.2.type = FireworkType.StarSimple := hstar p (by simp)
    have hB1 : B1.length = n := by simpa using hB
    have hne : A.length ≠ (ofPairs (A ++ p :: B1) k).Fireworks.length := by simp [ofPairs]
    have hstep := updateStep_ofPairs_star env tf ft A B1 p k hp
    by_cases hq : 0 < (flightUpdate env ft p).2.life
    · -- the star survives and the iterators move on
      rw [remove_ofPairs_alive _ _ _ _ hq] at hstep
      obtain ⟨rest, hrun, hperm⟩ := ih (A ++ [flightUpdate env ft p]) B1 fuel1 hB1
        (fun q hq => hstar q (by simp [hq])) (by omega)
      refine ⟨flightUpdate env ft p :: rest, ?_, ?_⟩
      · rw [updateLoop_succ _ _ _ _ _ _ _ _ _ _ hne hstep]
        simpa using hrun
      · simp only [List.map_cons]
        rw [List.filter_cons_of_pos (by simpa using hq)]
        exact hperm.cons _
    · have hdead : (flightUpdate env ft p).2.life ≤ 0 := not_lt.mp hq
      have hfilter : ((p :: B1).map (flightUpdate env ft)).filter (fun q => 0 < q.2.life) =
          (B1.map (flightUpdate env ft)).filter (fun q => 0 < q.2.life) := by
        simp only [List.map_cons]
        rw [List.filter_cons_of_neg (by simpa using hdead)]
      rw [hfilter]
      rcases List.eq_nil_or_concat B1 with hnil | ⟨C, x, hC⟩
      · -- the dead star is the last particle
        subst hnil
        rw [remove_ofPairs_last _ _ _ hdead] at hstep
        refine ⟨[], ?_, by simp⟩
        rw [updateLoop_succ _ _ _ _ _ _ _ _ _ _ hne hstep]
        simpa using updateLoop_end env tf ft fuel1 (ofPairs A k) A.length A.length
          (by simp [ofPairs])
      · -- the last particle takes the place of the dead star and is visited next
        rw [List.concat_eq_append] at hC
        subst hC
        rw [remove_ofPairs_inner _ _ _ _ _ hdead] at hstep
        obtain ⟨rest, hrun, hperm⟩ := ih A (x :: C) fuel1 (by simpa using hB1)
          (fun q hq => hstar q (by
            rcases List.mem_cons.mp hq with h | h
            · simp [h]
            · simp [h])) (by omega)
        refine ⟨rest, ?_, ?_⟩
        · rw [updateLoop_succ _ _ _ _ _ _ _ _ _ _ hne hstep]
          exact hrun
        · refine hperm.trans ?_
          exact ((List.perm_append_singleton x C).symm.map _).filter _

/-! ## The trail loop ends -/

/-- In the range of `RearmInRange`, `timer += 0.05f` raises a timer that is not positive by
at least `1 / 64`: each of the two roundings moves by at most `2 ^ (-6)`. -/
theorem rearm_progress (t : ℚ) (hr : -500000 ≤ t) (ht : t ≤ 0) : t + 1 / 64 ≤ rearm t := by
  have h1 := roundFloat32_error t 18 (by norm_num) (by
    rw [abs_of_nonpos ht]
    norm_num
    linarith)
  have h0 := roundFloat32_nonpos t ht
  rw [abs_le] at h1
  have h2 := roundFloat32_error (roundFloat32 t + roundFloat32 (1 / 20)) 18 (by norm_num) (by
    rw [roundFloat32_twentieth, abs_lt]
    norm_num at h1 ⊢
    constructor <;> linarith)
  rw [abs_le] at h2
  unfold rearm addFloat32
  rw [roundFloat32_twentieth] at h2 ⊢
  norm_num at h1 h2 ⊢
  linarith

/-- A round of the trail loop leaves the timer at `0.05f` at most. -/
theorem rearm_le (t : ℚ) (ht : t ≤ 0) : rearm t ≤ roundFloat32 (1 / 20) := by
  have h0 := roundFloat32_nonpos t ht
  unfold rearm addFloat32
  rw [roundFloat32_twentieth]
  exact roundFloat32_le_twentieth _ (by linarith)

theorem trailRoundsWithin_pos (n : ℕ) (t : ℚ) (ht : 0 < t) : trailRoundsWithin n t = 0 := by
  cases n with
  | zero => rfl
  | succ n => rw [trailRoundsWithin, if_neg (not_le.mpr ht)]

/-- The cut-off of `trailRounds` falls by one with each round. -/
theorem rearm_cutoff (t : ℚ) (hr : -500000 ≤ t) (ht : t ≤ 0) (h1 : rearm t ≤ 0) :
    ⌊-rearm t * 64⌋.toNat + 1 ≤ ⌊-t * 64⌋.toNat := by
  have hp := rearm_progress t hr ht
  have hfl : ⌊-rearm t * 64⌋ + 1 ≤ ⌊-t * 64⌋ := by
    rw [← Int.floor_add_one, Int.le_floor]
    have := Int.floor_le (-rearm t * 64 + 1)
    linarith
  have h0 : 0 ≤ ⌊-rearm t * 64⌋ := by
    rw [Int.le_floor]
    push_cast
    linarith
  omega

/-- Counting with more rounds to spare than the cut-off gives the same count. -/
theorem trailRoundsWithin_stable (n m : ℕ) (t : ℚ) (hr : -500000 ≤ t)
    (hn : ⌊-t * 64⌋.toNat + 1 ≤ n) (hm : ⌊-t * 64⌋.toNat + 1 ≤ m) :
    trailRoundsWithin n t = trailRoundsWithin m t := by
  induction n generalizing m t with
  | zero => omega
  | succ n ih =>
    obtain ⟨m1, rfl⟩ : ∃ m1, m = m1 + 1 := ⟨m - 1, by omega⟩
    rw [trailRoundsWithin, trailRoundsWithin]
    split
    · rename_i ht
      rcases le_or_lt (rearm t) 0 with h1 | h1
      · have hc := rearm_cutoff t hr ht h1
        have hp := rearm_progress t hr ht
        rw [ih m1 (rearm t) (by linarith) (by omega) (by omega)]
      · rw [trailRoundsWithin_pos _ _ h1, trailRoundsWithin_pos _ _ h1]
    · rfl

theorem trailRounds_pos (t : ℚ) (ht : 0 < t) : trailRounds t = 0 :=
  trailRoundsWithin_pos _ t ht

/-- In the range of `RearmInRange` the trail loop entered with a timer that is not positive
runs one round, and then as many as it runs from the raised timer. -/
theorem trailRounds_step (t : ℚ) (hr : -500000 ≤ t) (ht : t ≤ 0) :
    trailRounds t = trailRounds (rearm t) + 1 := by
  have hp := rearm_progress t hr ht
  unfold trailRounds
  rw [trailRoundsWithin, if_pos ht]
  congr 1
  rcases le_or_lt (rearm t) 0 with h1 | h1
  · have hc := rearm_cutoff t hr ht h1
    exact trailRoundsWithin_stable _ _ _ (by linarith) hc le_rfl
  · rw [trailRoundsWithin_pos _ _ h1, trailRoundsWithin_pos _ _ h1]

theorem trailRounds_le (t : ℚ) : trailRounds t ≤ ⌊-t * 64⌋.toNat + 1 := by
  have h : ∀ n s, trailRoundsWithin n s ≤ n := by
    intro n
    induction n with
    | zero => intro s; exact le_rfl
    | succ n ih =>
      intro s
      rw [trailRoundsWithin]
      split
      · exact Nat.succ_le_succ (ih _)
      · omega
  exact h _ _

/-- What holds of every positive timer, and of a timer in the range of `RearmInRange` as
soon as it holds of the timer after a round, holds of every timer in the range. -/
theorem rearm_induction (P : ℚ → Prop) (hpos : ∀ t, 0 < t → P t)
    (hstep : ∀ t, -500000 ≤ t → t ≤ 0 → P (rearm t) → P t) (t : ℚ) (hr : -500000 ≤ t) :
    P t := by
  have h : ∀ n t, -500000 ≤ t → ⌊-t * 64⌋.toNat ≤ n → P t := by
    intro n
    induction n with
    | zero =>
      intro t hr hn
      rcases le_or_lt t 0 with ht | ht
      · refine hstep t hr ht (hpos _ ?_)
        by_contra hc
        have := rearm_cutoff t hr ht (not_lt.mp hc)
        omega
      · exact hpos t ht
    | succ n ih =>
      intro t hr hn
      rcases le_or_lt t 0 with ht | ht
      · refine hstep t hr ht ?_
        have hp := rearm_progress t hr ht
        rcases le_or_lt (rearm t) 0 with h1 | h1
        · have := rearm_cutoff t hr ht h1
          exact ih _ (by linarith) (by omega)
        · exact hpos _ h1
      · exact hpos t ht
  exact h _ t hr le_rfl

theorem emitTrailStar_length (env : Env) (f : Firework) (u : FireworkUpdate) (s : Scene) :
    (emitTrailStar env f u s).Fireworks.length ≤ s.Fireworks.length + 1 ∧
      (s.Fireworks.length < MaxFireworks →
        (emitTrailStar env f u s).Fireworks.length = s.Fireworks.length + 1) := by
  unfold emitTrailStar
  simp only
  by_cases h : s.Fireworks.length < MaxFireworks
  · rw [addFirework_room _ _ ⟨s.Fireworks, s.FireworkUpdates, s.randomCalls + 3⟩ h]
    simp
  · rw [addFirework_full _ _ ⟨s.Fireworks, s.FireworkUpdates, s.randomCalls + 3⟩ (not_lt.mp h)]
    simp [h]

/-- In the range of `RearmInRange` and given fuel for `trailRounds` rounds, the trail loop
returns; it leaves the timer as `trailRounds` rounds of `timer += 0.05f` make it, has
appended at most one particle per round, and exactly one per round when the store had room
for them. -/
theorem trailLoop_spec (env : Env) (f : Firework) (fuel : ℕ) (u : FireworkUpdate) (s : Scene)
    (hr : -500000 ≤ u.timer) (hfuel : trailRounds u.timer ≤ fuel) :
    ∃ u1 s1, trailLoop env f fuel u s = some (u1, s1) ∧
      u1.timer = timerAfter (trailRounds u.timer) u.timer ∧
      s1.Fireworks.length ≤ s.Fireworks.length + trailRounds u.timer ∧
      (s.Fireworks.length + trailRounds u.timer ≤ MaxFireworks →
        s1.Fireworks.length = s.Fireworks.length + trailRounds u.timer) := by
  induction fuel generalizing u s with
  | zero =>
    have ht : 0 < u.timer := by
      by_contra hc
      rw [trailRounds_step _ hr (not_lt.mp hc)] at hfuel
      omega
    refine ⟨u, s, ?_, ?_, ?_, ?_⟩
    · unfold trailLoop
      rw [if_neg (not_le.mpr ht)]
    · rw [trailRounds_pos _ ht]
      rfl
    · omega
    · simp [trailRounds_pos _ ht]
  | succ n ih =>
    by_cases ht : u.timer ≤ 0
    · have hstep := trailRounds_step _ hr ht
      have hp := rearm_progress _ hr ht
      obtain ⟨u1, s1, hrun, htimer, hle, heq⟩ := ih { u with timer := rearm u.timer }
        (emitTrailStar env f u s) (by simp only; linarith) (by simp only; omega)
      simp only at htimer hle heq
      obtain ⟨hel, hee⟩ := emitTrailStar_length env f u s
      refine ⟨u1, s1, ?_, ?_, ?_, ?_⟩
      · rw [trailLoop, if_pos ht]
        exact hrun
      · rw [htimer, hstep]
        rfl
      · omega
      · intro hroom
        rw [heq (by rw [hee (by omega)]; omega), hee (by omega)]
        omega
    · have ht0 := not_le.mp ht
      refine ⟨u, s, ?_, ?_, ?_, ?_⟩
      · rw [trailLoop, if_neg ht]
      · rw [trailRounds_pos _ ht0]
        rfl
      · omega
      · simp [trailRounds_pos _ ht0]

/-! ## The visit of a particle that stays alive -/

theorem emitCometStar_length (env : Env) (f : Firework) (u : FireworkUpdate) (s : Scene) :
    (emitCometStar env f u s).Fireworks.length ≤ s.Fireworks.length + 1 := by
  unfold emitCometStar
  simp only
  by_cases h : s.Fireworks.length < MaxFireworks
  · rw [addFirework_room _ _ ⟨s.Fireworks, s.FireworkUpdates, s.randomCalls + 3⟩ h]
    simp
  · rw [addFirework_full _ _ ⟨s.Fireworks, s.FireworkUpdates, s.randomCalls + 3⟩ (not_lt.mp h)]
    simp

theorem cometUpdate_length (env : Env) (f : Firework) (u : FireworkUpdate) (s : Scene) :
    (cometUpdate env f u s).Fireworks.length ≤ s.Fireworks.length + 1 := by
  unfold cometUpdate
  split
  · exact emitCometStar_length env f u s
  · omega

/-- The visit of a trail star that stays alive, with its timer in the range of
`RearmInRange` and given fuel for its trail loop: the loop runs `trailRounds` rounds. -/
theorem updateParticle_trail_alive (env : Env) (tf : ℕ) (ft : ℚ)
    (p : Firework × FireworkUpdate) (s : Scene) (hty : p.2.type = FireworkType.StarSmallTrail)
    (hlife : ft < p.2.life) (hr : -500000 ≤ p.2.timer - ft)
    (htf : trailRounds (p.2.timer - ft) ≤ tf) :
    ∃ u1 s1, updateParticle env tf ft p.1 p.2 s = some ((flightUpdate env ft p).1, u1, s1) ∧
      u1 = { (flightUpdate env ft p).2 with timer := u1.timer } ∧
      u1.timer = timerAfter (trailRounds (p.2.timer - ft)) (p.2.timer - ft) ∧
      GrowsBy IsTrailSpawn s s1 ∧
      s1.Fireworks.length ≤ s.Fireworks.length + trailRounds (p.2.timer - ft) ∧
      (s.Fireworks.length + trailRounds (p.2.timer - ft) ≤ MaxFireworks →
        s1.Fireworks.length = s.Fireworks.length + trailRounds (p.2.timer - ft)) := by
  have h1 := simpleStarUpdate_snd env ft (moveAndAge ft p.1 p.2).1 (moveAndAge ft p.1 p.2).2
  have h2 := moveAndAge_snd ft p.1 p.2
  have hty1 : (simpleStarUpdate env ft (moveAndAge ft p.1 p.2).1
      (moveAndAge ft p.1 p.2).2).2.type = FireworkType.StarSmallTrail := by
    rw [h1.2.1, h2.2.1, hty]
  have htimer : (simpleStarUpdate env ft (moveAndAge ft p.1 p.2).1
      (moveAndAge ft p.1 p.2).2).2.timer = p.2.timer := h1.2.2.trans h2.2.2
  have hl : (simpleStarUpdate env ft (moveAndAge ft p.1 p.2).1
      (moveAndAge ft p.1 p.2).2).2.life = p.2.life - ft := h1.1.trans h2.1
  have hflight : flightUpdate env ft p = fadeAndSlow env ft
      (simpleStarUpdate env ft (moveAndAge ft p.1 p.2).1 (moveAndAge ft p.1 p.2).2).1
      (simpleStarUpdate env ft (moveAndAge ft p.1 p.2).1 (moveAndAge ft p.1 p.2).2).2 := by
    unfold flightUpdate
    simp only
    rw [if_pos hty1]
  obtain ⟨u1, s1, hrun, ht1, hle, heq⟩ := trailLoop_spec env (flightUpdate env ft p).1 tf
    { (flightUpdate env ft p).2 with timer := (flightUpdate env ft p).2.timer - ft } s
    (by rw [(flightUpdate_snd env ft p).2.2]; exact hr)
    (by rw [(flightUpdate_snd env ft p).2.2]; exact htf)
  simp only [(flightUpdate_snd env ft p).2.2] at ht1 hle heq
  obtain ⟨hg, hu1, -⟩ := trailLoop_some _ _ _ _ _ _ _ hrun
  have hu1' : u1 = { (flightUpdate env ft p).2 with timer := u1.timer } := hu1
  have hu1ty : u1.type = FireworkType.StarSmallTrail := by
    rw [hu1']
    exact (flightUpdate_snd env ft p).2.1.trans hty
  have hu1life : 0 < u1.life := by
    rw [hu1']
    change 0 < (flightUpdate env ft p).2.life
    rw [(flightUpdate_snd env ft p).1]
    linarith
  refine ⟨u1, s1, ?_, hu1', ht1, hg, hle, heq⟩
  unfold updateParticle
  simp only
  unfold trailStarUpdate
  rw [if_pos hty1]
  simp only
  rw [← hflight, hrun]
  simp only
  rw [cometUpdate_of_ne _ _ _ _ (by rw [hu1ty]; decide), burstWhenDead_alive _ _ _ _ hu1life]

/-- The visit of a particle that is not a trail star and stays alive: at most the comet
block emits. -/
theorem updateParticle_other_alive (env : Env) (tf : ℕ) (ft : ℚ)
    (p : Firework × FireworkUpdate) (s : Scene) (hty : p.2.type ≠ FireworkType.StarSmallTrail)
    (hlife : ft < p.2.life) :
    ∃ s1, updateParticle env tf ft p.1 p.2 s =
        some ((flightUpdate env ft p).1, (flightUpdate env ft p).2, s1) ∧
      GrowsBy IsTrailSpawn s s1 ∧ s1.Fireworks.length ≤ s.Fireworks.length + 1 := by
  have h1 := simpleStarUpdate_snd env ft (moveAndAge ft p.1 p.2).1 (moveAndAge ft p.1 p.2).2
  have h2 := moveAndAge_snd ft p.1 p.2
  have hty1 : (simpleStarUpdate env ft (moveAndAge ft p.1 p.2).1
      (moveAndAge ft p.1 p.2).2).2.type ≠ FireworkType.StarSmallTrail := by
    rw [h1.2.1, h2.2.1]
    exact hty
  have hflight : flightUpdate env ft p =
      simpleStarUpdate env ft (moveAndAge ft p.1 p.2).1 (moveAndAge ft p.1 p.2).2 := by
    unfold flightUpdate
    simp only
    rw [if_neg hty1]
  have hlife1 : 0 < (flightUpdate env ft p).2.life := by
    rw [(flightUpdate_snd env ft p).1]
    linarith
  refine ⟨cometUpdate env (flightUpdate env ft p).1 (flightUpdate env ft p).2 s, ?_,
    cometUpdate_grows _ _ _ _, cometUpdate_length _ _ _ _⟩
  unfold updateParticle
  simp only
  unfold trailStarUpdate
  rw [if_neg hty1]
  simp only
  rw [← hflight, burstWhenDead_alive _ _ _ _ hlife1]

theorem updateParticle_alive (env : Env) (tf : ℕ) (ft : ℚ)
    (p : Firework × FireworkUpdate) (s : Scene)
    (hlife : ft < p.2.life) (hr : RearmInRange ft p.2)
    (htf : trailRounds (p.2.timer - ft) ≤ tf) :
    ∃ q s1, updateParticle env tf ft p.1 p.2 s = some (q.1, q.2, s1) ∧
      SurvivorOf env ft p q ∧ 0 < q.2.life ∧ GrowsBy IsTrailSpawn s s1 ∧
      s1.Fireworks.length ≤ s.Fireworks.length + spawnBound ft p := by
  by_cases hty : p.2.type = FireworkType.StarSmallTrail
  · obtain ⟨u1, s1, hrun, hu1, -, hg, hle, -⟩ :=
      updateParticle_trail_alive env tf ft p s hty hlife (hr hty) htf
    refine ⟨((flightUpdate env ft p).1, u1), s1, hrun, ⟨rfl, hu1⟩, ?_, hg, ?_⟩
    · simp only
      rw [hu1]
      change 0 < (flightUpdate env ft p).2.life
      rw [(flightUpdate_snd env ft p).1]
      linarith
    · unfold spawnBound
      omega
  · obtain ⟨s1, hrun, hg, hle⟩ := updateParticle_other_alive env tf ft p s hty hlife
    refine ⟨flightUpdate env ft p, s1, hrun, ⟨rfl, rfl⟩, ?_, hg, ?_⟩
    · rw [(flightUpdate_snd env ft p).1]
      linarith
    · unfold spawnBound
      omega

/-! ## The traversal over particles that stay alive -/

theorem growsBy_ofPairs {P : FireworkUpdate → Prop} (l : List (Firework × FireworkUpdate))
    (k : ℕ) (t : Scene) (h : GrowsBy P (ofPairs l k) t) :
    ∃ S, t = ofPairs (l ++ S) t.randomCalls ∧ (∀ q ∈ S, P q.2) ∧
      t.Fireworks.length = l.length + S.length := by
  obtain ⟨lf, lu, hl, hf, hu, hP, -⟩ := h
  refine ⟨lf.zip lu, ?_, ?_, ?_⟩
  · unfold ofPairs
    simp only [List.map_append]
    rw [List.map_fst_zip _ _ (by omega), List.map_snd_zip _ _ (by omega)]
    cases t
    simp only [ofPairs] at hf hu
    simp only [Scene.mk.injEq, and_true]
    exact ⟨hf, hu⟩
  · intro q hq
    exact hP q.2 (List.of_mem_zip (show (q.1, q.2) ∈ lf.zip lu from hq)).2
  · rw [hf]
    simp [ofPairs, hl]

/-- One round of the loop on a particle that stays alive: it is updated in place, the
iterators move on, and trail spawns are appended to the store. -/
theorem updateStep_ofPairs_alive (env : Env) (tf : ℕ) (ft : ℚ)
    (A B : List (Firework × FireworkUpdate)) (p : Firework × FireworkUpdate) (k : ℕ)
    (hlife : ft < p.2.life) (hr : RearmInRange ft p.2)
    (htf : trailRounds (p.2.timer - ft) ≤ tf) :
    ∃ q S k1, updateStep env tf ft (ofPairs (A ++ p :: B) k) A.length A.length =
        some (ofPairs (A ++ q :: (B ++ S)) k1, (A ++ [q]).length, (A ++ [q]).length) ∧
      SurvivorOf env ft p q ∧ (∀ x ∈ S, IsTrailSpawn x.2) ∧ S.length ≤ spawnBound ft p := by
  obtain ⟨q, s1, hrun, hsurv, hq, hg, hle⟩ :=
    updateParticle_alive env tf ft p (ofPairs (A ++ p :: B) k) hlife hr htf
  obtain ⟨S, hs1, hS, hlen⟩ := growsBy_ofPairs _ _ _ hg
  refine ⟨q, S, s1.randomCalls, ?_, hsurv, hS, ?_⟩
  · rw [updateStep_eq env tf ft _ _ _ _ p.1 _ p.2 _ (getElem?_map_mid _ _ _ _)
      (getElem?_map_mid _ _ _ _) hrun, hs1]
    rw [show A ++ p :: B ++ S = A ++ p :: (B ++ S) by simp, writeBack_ofPairs,
      remove_ofPairs_alive _ _ _ _ hq]
    rfl
  · have h0 : (ofPairs (A ++ p :: B) k).Fireworks.length = (A ++ p :: B).length := by
      simp [ofPairs]
    omega

/-- The traversal of a stretch `B` of particles that all stay alive, in front of a tail `S`
of trail spawns: after one round per particle of `B` the iterators stand behind the updated
stretch, and the tail is still made of trail spawns. -/
theorem updateLoop_survivors (env : Env) (tf : ℕ) (ft : ℚ) :
    ∀ (B A S : List (Firework × FireworkUpdate)) (k : ℕ),
      (∀ p ∈ B, ft < p.2.life ∧ RearmInRange ft p.2 ∧ trailRounds (p.2.timer - ft) ≤ tf) →
      (∀ x ∈ S, IsTrailSpawn x.2) →
      ∃ B1 S1 k1, List.Forall₂ (SurvivorOf env ft) B B1 ∧ (∀ x ∈ S1, IsTrailSpawn x.2) ∧
        S1.length ≤ S.length + (B.map (spawnBound ft)).sum ∧
        ∀ fuel, updateLoop env tf ft (fuel + B.length) (ofPairs (A ++ B ++ S) k)
            A.length A.length =
          updateLoop env tf ft fuel (ofPairs (A ++ B1 ++ S1) k1)
            (A ++ B1).length (A ++ B1).length := by
  intro B
  induction B with
  | nil =>
    intro A S k _ hS
    exact ⟨[], S, k, List.Forall₂.nil, hS, by simp, fun fuel => by simp⟩
  | cons p B ih =>
    intro A S k hB hS
    obtain ⟨hlife, hr, htf⟩ := hB p (by simp)
    obtain ⟨q, S0, k0, hstep, hsurv, hS0, hlen0⟩ :=
      updateStep_ofPairs_alive env tf ft A (B ++ S) p k hlife hr htf
    obtain ⟨B1, S1, k1, hall, hS1, hlen1, hloop⟩ := ih (A ++ [q]) (S ++ S0) k0
      (fun x hx => hB x (by simp [hx]))
      (fun x hx => by
        rcases List.mem_append.mp hx with h | h
        · exact hS x h
        · exact hS0 x h)
    refine ⟨q :: B1, S1, k1, List.Forall₂.cons hsurv hall, hS1, ?_, fun fuel => ?_⟩
    · simp only [List.length_append, List.map_cons, List.sum_cons] at hlen1 ⊢
      omega
    · have hne : A.length ≠ (ofPairs (A ++ p :: B ++ S) k).Fireworks.length := by
        simp [ofPairs]
      rw [show fuel + (p :: B).length = (fuel + B.length) + 1 by simp; omega,
        updateLoop_succ _ _ _ _ _ _ _ _ _ _ hne
          (by rw [show A ++ p :: B ++ S = A ++ p :: (B ++ S) by simp]; exact hstep)]
      have h := hloop fuel
      simp only [List.append_assoc, List.singleton_append] at h ⊢
      exact h

/-! ## Every particle that outlives the frame time is updated and kept -/

/-- Whatever a visit emits, the visited particle ends it as its in-flight update, up to the
timer. -/
theorem updateParticle_survivorOf (env : Env) (tf : ℕ) (ft : ℚ) (f f1 : Firework)
    (u u1 : FireworkUpdate) (s s1 : Scene)
    (h : updateParticle env tf ft f u s = some (f1, u1, s1)) :
    SurvivorOf env ft (f, u) (f1, u1) := by
  unfold updateParticle at h
  simp only at h
  split at h
  · rename_i f2 u2 s2 ht
    simp only [Option.some.injEq, Prod.mk.injEq] at h
    obtain ⟨rfl, rfl, -⟩ := h
    unfold trailStarUpdate at ht
    unfold SurvivorOf flightUpdate
    simp only
    split at ht
    · rename_i hty
      simp only at ht
      split at ht
      · rename_i u3 s3 hl
        simp only [Option.some.injEq, Prod.mk.injEq] at ht
        obtain ⟨rfl, rfl, -⟩ := ht
        rw [if_pos hty]
        exact ⟨rfl, (trailLoop_some _ _ _ _ _ _ _ hl).2.1⟩
      · exact absurd ht (by simp)
    · rename_i hty
      simp only [Option.some.injEq, Prod.mk.injEq] at ht
      obtain ⟨rfl, rfl, -⟩ := ht
      rw [if_neg hty]
      exact ⟨rfl, rfl⟩
  · exact absurd h (by simp)

/-- One round of the loop keeps track of a particle that outlives the frame time. -/
theorem updateStep_tracked (env : Env) (tf : ℕ) (ft : ℚ) (s : Scene) (i : ℕ)
    (r : Scene × ℕ × ℕ) (p : Firework × FireworkUpdate) (ha : Aligned s)
    (h : updateStep env tf ft s i i = some r) (hlife : ft < p.2.life)
    (ht : Tracked env ft p s i) : Tracked env ft p r.1 r.2.1 := by
  obtain ⟨f, u, f1, u1, s1, hf, hu, hp, hr⟩ := updateStep_some _ _ _ _ _ _ _ h
  obtain ⟨hg, hlife1, -⟩ := updateParticle_some _ _ _ _ _ _ _ _ _ hp
  have hsurv := updateParticle_survivorOf _ _ _ _ _ _ _ _ _ hp
  have ha1 : Aligned s1 := growsBy_aligned hg ha
  unfold Aligned at ha ha1
  have hi : i < s.Fireworks.length := (List.getElem?_eq_some.mp hf).1
  have hle := growsBy_length_le hg
  have hwF : (writeBack s1 i i f1 u1).Fireworks[i]? = some f1 := by
    unfold writeBack
    exact List.getElem?_set_self (by omega)
  have hwU : (writeBack s1 i i f1 u1).FireworkUpdates[i]? = some u1 := by
    unfold writeBack
    exact List.getElem?_set_self (by omega)
  have hwk : ∀ j, j ≠ i → j < s.Fireworks.length →
      (writeBack s1 i i f1 u1).Fireworks[j]? = s.Fireworks[j]? ∧
      (writeBack s1 i i f1 u1).FireworkUpdates[j]? = s.FireworkUpdates[j]? := by
    intro j hj hjl
    unfold writeBack
    simp only
    rw [List.getElem?_set_ne (by omega), List.getElem?_set_ne (by omega),
      (getElem?_growsBy hg j).1 hjl, (getElem?_growsBy hg j).2 (by omega)]
    exact ⟨rfl, rfl⟩
  have hwl : (writeBack s1 i i f1 u1).Fireworks.length = s1.Fireworks.length := by
    simp [writeBack]
  have hwl2 : (writeBack s1 i i f1 u1).FireworkUpdates.length = s1.Fireworks.length := by
    simp [writeBack, ha1]
  have hlt : ∀ (j : ℕ) (x : Firework), s.Fireworks[j]? = some x → j < s.Fireworks.length :=
    fun j x hx => (List.getElem?_eq_some.mp hx).1
  by_cases hdead : u1.life ≤ 0
  · by_cases hlast : i + 1 = (writeBack s1 i i f1 u1).Fireworks.length
    · -- the dead particle is the last one
      rw [remove_dead_last _ i i u1 hwU hdead hlast] at hr
      simp only [Option.some.injEq] at hr
      subst hr
      simp only [List.length_dropLast]
      rcases ht with ⟨j, hij, hjF, hjU⟩ | ⟨j, q, hji, hjF, hjU, hq⟩
      · have hjl := hlt j _ hjF
        have hji : j = i := by omega
        subst hji
        rw [hu] at hjU
        simp only [Option.some.injEq] at hjU
        rw [hjU] at hlife1
        linarith
      · refine Or.inr ⟨j, q, by omega, ?_, ?_, hq⟩
        · rw [List.getElem?_dropLast, if_pos (by omega), (hwk j (by omega) (by omega)).1, hjF]
        · rw [List.getElem?_dropLast, if_pos (by omega), (hwk j (by omega) (by omega)).2, hjU]
    · -- the last particle takes the place of the dead one
      obtain ⟨lastF, hF, hF2⟩ := getLast?_of_pos (writeBack s1 i i f1 u1).Fireworks (by omega)
      obtain ⟨lastU, hU, hU2⟩ :=
        getLast?_of_pos (writeBack s1 i i f1 u1).FireworkUpdates (by omega)
      rw [remove_dead_inner _ i i u1 f1 lastF lastU hwU hdead hlast hwF hF hU] at hr
      simp only [Option.some.injEq] at hr
      subst hr
      simp only
      rw [hwl] at hlast
      rcases ht with ⟨j, hij, hjF, hjU⟩ | ⟨j, q, hji, hjF, hjU, hq⟩
      · have hjl := hlt j _ hjF
        by_cases hji : j = i
        · subst hji
          rw [hu] at hjU
          simp only [Option.some.injEq] at hjU
          rw [hjU] at hlife1
          linarith
        · obtain ⟨hjF1, hjU1⟩ := hwk j hji hjl
          rw [hjF] at hjF1
          rw [hjU] at hjU1
          by_cases hjlast : j + 1 = s1.Fireworks.length
          · have e1 : (writeBack s1 i i f1 u1).Fireworks.length - 1 = j := by omega
            have e2 : (writeBack s1 i i f1 u1).FireworkUpdates.length - 1 = j := by omega
            rw [e1, hjF1] at hF2
            rw [e2, hjU1] at hU2
            simp only [Option.some.injEq] at hF2 hU2
            refine Or.inl ⟨i, le_refl _, ?_, ?_⟩
            · rw [List.getElem?_dropLast, List.length_set, hwl, if_pos (by omega),
                List.getElem?_set_self (by omega), hF2]
            · rw [List.getElem?_dropLast, List.length_set, hwl2, if_pos (by omega),
                List.getElem?_set_self (by omega), hU2]
          · refine Or.inl ⟨j, hij, ?_, ?_⟩
            · rw [List.getElem?_dropLast, List.length_set, hwl, if_pos (by omega),
                List.getElem?_set_ne (by omega), hjF1]
            · rw [List.getElem?_dropLast, List.length_set, hwl2, if_pos (by omega),
                List.getElem?_set_ne (by omega), hjU1]
      · obtain ⟨hjF1, hjU1⟩ := hwk j (by omega) (by omega)
        refine Or.inr ⟨j, q, hji, ?_, ?_, hq⟩
        · rw [List.getElem?_dropLast, List.length_set, hwl, if_pos (by omega),
            List.getElem?_set_ne (by omega), hjF1, hjF]
        · rw [List.getElem?_dropLast, List.length_set, hwl2, if_pos (by omega),
            List.getElem?_set_ne (by omega), hjU1, hjU]
  · -- the visited particle stays and the iterators move on
    rw [remove_alive _ i i u1 hwU (not_le.mp hdead)] at hr
    simp only [Option.some.injEq] at hr
    subst hr
    simp only
    rcases ht with ⟨j, hij, hjF, hjU⟩ | ⟨j, q, hji, hjF, hjU, hq⟩
    · by_cases hji : j = i
      · subst hji
        rw [hf] at hjF
        rw [hu] at hjU
        simp only [Option.some.injEq] at hjF hjU
        refine Or.inr ⟨j, (f1, u1), by omega, hwF, hwU, ?_⟩
        have hpe : p = (f, u) := Prod.ext hjF.symm hjU.symm
        rw [hpe]
        exact hsurv
      · obtain ⟨hjF1, hjU1⟩ := hwk j hji (hlt j _ hjF)
        exact Or.inl ⟨j, by omega, hjF1.trans hjF, hjU1.trans hjU⟩
    · obtain ⟨hjF1, hjU1⟩ := hwk j (by omega) (by omega)
      exact Or.inr ⟨j, q, by omega, hjF1.trans hjF, hjU1.trans hjU, hq⟩

/-- A particle that outlives the frame time and is tracked when the loop starts has its
update in the store the loop returns. -/
theorem updateLoop_tracked (env : Env) (tf : ℕ) (ft : ℚ) (fuel : ℕ) (s s1 : Scene) (i : ℕ)
    (p : Firework × FireworkUpdate) (ha : Aligned s)
    (h : updateLoop env tf ft fuel s i i = some s1) (hlife : ft < p.2.life)
    (ht : Tracked env ft p s i) : Tracked env ft p s1 s1.Fireworks.length := by
  induction fuel generalizing s i with
  | zero =>
    unfold updateLoop at h
    split at h
    · rename_i hend
      simp only [Option.some.injEq] at h
      subst h
      exact hend ▸ ht
    · exact absurd h (by simp)
  | succ n ih =>
    unfold updateLoop at h
    split at h
    · rename_i hend
      simp only [Option.some.injEq] at h
      subst h
      exact hend ▸ ht
    · split at h
      · rename_i s2 i2 j2 hstep
        obtain ⟨ha2, hij, -, -, -⟩ := updateStep_inv _ _ _ _ _ _ ha hstep
        have ht2 := updateStep_tracked _ _ _ _ _ _ p ha hstep hlife ht
        simp only at ha2 hij ht2
        subst hij
        exact ih s2 i2 ha2 h ht2
      · exact absurd h (by simp)

/-- After a complete step on an aligned store, every particle of the initial store that
outlives the frame time is in the final store, as its in-flight update up to the timer. -/
theorem updateFireworks_tracked (env : Env) (fuel : ℕ) (ft : ℚ) (s s1 : Scene)
    (p : Firework × FireworkUpdate) (ha : Aligned s)
    (h : UpdateFireworks env fuel ft s = some s1) (hp : p ∈ pairs s) (hlife : ft < p.2.life) :
    ∃ q ∈ pairs s1, SurvivorOf env ft p q := by
  obtain ⟨j, hj, hjp⟩ := List.getElem_of_mem hp
  have hjp1 : (s.Fireworks.zip s.FireworkUpdates)[j]? = some p := by
    rw [← hjp]
    exact List.getElem?_eq_getElem hj
  obtain ⟨hF, hU⟩ := List.getElem?_zip_eq_some.mp hjp1
  have ht := updateLoop_tracked env fuel ft fuel s s1 0 p ha h hlife
    (Or.inl ⟨j, Nat.zero_le _, hF, hU⟩)
  rcases ht with ⟨j1, hj1, hF1, -⟩ | ⟨j1, q, -, hF1, hU1, hq⟩
  · have := (List.getElem?_eq_some.mp hF1).1
    omega
  · refine ⟨q, ?_, hq⟩
    have hz : (s1.Fireworks.zip s1.FireworkUpdates)[j1]? = some q :=
      List.getElem?_zip_eq_some.mpr ⟨hF1, hU1⟩
    exact List.getElem?_mem hz

/-! ## A store of one trail star -/

/-- One round of the loop on a trail star that stays alive, in a store with room for what it
emits: exactly `trailRounds` trail spawns are appended. -/
theorem updateStep_ofPairs_trail (env : Env) (tf : ℕ) (ft : ℚ)
    (A B : List (Firework × FireworkUpdate)) (p : Firework × FireworkUpdate) (k : ℕ)
    (hty : p.2.type = FireworkType.StarSmallTrail) (hlife : ft < p.2.life)
    (hr : -500000 ≤ p.2.timer - ft) (htf : trailRounds (p.2.timer - ft) ≤ tf)
    (hroom : (A ++ p :: B).length + trailRounds (p.2.timer - ft) ≤ MaxFireworks) :
    ∃ q S k1, updateStep env tf ft (ofPairs (A ++ p :: B) k) A.length A.length =
        some (ofPairs (A ++ q :: (B ++ S)) k1, (A ++ [q]).length, (A ++ [q]).length) ∧
      SurvivorOf env ft p q ∧
      q.2.timer = timerAfter (trailRounds (p.2.timer - ft)) (p.2.timer - ft) ∧
      (∀ x ∈ S, IsTrailSpawn x.2) ∧ S.length = trailRounds (p.2.timer - ft) := by
  obtain ⟨u1, s1, hrun, hu1, htimer, hg, -, heq⟩ :=
    updateParticle_trail_alive env tf ft p (ofPairs (A ++ p :: B) k) hty hlife hr htf
  obtain ⟨S, hs1, hS, hlen⟩ := growsBy_ofPairs _ _ _ hg
  have h0 : (ofPairs (A ++ p :: B) k).Fireworks.length = (A ++ p :: B).length := by
    simp [ofPairs]
  have hq : 0 < u1.life := by
    rw [hu1]
    change 0 < (flightUpdate env ft p).2.life
    rw [(flightUpdate_snd env ft p).1]
    linarith
  refine ⟨((flightUpdate env ft p).1, u1), S, s1.randomCalls, ?_, ⟨rfl, hu1⟩, htimer, hS, ?_⟩
  · rw [updateStep_eq env tf ft _ _ _ _ p.1 _ p.2 _ (getElem?_map_mid _ _ _ _)
      (getElem?_map_mid _ _ _ _) hrun, hs1]
    rw [show A ++ p :: B ++ S = A ++ p :: (B ++ S) by simp]
    rw [writeBack_ofPairs A (B ++ S) p ((flightUpdate env ft p).1, u1),
      remove_ofPairs_alive _ _ _ _ hq]
    rfl
  · have := heq (by rw [h0]; exact hroom)
    omega

/-- A complete step over a store of one trail star that outlives the frame time: the star
is updated in place and followed by the trail spawns of its `trailRounds` rounds, each
updated once, that are still alive. -/
theorem updateFireworks_oneTrail (env : Env) (fuel : ℕ) (ft : ℚ)
    (p : Firework × FireworkUpdate) (k : ℕ)
    (hty : p.2.type = FireworkType.StarSmallTrail) (hlife : ft < p.2.life)
    (hr : -500000 ≤ p.2.timer - ft) (hfuel : trailRounds (p.2.timer - ft) + 1 ≤ fuel)
    (hroom : 1 + trailRounds (p.2.timer - ft) ≤ MaxFireworks) :
    ∃ (q : Firework × FireworkUpdate) (S rest : List (Firework × FireworkUpdate)) (k1 : ℕ),
      UpdateFireworks env fuel ft (ofPairs [p] k) = some (ofPairs (q :: rest) k1) ∧
      SurvivorOf env ft p q ∧
      q.2.timer = timerAfter (trailRounds (p.2.timer - ft)) (p.2.timer - ft) ∧
      (∀ x ∈ S, IsTrailSpawn x.2) ∧ S.length = trailRounds (p.2.timer - ft) ∧
      rest.Perm ((S.map (flightUpdate env ft)).filter (fun x => 0 < x.2.life)) := by
  obtain ⟨q, S, k1, hstep, hsurv, htimer, hS, hlen⟩ :=
    updateStep_ofPairs_trail env fuel ft [] [] p k hty hlife hr (by omega)
      (by simpa using hroom)
  obtain ⟨fuel1, rfl⟩ : ∃ fuel1, fuel = fuel1 + 1 := ⟨fuel - 1, by omega⟩
  obtain ⟨rest, hrun, hperm⟩ := updateLoop_stars env (fuel1 + 1) ft k1 S.length [q] S fuel1 rfl
    (fun x hx => (hS x hx).1) (by omega)
  refine ⟨q, S, rest, k1, ?_, hsurv, htimer, hS, hlen, hperm⟩
  unfold UpdateFireworks
  have hne : ([] : List (Firework × FireworkUpdate)).length ≠
      (ofPairs ([] ++ p :: []) k).Fireworks.length := by simp [ofPairs]
  have h := updateLoop_succ env (fuel1 + 1) ft fuel1 _ _ _ _ _ _ hne hstep
  simp only [List.nil_append, List.length_nil, List.length_singleton] at h hrun
  rw [h]
  exact hrun

/-! ## The store contract -/

/-- C1. Alignment-and-capacity invariant: on a store whose two vectors have the same
length, at most `MaxFireworks`, the store produced by `AddFirework` (any arguments), by
`RemoveFireworkIfDeadAndMoveToNext` (any valid iterator positions, for which it is
defined) and by a complete `UpdateFireworks` step (any frame time) again has both vectors
of equal length, at most `MaxFireworks`. -/
theorem alignment_capacity_invariant (s : Scene) (ha : Aligned s)
    (hcap : s.Fireworks.length ≤ MaxFireworks) :
    (∀ f u, Aligned (AddFirework f u s).2 ∧
      (AddFirework f u s).2.Fireworks.length ≤ MaxFireworks) ∧
    (∀ i j, i < s.Fireworks.length → j < s.FireworkUpdates.length →
      ∃ r, RemoveFireworkIfDeadAndMoveToNext s i j = some r ∧
        Aligned r.1 ∧ r.1.Fireworks.length ≤ MaxFireworks) ∧
    (∀ env fuel frameTime s1, UpdateFireworks env fuel frameTime s = some s1 →
      Aligned s1 ∧ s1.Fireworks.length ≤ MaxFireworks) := by
  refine ⟨fun f u => ?_, fun i j hi hj => remove_storeInv s i j ⟨ha, hcap⟩ hi hj,
    fun env fuel ft s1 h => ?_⟩
  · have hg : GrowsBy (fun _ => True) s (AddFirework f u s).2 :=
      growsBy_addFirework _ f u s s.randomCalls trivial
    exact growsBy_storeInv hg ⟨ha, hcap⟩
  · obtain ⟨h1, h2, -⟩ := updateLoop_inv _ _ _ _ _ _ _ ha h
    exact ⟨h1, h2 hcap⟩

/-- C1 at the store `threeStars`: the removal of the dead middle star and a complete step
of one second keep the invariant. -/
theorem alignment_capacity_invariant_witness :
    Aligned threeStars ∧ threeStars.Fireworks.length ≤ MaxFireworks ∧
      (∃ r, RemoveFireworkIfDeadAndMoveToNext threeStars 1 1 = some r ∧
        Aligned r.1 ∧ r.1.Fireworks.length ≤ MaxFireworks) ∧
      UpdateFireworks sampleEnv 3 1 threeStars = some threeStarsAfter ∧
      Aligned threeStarsAfter ∧ threeStarsAfter.Fireworks.length ≤ MaxFireworks :=
  ⟨by decide, by decide,
    (alignment_capacity_invariant threeStars (by decide) (by decide)).2.1 1 1
      (by decide) (by decide),
    by decide!,
    (alignment_capacity_invariant threeStars (by decide) (by decide)).2.2 sampleEnv 3 1
      threeStarsAfter (by decide!)⟩

/-- C2. Capacity rejection: on a store whose live count equals or exceeds `MaxFireworks`,
`AddFirework` returns false and leaves both vectors exactly as they were. -/
theorem capacity_rejection (s : Scene) (firework : Firework)
    (fireworkUpdate : FireworkUpdate) (hfull : MaxFireworks ≤ s.Fireworks.length) :
    (AddFirework firework fireworkUpdate s).1 = false ∧
      (AddFirework firework fireworkUpdate s).2.Fireworks = s.Fireworks ∧
      (AddFirework firework fireworkUpdate s).2.FireworkUpdates = s.FireworkUpdates := by
  rw [addFirework_full _ _ _ hfull]
  exact ⟨rfl, rfl, rfl⟩

/-- C2 at a store holding exactly `MaxFireworks` particles. -/
theorem capacity_rejection_witness :
    MaxFireworks ≤ fullStore.Fireworks.length ∧
      (AddFirework sampleFirework (sampleUpdate FireworkType.StarSimple 1 0) fullStore).1
        = false ∧
      (AddFirework sampleFirework (sampleUpdate FireworkType.StarSimple 1 0)
        fullStore).2.Fireworks = fullStore.Fireworks ∧
      (AddFirework sampleFirework (sampleUpdate FireworkType.StarSimple 1 0)
        fullStore).2.FireworkUpdates = fullStore.FireworkUpdates :=
  ⟨by simp [fullStore],
    capacity_rejection fullStore sampleFirework (sampleUpdate FireworkType.StarSimple 1 0)
      (by simp [fullStore])⟩

/-- C3. Successful append: `AddFirework` returns true exactly when the count is below
`MaxFireworks`; on an aligned store with room it appends the render record to the end of
`Fireworks` and the update record to the end of `FireworkUpdates`, so that the pair shares
one index, and every element that was there before is unchanged. -/
theorem successful_append (s : Scene) (firework : Firework) (fireworkUpdate : FireworkUpdate) :
    ((AddFirework firework fireworkUpdate s).1 = true ↔ s.Fireworks.length < MaxFireworks) ∧
    (Aligned s → s.Fireworks.length < MaxFireworks →
      (AddFirework firework fireworkUpdate s).1 = true ∧
      (AddFirework firework fireworkUpdate s).2.Fireworks = s.Fireworks ++ [firework] ∧
      (AddFirework firework fireworkUpdate s).2.FireworkUpdates
        = s.FireworkUpdates ++ [fireworkUpdate] ∧
      (AddFirework firework fireworkUpdate s).2.Fireworks[s.Fireworks.length]?
        = some firework ∧
      (AddFirework firework fireworkUpdate s).2.FireworkUpdates[s.Fireworks.length]?
        = some fireworkUpdate ∧
      ∀ i, i < s.Fireworks.length →
        (AddFirework firework fireworkUpdate s).2.Fireworks[i]? = s.Fireworks[i]? ∧
        (AddFirework firework fireworkUpdate s).2.FireworkUpdates[i]?
          = s.FireworkUpdates[i]?) := by
  constructor
  · by_cases h : s.Fireworks.length < MaxFireworks
    · rw [addFirework_room _ _ _ h]
      simp [h]
    · rw [addFirework_full _ _ _ (not_lt.mp h)]
      simp [h]
  · intro ha h
    unfold Aligned at ha
    rw [addFirework_room _ _ _ h]
    refine ⟨rfl, rfl, rfl, by simp, by simp [ha], fun i hi => ⟨?_, ?_⟩⟩
    · exact List.getElem?_append_left hi
    · exact List.getElem?_append_left (by omega)

/-- C3 at the store `oneStar`: the appended pair lands at index one of both vectors. -/
theorem successful_append_witness :
    Aligned oneStar ∧ oneStar.Fireworks.length < MaxFireworks ∧
      (AddFirework sampleFirework (sampleUpdate FireworkType.CometRocket 1 0) oneStar).1
        = true ∧
      (AddFirework sampleFirework (sampleUpdate FireworkType.CometRocket 1 0)
        oneStar).2.FireworkUpdates[1]? = some (sampleUpdate FireworkType.CometRocket 1 0) :=
  ⟨by decide, by decide,
    ((successful_append oneStar sampleFirework
      (sampleUpdate FireworkType.CometRocket 1 0)).2 (by decide) (by decide)).1,
    ((successful_append oneStar sampleFirework
      (sampleUpdate FireworkType.CometRocket 1 0)).2 (by decide) (by decide)).2.2.2.2.1⟩

/-- C4. Swap-remove compaction: on an aligned store, with both iterators at a valid index
`i` whose update record has `life <= 0`, `RemoveFireworkIfDeadAndMoveToNext` shrinks both
vectors by exactly one.  If `i` was not the last index, slot `i` of each vector now holds
the former last element of that vector, every other remaining index holds what it held
before, and the iterators stay at `i`.  If `i` was the last index, the vectors are the old
ones without their last element and the iterators equal the new length. -/
theorem swap_remove_compaction (s : Scene) (i : ℕ) (u : FireworkUpdate) (ha : Aligned s)
    (hi : i < s.Fireworks.length) (hu : s.FireworkUpdates[i]? = some u)
    (hdead : u.life ≤ 0) :
    ∃ s1 it uit, RemoveFireworkIfDeadAndMoveToNext s i i = some (s1, it, uit) ∧
      s1.Fireworks.length + 1 = s.Fireworks.length ∧
      s1.FireworkUpdates.length + 1 = s.FireworkUpdates.length ∧
      (i + 1 ≠ s.Fireworks.length →
        s1.Fireworks[i]? = s.Fireworks.getLast? ∧
        s1.FireworkUpdates[i]? = s.FireworkUpdates.getLast? ∧
        (∀ j, j < s1.Fireworks.length → j ≠ i →
          s1.Fireworks[j]? = s.Fireworks[j]? ∧
          s1.FireworkUpdates[j]? = s.FireworkUpdates[j]?) ∧
        it = i ∧ uit = i) ∧
      (i + 1 = s.Fireworks.length →
        s1.Fireworks = s.Fireworks.dropLast ∧
        s1.FireworkUpdates = s.FireworkUpdates.dropLast ∧
        it = s1.Fireworks.length ∧ uit = s1.FireworkUpdates.length) := by
  unfold Aligned at ha
  by_cases hlast : i + 1 = s.Fireworks.length
  · refine ⟨_, _, _, remove_dead_last s i i u hu hdead hlast, ?_, ?_, fun h => absurd hlast h,
      fun _ => ⟨rfl, rfl, rfl, rfl⟩⟩
    · simp only [List.length_dropLast]
      omega
    · simp only [List.length_dropLast]
      omega
  · obtain ⟨lastF, hF, -⟩ := getLast?_of_pos s.Fireworks (by omega)
    obtain ⟨lastU, hU, -⟩ := getLast?_of_pos s.FireworkUpdates (by omega)
    refine ⟨_, _, _, remove_dead_inner s i i u s.Fireworks[i] lastF lastU hu hdead hlast
      (List.getElem?_eq_getElem hi) hF hU, ?_, ?_, fun _ => ⟨?_, ?_, fun j hj hji => ⟨?_, ?_⟩,
        rfl, rfl⟩, fun h => absurd h hlast⟩
    · simp only [List.length_dropLast, List.length_set]
      omega
    · simp only [List.length_dropLast, List.length_set]
      omega
    · simp only
      rw [List.getElem?_dropLast, List.length_set, if_pos (by omega),
        List.getElem?_set_self hi, hF]
    · simp only
      rw [List.getElem?_dropLast, List.length_set, if_pos (by omega),
        List.getElem?_set_self (by omega), hU]
    · simp only [List.length_dropLast, List.length_set] at hj
      simp only
      rw [List.getElem?_dropLast, List.length_set, if_pos hj,
        List.getElem?_set_ne (by omega)]
    · simp only [List.length_dropLast, List.length_set] at hj
      simp only
      rw [List.getElem?_dropLast, List.length_set, if_pos (by omega),
        List.getElem?_set_ne (by omega)]

/-- C4 at the store `threeStars`, whose middle star is dead: the third star moves into
slot one, the first stays, and the iterators stay at one. -/
theorem swap_remove_compaction_witness :
    Aligned threeStars ∧ 1 < threeStars.Fireworks.length ∧
      threeStars.FireworkUpdates[1]? = some (sampleUpdate FireworkType.StarSimple 0 0) ∧
      (sampleUpdate FireworkType.StarSimple 0 0).life ≤ 0 ∧
      RemoveFireworkIfDeadAndMoveToNext threeStars 1 1 = some
        ({ Fireworks := [{ sampleFirework with scale := 1 }, { sampleFirework with scale := 3 }]
           FireworkUpdates := [sampleUpdate FireworkType.StarSimple 1 0,
             sampleUpdate FireworkType.StarSimple 3 0]
           randomCalls := 0 }, 1, 1) ∧
      ∃ s1 it uit, RemoveFireworkIfDeadAndMoveToNext threeStars 1 1 = some (s1, it, uit) ∧
        s1.Fireworks.length + 1 = threeStars.Fireworks.length ∧
        s1.FireworkUpdates.length + 1 = threeStars.FireworkUpdates.length ∧
        (1 + 1 ≠ threeStars.Fireworks.length →
          s1.Fireworks[1]? = threeStars.Fireworks.getLast? ∧
          s1.FireworkUpdates[1]? = threeStars.FireworkUpdates.getLast? ∧
          (∀ j, j < s1.Fireworks.length → j ≠ 1 →
            s1.Fireworks[j]? = threeStars.Fireworks[j]? ∧
            s1.FireworkUpdates[j]? = threeStars.FireworkUpdates[j]?) ∧
          it = 1 ∧ uit = 1) ∧
        (1 + 1 = threeStars.Fireworks.length →
          s1.Fireworks = threeStars.Fireworks.dropLast ∧
          s1.FireworkUpdates = threeStars.FireworkUpdates.dropLast ∧
          it = s1.Fireworks.length ∧ uit = s1.FireworkUpdates.length) :=
  ⟨by decide, by decide, by decide, by decide!, by decide!,
    swap_remove_compaction threeStars 1 (sampleUpdate FireworkType.StarSimple 0 0)
      (by decide) (by decide) (by decide) (by decide!)⟩

/-! ## Liveness after a step -/

/-- C5. No expired particle survives a step: on an aligned store, which may already
contain particles with `life <= 0`, every particle in the store that a complete
`UpdateFireworks` step returns has `life > 0`, the particles spawned during the step
included. -/
theorem no_expired_particle_survives (env : Env) (fuel : ℕ) (frameTime : ℚ) (s s1 : Scene)
    (ha : Aligned s) (h : UpdateFireworks env fuel frameTime s = some s1) :
    ∀ u ∈ s1.FireworkUpdates, 0 < u.life := by
  obtain ⟨ha1, -, hpre⟩ := updateLoop_inv _ _ _ _ _ _ _ ha h
  have hall := hpre (fun k hk => absurd hk (Nat.not_lt_zero k))
  intro u hu
  obtain ⟨k, hk, hku⟩ := List.getElem_of_mem hu
  unfold Aligned at ha1
  exact hall k (by omega) u (by rw [List.getElem?_eq_getElem hk, hku])

/-- C5 at the store `trailAndDead` with frame time zero: the dead star is removed, the star
emitted during the step stays, and both particles left are alive. -/
theorem no_expired_particle_survives_witness :
    Aligned trailAndDead ∧
      UpdateFireworks sampleEnv 3 0 trailAndDead = some trailAndDeadAfter ∧
      ∀ u ∈ trailAndDeadAfter.FireworkUpdates, 0 < u.life :=
  ⟨by decide, by decide!,
    no_expired_particle_survives sampleEnv 3 0 trailAndDead trailAndDeadAfter (by decide)
      (by decide!)⟩

/-! ## The traversal visits every particle once -/

theorem flightUpdate_star (env : Env) (ft : ℚ) (p : Firework × FireworkUpdate)
    (hp : p.2.type = FireworkType.StarSimple) :
    flightUpdate env ft p = simpleStarTick env ft p := by
  have h2 : (moveAndAge ft p.1 p.2).2.type = FireworkType.StarSimple :=
    (moveAndAge_snd ft p.1 p.2).2.1.trans hp
  unfold flightUpdate simpleStarTick simpleStarUpdate
  simp only
  rw [if_pos h2, if_neg]
  change (moveAndAge ft p.1 p.2).2.type ≠ FireworkType.StarSmallTrail
  rw [h2]
  decide

theorem mem_pairs_snd (s : Scene) (p : Firework × FireworkUpdate) (hp : p ∈ pairs s) :
    p.2 ∈ s.FireworkUpdates :=
  (List.of_mem_zip (show (p.1, p.2) ∈ s.Fireworks.zip s.FireworkUpdates from hp)).2

theorem length_pairs (s : Scene) (ha : Aligned s) : (pairs s).length = s.Fireworks.length := by
  unfold Aligned at ha
  unfold pairs
  rw [List.length_zip, ha]
  simp

/-- A complete step over a store of simple stars. -/
theorem updateFireworks_stars (env : Env) (fuel : ℕ) (ft : ℚ) (s : Scene) (ha : Aligned s)
    (hstar : ∀ u ∈ s.FireworkUpdates, u.type = FireworkType.StarSimple)
    (hfuel : s.Fireworks.length ≤ fuel) :
    ∃ rest, UpdateFireworks env fuel ft s = some (ofPairs rest s.randomCalls) ∧
      rest.Perm (((pairs s).map (simpleStarTick env ft)).filter (fun q => 0 < q.2.life)) := by
  obtain ⟨rest, hrun, hperm⟩ := updateLoop_stars env fuel ft s.randomCalls (pairs s).length []
    (pairs s) fuel rfl (fun p hp => hstar p.2 (mem_pairs_snd s p hp))
    (by rw [length_pairs s ha]; exact hfuel)
  refine ⟨rest, ?_, ?_⟩
  · unfold UpdateFireworks
    simpa [ofPairs_pairs s ha] using hrun
  · have hmap : (pairs s).map (flightUpdate env ft) = (pairs s).map (simpleStarTick env ft) :=
      List.map_congr_left (fun p hp =>
        flightUpdate_star env ft p (hstar p.2 (mem_pairs_snd s p hp)))
    rw [← hmap]
    exact hperm

/-- C6. Single visit, all expire: on an aligned store of `N` particles that are all simple
stars with `life <= frameTime`, one `UpdateFireworks(frameTime)`, given fuel for `N` rounds,
returns with both vectors empty. -/
theorem single_visit_all_expire (env : Env) (fuel : ℕ) (frameTime : ℚ) (s : Scene)
    (ha : Aligned s)
    (hstar : ∀ u ∈ s.FireworkUpdates, u.type = FireworkType.StarSimple ∧ u.life ≤ frameTime)
    (hfuel : s.Fireworks.length ≤ fuel) :
    ∃ s1, UpdateFireworks env fuel frameTime s = some s1 ∧
      s1.Fireworks = [] ∧ s1.FireworkUpdates = [] := by
  obtain ⟨rest, hrun, hperm⟩ := updateFireworks_stars env fuel frameTime s ha
    (fun u hu => (hstar u hu).1) hfuel
  have hnil : ((pairs s).map (simpleStarTick env frameTime)).filter (fun q => 0 < q.2.life)
      = [] := by
    rw [List.filter_eq_nil_iff]
    intro q hq
    obtain ⟨p, hp, rfl⟩ := List.mem_map.mp hq
    have hlife : (simpleStarTick env frameTime p).2.life = p.2.life - frameTime := rfl
    have := (hstar p.2 (mem_pairs_snd s p hp)).2
    simp only [decide_eq_true_eq, not_lt, hlife]
    linarith
  rw [hnil] at hperm
  have hrest : rest = [] := List.Perm.eq_nil hperm
  subst hrest
  exact ⟨_, hrun, rfl, rfl⟩

/-- C6 at the store `threeStars`, whose stars have at most three seconds to live, with a
frame time of three seconds. -/
theorem single_visit_all_expire_witness :
    Aligned threeStars ∧
      (∀ u ∈ threeStars.FireworkUpdates, u.type = FireworkType.StarSimple ∧ u.life ≤ 3) ∧
      threeStars.Fireworks.length ≤ 3 ∧
      ∃ s1, UpdateFireworks sampleEnv 3 3 threeStars = some s1 ∧
        s1.Fireworks = [] ∧ s1.FireworkUpdates = [] :=
  ⟨by decide, by decide!, by decide,
    single_visit_all_expire sampleEnv 3 3 threeStars (by decide) (by decide!) (by decide)⟩

/-- C7. Exactly-once update under compaction: on an aligned store that contains only
simple stars, with a frame time that is not negative, `UpdateFireworks`, given fuel for one
round per particle, returns an aligned store whose render/update pairs are a permutation of
the list obtained by applying the update of a simple star once to each initial pair and
keeping exactly those whose updated life is positive. -/
theorem exactly_once_update (env : Env) (fuel : ℕ) (frameTime : ℚ) (s : Scene)
    (ha : Aligned s)
    (hstar : ∀ u ∈ s.FireworkUpdates, u.type = FireworkType.StarSimple)
    (_hft : 0 ≤ frameTime) (hfuel : s.Fireworks.length ≤ fuel) :
    ∃ s1, UpdateFireworks env fuel frameTime s = some s1 ∧ Aligned s1 ∧
      (pairs s1).Perm
        (((pairs s).map (simpleStarTick env frameTime)).filter (fun q => 0 < q.2.life)) := by
  obtain ⟨rest, hrun, hperm⟩ := updateFireworks_stars env fuel frameTime s ha hstar hfuel
  refine ⟨_, hrun, ?_, ?_⟩
  · simp [Aligned, ofPairs]
  · rw [pairs_ofPairs]
    exact hperm

/-- C7 at the store `threeStars` with a frame time of one second: the first star expires,
the second was dead, and the third is all that is left. -/
theorem exactly_once_update_witness :
    Aligned threeStars ∧
      (∀ u ∈ threeStars.FireworkUpdates, u.type = FireworkType.StarSimple) ∧
      (0 : ℚ) ≤ 1 ∧ threeStars.Fireworks.length ≤ 3 ∧
      UpdateFireworks sampleEnv 3 1 threeStars = some threeStarsAfter ∧
      ∃ s1, UpdateFireworks sampleEnv 3 1 threeStars = some s1 ∧ Aligned s1 ∧
        (pairs s1).Perm
          (((pairs threeStars).map (simpleStarTick sampleEnv 1)).filter
            (fun q => 0 < q.2.life)) :=
  ⟨by decide, by decide, by decide!, by decide, by decide!,
    exactly_once_update sampleEnv 3 1 threeStars (by decide) (by decide) (by decide!)
      (by decide)⟩

/-! ## Particles that survive a step -/

theorem survivorOf_life (env : Env) (ft : ℚ) (p q : Firework × FireworkUpdate)
    (h : SurvivorOf env ft p q) : q.2.life = p.2.life - ft ∧ q.2.type = p.2.type := by
  obtain ⟨-, h2⟩ := h
  rw [h2]
  exact ⟨(flightUpdate_snd env ft p).1, (flightUpdate_snd env ft p).2.1⟩

/-- A complete step over a store in which every particle outlives the frame time and the
timers of the trail stars are in the range of `RearmInRange`: the pairs of the final store
are the updated initial pairs, in their order, followed by updated trail spawns. -/
theorem updateFireworks_survivors (env : Env) (fuel : ℕ) (ft : ℚ) (s : Scene)
    (ha : Aligned s) (hlife : ∀ u ∈ s.FireworkUpdates, ft < u.life)
    (hrange : ∀ u ∈ s.FireworkUpdates, RearmInRange ft u)
    (hfuel : stepFuel ft s ≤ fuel) :
    ∃ B1 rest k1, UpdateFireworks env fuel ft s = some (ofPairs (B1 ++ rest) k1) ∧
      List.Forall₂ (SurvivorOf env ft) (pairs s) B1 ∧
      ∀ x ∈ rest, x.2.type = FireworkType.StarSimple ∧ x.2.life = 2 / 5 - ft := by
  unfold stepFuel at hfuel
  have hN := length_pairs s ha
  obtain ⟨B1, S1, k1, hall, hS1, hlen1, hloop⟩ :=
    updateLoop_survivors env fuel ft (pairs s) [] [] s.randomCalls
      (fun p hp => ⟨hlife p.2 (mem_pairs_snd s p hp), hrange p.2 (mem_pairs_snd s p hp), by
        have h1 : spawnBound ft p ≤ ((pairs s).map (spawnBound ft)).sum :=
          List.single_le_sum (fun _ _ => Nat.zero_le _) _ (List.mem_map_of_mem _ hp)
        have h2 : trailRounds (p.2.timer - ft) ≤ spawnBound ft p := Nat.le_succ _
        omega⟩)
      (fun x hx => absurd hx (List.not_mem_nil x))
  simp only [List.length_nil, Nat.zero_add] at hlen1
  obtain ⟨rest, hrun, hperm⟩ := updateLoop_stars env fuel ft k1 S1.length B1 S1
    (fuel - (pairs s).length) rfl (fun x hx => (hS1 x hx).1) (by omega)
  refine ⟨B1, rest, k1, ?_, hall, fun x hx => ?_⟩
  · unfold UpdateFireworks
    have h := hloop (fuel - (pairs s).length)
    rw [show fuel - (pairs s).length + (pairs s).length = fuel by omega] at h
    simp only [List.nil_append, List.append_nil, List.length_nil, ofPairs_pairs s ha] at h
    rw [h]
    exact hrun
  · have hx1 := (hperm.mem_iff).mp hx
    obtain ⟨hx2, -⟩ := List.mem_filter.mp hx1
    obtain ⟨y, hy, rfl⟩ := List.mem_map.mp hx2
    obtain ⟨hyt, hyl⟩ := hS1 y hy
    exact ⟨(flightUpdate_snd env ft y).2.1.trans hyt, by rw [(flightUpdate_snd env ft y).1, hyl]⟩

/-- A visit that returns, of a particle that outlives the frame time: the particle ends it
as its in-flight update, alive, and only trail spawns were appended. -/
theorem updateParticle_alive_some (env : Env) (tf : ℕ) (ft : ℚ) (f f1 : Firework)
    (u u1 : FireworkUpdate) (s s1 : Scene)
    (h : updateParticle env tf ft f u s = some (f1, u1, s1)) (hlife : ft < u.life) :
    SurvivorOf env ft (f, u) (f1, u1) ∧ 0 < u1.life ∧ GrowsBy IsTrailSpawn s s1 := by
  have hsurv := updateParticle_survivorOf _ _ _ _ _ _ _ _ _ h
  obtain ⟨-, hl, -⟩ := updateParticle_some _ _ _ _ _ _ _ _ _ h
  have hpos : 0 < u1.life := by rw [hl]; linarith
  refine ⟨hsurv, hpos, ?_⟩
  unfold updateParticle at h
  simp only at h
  split at h
  · rename_i f2 u2 s2 ht
    simp only [Option.some.injEq, Prod.mk.injEq] at h
    obtain ⟨rfl, rfl, rfl⟩ := h
    obtain ⟨hg, -, -⟩ := trailStarUpdate_some _ _ _ _ _ _ _ _ _ ht
    rw [burstWhenDead_alive _ _ _ _ hpos]
    exact growsBy_trans hg (cometUpdate_grows env _ _ s2)
  · exact absurd h (by simp)

/-- One round of the loop that returns, on a particle that outlives the frame time: it is
updated in place, the iterators move on, and trail spawns are appended to the store. -/
theorem updateStep_alive_some (env : Env) (tf : ℕ) (ft : ℚ)
    (A B : List (Firework × FireworkUpdate)) (p : Firework × FireworkUpdate) (k : ℕ)
    (r : Scene × ℕ × ℕ)
    (h : updateStep env tf ft (ofPairs (A ++ p :: B) k) A.length A.length = some r)
    (hlife : ft < p.2.life) :
    ∃ q S k1, r = (ofPairs (A ++ q :: (B ++ S)) k1, (A ++ [q]).length, (A ++ [q]).length) ∧
      SurvivorOf env ft p q ∧ ∀ x ∈ S, IsTrailSpawn x.2 := by
  obtain ⟨f, u, f1, u1, s1, hf, hu, hp, hr⟩ := updateStep_some _ _ _ _ _ _ _ h
  have hf0 : (ofPairs (A ++ p :: B) k).Fireworks[A.length]? = some p.1 :=
    getElem?_map_mid _ _ _ _
  have hu0 : (ofPairs (A ++ p :: B) k).FireworkUpdates[A.length]? = some p.2 :=
    getElem?_map_mid _ _ _ _
  rw [hf0] at hf
  rw [hu0] at hu
  simp only [Option.some.injEq] at hf hu
  subst hf
  subst hu
  obtain ⟨hsurv, hq, hg⟩ := updateParticle_alive_some _ _ _ _ _ _ _ _ _ hp hlife
  obtain ⟨S, hs1, hS, -⟩ := growsBy_ofPairs _ _ _ hg
  refine ⟨(f1, u1), S, s1.randomCalls, ?_, hsurv, hS⟩
  rw [hs1, show A ++ p :: B ++ S = A ++ p :: (B ++ S) by simp,
    writeBack_ofPairs _ _ p (f1, u1), remove_ofPairs_alive _ _ (f1, u1) _ hq] at hr
  simp only [Option.some.injEq] at hr
  exact hr.symm

/-- More fuel for the outer loop does not change what it returns. -/
theorem updateLoop_fuel_mono (env : Env) (tf : ℕ) (ft : ℚ) (fuel d : ℕ) (s s1 : Scene)
    (i j : ℕ) (h : updateLoop env tf ft fuel s i j = some s1) :
    updateLoop env tf ft (fuel + d) s i j = some s1 := by
  induction fuel generalizing s i j with
  | zero =>
    unfold updateLoop at h
    split at h
    · rename_i hend
      rw [updateLoop_end _ _ _ _ _ _ _ hend]
      exact h
    · exact absurd h (by simp)
  | succ n ih =>
    unfold updateLoop at h
    split at h
    · rename_i hend
      rw [updateLoop_end _ _ _ _ _ _ _ hend]
      exact h
    · rename_i hend
      split at h
      · rename_i s2 i2 j2 hstep
        rw [show n + 1 + d = (n + d) + 1 by omega, updateLoop_succ _ _ _ _ _ _ _ _ _ _ hend hstep]
        exact ih _ _ _ h
      · exact absurd h (by simp)

/-- A traversal that returns, over a stretch `B` of particles that all outlive the frame
time, in front of a tail `S` of trail spawns: the loop has passed the updated stretch, with
the iterators behind it and a tail of trail spawns, and gone on from there. -/
theorem updateLoop_survivors_some (env : Env) (tf : ℕ) (ft : ℚ) (s1 : Scene) :
    ∀ (B A S : List (Firework × FireworkUpdate)) (k fuel : ℕ),
      (∀ p ∈ B, ft < p.2.life) → (∀ x ∈ S, IsTrailSpawn x.2) →
      updateLoop env tf ft fuel (ofPairs (A ++ B ++ S) k) A.length A.length = some s1 →
      ∃ B1 S1 k1 fuel1, List.Forall₂ (SurvivorOf env ft) B B1 ∧
        (∀ x ∈ S1, IsTrailSpawn x.2) ∧
        updateLoop env tf ft fuel1 (ofPairs (A ++ B1 ++ S1) k1)
          (A ++ B1).length (A ++ B1).length = some s1 := by
  intro B
  induction B with
  | nil =>
    intro A S k fuel _ hS h
    exact ⟨[], S, k, fuel, List.Forall₂.nil, hS, by simpa using h⟩
  | cons p B ih =>
    intro A S k fuel hB hS h
    have hne : A.length ≠ (ofPairs (A ++ p :: B ++ S) k).Fireworks.length := by
      simp [ofPairs]
    cases fuel with
    | zero =>
      unfold updateLoop at h
      rw [if_neg hne] at h
      exact absurd h (by simp)
    | succ n =>
      unfold updateLoop at h
      rw [if_neg hne] at h
      split at h
      · rename_i s2 i2 j2 hstep
        rw [show A ++ p :: B ++ S = A ++ p :: (B ++ S) by simp] at hstep
        obtain ⟨q, S0, k0, hr, hsurv, hS0⟩ :=
          updateStep_alive_some env tf ft A (B ++ S) p k _ hstep (hB p (by simp))
        simp only [Prod.mk.injEq] at hr
        obtain ⟨rfl, rfl, rfl⟩ := hr
        have h2 : updateLoop env tf ft n (ofPairs ((A ++ [q]) ++ B ++ (S ++ S0)) k0)
            (A ++ [q]).length (A ++ [q]).length = some s1 := by
          simpa using h
        obtain ⟨B1, S1, k1, fuel1, hall, hS1, hloop⟩ := ih (A ++ [q]) (S ++ S0) k0 n
          (fun x hx => hB x (by simp [hx]))
          (fun x hx => by
            rcases List.mem_append.mp hx with h | h
            · exact hS x h
            · exact hS0 x h) h2
        refine ⟨q :: B1, S1, k1, fuel1, List.Forall₂.cons hsurv hall, hS1, ?_⟩
        simpa using hloop
      · exact absurd h (by simp)

/-- A complete step that returns, over a store in which every particle outlives the frame
time: the pairs of the final store are the updated initial pairs, in their order, followed
by updated trail spawns. -/
theorem updateFireworks_survivors_some (env : Env) (fuel : ℕ) (ft : ℚ) (s s1 : Scene)
    (ha : Aligned s) (hlife : ∀ u ∈ s.FireworkUpdates, ft < u.life)
    (h : UpdateFireworks env fuel ft s = some s1) :
    ∃ B1 rest k1, s1 = ofPairs (B1 ++ rest) k1 ∧
      List.Forall₂ (SurvivorOf env ft) (pairs s) B1 ∧
      ∀ x ∈ rest, x.2.type = FireworkType.StarSimple ∧ x.2.life = 2 / 5 - ft := by
  unfold UpdateFireworks at h
  obtain ⟨B1, S1, k1, fuel1, hall, hS1, hloop⟩ :=
    updateLoop_survivors_some env fuel ft s1 (pairs s) [] [] s.randomCalls fuel
      (fun p hp => hlife p.2 (mem_pairs_snd s p hp))
      (fun x hx => absurd hx (List.not_mem_nil x))
      (by simpa [ofPairs_pairs s ha] using h)
  simp only [List.nil_append] at hloop
  obtain ⟨rest, hrun, hperm⟩ := updateLoop_stars env fuel ft k1 S1.length B1 S1
    (fuel1 + S1.length) rfl (fun x hx => (hS1 x hx).1) (by omega)
  have hmono := updateLoop_fuel_mono env fuel ft fuel1 S1.length _ _ _ _ hloop
  rw [hrun] at hmono
  simp only [Option.some.injEq] at hmono
  refine ⟨B1, rest, k1, hmono.symm, hall, fun x hx => ?_⟩
  have hx1 := (hperm.mem_iff).mp hx
  obtain ⟨hx2, -⟩ := List.mem_filter.mp hx1
  obtain ⟨y, hy, rfl⟩ := List.mem_map.mp hx2
  obtain ⟨hyt, hyl⟩ := hS1 y hy
  exact ⟨(flightUpdate_snd env ft y).2.1.trans hyt, by rw [(flightUpdate_snd env ft y).1, hyl]⟩

/-- C8. Monotonic life of survivors: on an aligned store of `N` particles of any types in
which every particle has `life > frameTime`, with `frameTime >= 0`, the store that
`UpdateFireworks` returns, whatever the fuel, is aligned and its first `N` slots hold the
same `N` particles in the same order, each after its in-flight update and with its life
lowered by exactly `frameTime`; every slot from `N` on holds a simple star emitted by a
trail star or a comet during the step.  And the step does return, given the fuel
`stepFuel`, when the timers of the trail stars are in the range of `RearmInRange` (`timer -
frameTime >= -500000`), where `timer += 0.05f` makes progress in `float` arithmetic and the
re-arm loops end. -/
theorem monotonic_life_of_survivors (env : Env) (fuel : ℕ) (frameTime : ℚ) (s : Scene)
    (ha : Aligned s) (hlife : ∀ u ∈ s.FireworkUpdates, frameTime < u.life)
    (_hft : 0 ≤ frameTime) :
    (∀ s1, UpdateFireworks env fuel frameTime s = some s1 →
      Aligned s1 ∧ s.Fireworks.length ≤ s1.Fireworks.length ∧
      List.Forall₂
        (fun p q => SurvivorOf env frameTime p q ∧ q.2.type = p.2.type ∧
          q.2.life = p.2.life - frameTime)
        (pairs s) ((pairs s1).take s.Fireworks.length) ∧
      ∀ x ∈ (pairs s1).drop s.Fireworks.length,
        x.2.type = FireworkType.StarSimple ∧ x.2.life = 2 / 5 - frameTime) ∧
    ((∀ u ∈ s.FireworkUpdates, RearmInRange frameTime u) → stepFuel frameTime s ≤ fuel →
      ∃ s1, UpdateFireworks env fuel frameTime s = some s1) := by
  refine ⟨fun s1 hrun => ?_, fun hrange hfuel => ?_⟩
  · obtain ⟨B1, rest, k1, rfl, hall, hrest⟩ :=
      updateFireworks_survivors_some env fuel frameTime s s1 ha hlife hrun
    have hlen : B1.length = s.Fireworks.length := by
      rw [← hall.length_eq, length_pairs s ha]
    refine ⟨by simp [Aligned, ofPairs], by simp [ofPairs, hlen], ?_, ?_⟩
    · rw [pairs_ofPairs, ← hlen, List.take_left']
      · exact hall.imp (fun p q h => ⟨h, (survivorOf_life env frameTime p q h).2,
          (survivorOf_life env frameTime p q h).1⟩)
      · rfl
    · rw [pairs_ofPairs, ← hlen, List.drop_left']
      · exact hrest
      · rfl
  · obtain ⟨B1, rest, k1, hrun, -, -⟩ :=
      updateFireworks_survivors env fuel frameTime s ha hlife hrange hfuel
    exact ⟨_, hrun⟩

/-- C8 at the store `mixedStore` with a frame time of a quarter of a second: the step
returns, the comet, the trail star and the simple star stay in slots zero to two with `1.75`
seconds to live, and the stars emitted follow them. -/
theorem monotonic_life_of_survivors_witness :
    Aligned mixedStore ∧ (∀ u ∈ mixedStore.FireworkUpdates, (1 : ℚ) / 4 < u.life) ∧
      (0 : ℚ) ≤ 1 / 4 ∧ (∀ u ∈ mixedStore.FireworkUpdates, RearmInRange (1 / 4) u) ∧
      stepFuel (1 / 4) mixedStore ≤ 24 ∧
      ∃ s1, UpdateFireworks sampleEnv 24 (1 / 4) mixedStore = some s1 ∧ Aligned s1 ∧
        mixedStore.Fireworks.length ≤ s1.Fireworks.length ∧
        List.Forall₂
          (fun p q => SurvivorOf sampleEnv (1 / 4) p q ∧ q.2.type = p.2.type ∧
            q.2.life = p.2.life - 1 / 4)
          (pairs mixedStore) ((pairs s1).take mixedStore.Fireworks.length) ∧
        ∀ x ∈ (pairs s1).drop mixedStore.Fireworks.length,
          x.2.type = FireworkType.StarSimple ∧ x.2.life = 2 / 5 - 1 / 4 :=
  ⟨by decide, by decide!, by decide!, by decide!, by decide!,
    ((monotonic_life_of_survivors sampleEnv 24 (1 / 4) mixedStore (by decide) (by decide!)
      (by decide!)).2 (by decide!) (by decide!)).elim fun s1 h =>
        ⟨s1, h, (monotonic_life_of_survivors sampleEnv 24 (1 / 4) mixedStore (by decide)
          (by decide!) (by decide!)).1 s1 h⟩⟩

/-! ## Gravity -/

theorem flightUpdate_velocity (env : Env) (ft : ℚ) (p : Firework × FireworkUpdate) :
    (p.2.type ≠ FireworkType.StarSimple → p.2.type ≠ FireworkType.StarSmallTrail →
      (flightUpdate env ft p).2.velocity =
        { p.2.velocity with y := p.2.velocity.y + Gravity * ft }) ∧
    (p.2.type = FireworkType.StarSimple ∨ p.2.type = FireworkType.StarSmallTrail →
      (flightUpdate env ft p).2.velocity =
        CVector3.mulAssign { p.2.velocity with y := p.2.velocity.y + Gravity * ft }
          (env.powf (1 / 2) ft)) := by
  constructor
  · intro h1 h3
    simp [flightUpdate, simpleStarUpdate, moveAndAge, h1, h3]
  · rintro (h | h)
    · simp [flightUpdate, simpleStarUpdate, moveAndAge, fadeAndSlow, h]
    · simp [flightUpdate, simpleStarUpdate, moveAndAge, fadeAndSlow, h]

/-- C9, as stated, fails for a simple star: the star of `oneStar` is at rest and survives
a step of one second, after which its `velocity.y` is `-15` (gravity, then the damping by
`powf(0.5, 1)`), not `0 - 30 * 1`. -/
theorem gravity_integration_counterexample :
    oneStar.FireworkUpdates.map (fun u => (u.type, u.velocity.x, u.velocity.y, u.velocity.z))
      = [(FireworkType.StarSimple, 0, 0, 0)] ∧
    UpdateFireworks sampleEnv 2 1 oneStar = some oneStarAfter ∧
    oneStarAfter.FireworkUpdates.map (fun u => (u.life, u.velocity.y)) = [(1, -15)] ∧
    (-15 : ℚ) ≠ 0 - 30 * 1 := by
  decide!

/-- C9, amended. On an aligned store, after a complete `UpdateFireworks(frameTime)`, every
particle of the initial store with zero horizontal velocity that outlives the frame time is
in the final store as its in-flight update, and: if it is not a star (peony, fancy peony,
comet or brocade rocket) its `velocity.y` is the one before the step minus exactly
`30 * frameTime`; if it is a simple star or a trail star, its `velocity.y` is that value
times `powf(0.5, frameTime)`. -/
theorem gravity_integration (env : Env) (fuel : ℕ) (frameTime : ℚ) (s s1 : Scene)
    (p : Firework × FireworkUpdate) (ha : Aligned s)
    (h : UpdateFireworks env fuel frameTime s = some s1) (hp : p ∈ pairs s)
    (hlife : frameTime < p.2.life) (_hx : p.2.velocity.x = 0) (_hz : p.2.velocity.z = 0) :
    ∃ q ∈ pairs s1, SurvivorOf env frameTime p q ∧
      (p.2.type ≠ FireworkType.StarSimple → p.2.type ≠ FireworkType.StarSmallTrail →
        q.2.velocity.y = p.2.velocity.y - 30 * frameTime) ∧
      (p.2.type = FireworkType.StarSimple ∨ p.2.type = FireworkType.StarSmallTrail →
        q.2.velocity.y = (p.2.velocity.y - 30 * frameTime) * env.powf (1 / 2) frameTime) := by
  obtain ⟨q, hq, hsurv⟩ := updateFireworks_tracked env fuel frameTime s s1 p ha h hp hlife
  have hv : q.2.velocity = (flightUpdate env frameTime p).2.velocity := by
    rw [hsurv.2]
  obtain ⟨hrocket, hstar⟩ := flightUpdate_velocity env frameTime p
  refine ⟨q, hq, hsurv, fun h1 h2 => ?_, fun h1 => ?_⟩
  · rw [hv, hrocket h1 h2]
    simp only [Gravity]
    ring
  · rw [hv, hstar h1]
    simp only [CVector3.mulAssign, Gravity]
    ring

/-- C9, amended, at the store `oneComet` with a frame time of one second: the comet, at
rest before the step, ends it with `velocity.y = -30`. -/
theorem gravity_integration_witness :
    Aligned oneComet ∧ UpdateFireworks sampleEnv 2 1 oneComet = some oneCometAfter ∧
      (sampleFirework, sampleUpdate FireworkType.CometRocket 2 0) ∈ pairs oneComet ∧
      (1 : ℚ) < (sampleUpdate FireworkType.CometRocket 2 0).life ∧
      ∃ q ∈ pairs oneCometAfter,
        SurvivorOf sampleEnv 1 (sampleFirework, sampleUpdate FireworkType.CometRocket 2 0) q ∧
        (FireworkType.CometRocket ≠ FireworkType.StarSimple →
          FireworkType.CometRocket ≠ FireworkType.StarSmallTrail →
          q.2.velocity.y = 0 - 30 * 1) ∧
        (FireworkType.CometRocket = FireworkType.StarSimple ∨
          FireworkType.CometRocket = FireworkType.StarSmallTrail →
          q.2.velocity.y = (0 - 30 * 1) * sampleEnv.powf (1 / 2) 1) :=
  ⟨by decide, by decide!, by decide!, by decide!,
    gravity_integration sampleEnv 2 1 oneComet oneCometAfter
      (sampleFirework, sampleUpdate FireworkType.CometRocket 2 0) (by decide) (by decide!)
      (by decide!) (by decide!) rfl rfl⟩

/-! ## Trail cadence -/

/-- C10, as stated, fails: a trail star with timer `0.12f` and two seconds to live, stepped
with `frameTime = 0.2f`, leaves a store of three particles, not of four: the timer passes
`-0.08` and `-0.03` (two emissions) and stops just below `0.02`. -/
theorem trail_cadence_example_counterexample :
    oneTrail.FireworkUpdates.map (fun u => (u.type, u.timer, u.life))
      = [(FireworkType.StarSmallTrail, 16106127 / 134217728, 2)] ∧
    roundFloat32 (3 / 25) = 16106127 / 134217728 ∧ roundFloat32 (1 / 5) = 13421773 / 67108864 ∧
    (UpdateFireworks sampleEnv 3 (roundFloat32 (1 / 5)) oneTrail).map
      (fun s => s.Fireworks.length) = some 3 ∧
    (UpdateFireworks sampleEnv 3 (roundFloat32 (1 / 5)) oneTrail).map
      (fun s => s.FireworkUpdates.map (fun u => (u.type, u.timer)))
      = some [(FireworkType.StarSmallTrail, 1342177 / 67108864), (FireworkType.StarSimple, 0),
          (FireworkType.StarSimple, 0)] ∧
    (3 : ℕ) ≠ 4 := by
  decide!

/-- C10, amended. For a store holding one trail star with `timer = 0.12` and
`life > 0.2`, `UpdateFireworks(0.2)`, given fuel for three rounds, emits exactly two new
particles: the store then holds three particles, the trail star first, ending the step with
its timer in `(0, 0.05]`, followed by the two simple stars it emitted.  The timer `0.12` and
the frame time `0.2` are read as the decimal fractions or as the `float` values `0.12f` and
`0.2f`. -/
theorem trail_cadence_example (env : Env) (fuel : ℕ) (frameTime : ℚ) (f : Firework)
    (u : FireworkUpdate) (k : ℕ) (hty : u.type = FireworkType.StarSmallTrail)
    (hin : (u.timer = 3 / 25 ∧ frameTime = 1 / 5) ∨
      (u.timer = roundFloat32 (3 / 25) ∧ frameTime = roundFloat32 (1 / 5)))
    (hlife : frameTime < u.life) (hfuel : 3 ≤ fuel) :
    ∃ s1, UpdateFireworks env fuel frameTime
        { Fireworks := [f], FireworkUpdates := [u], randomCalls := k } = some s1 ∧
      s1.Fireworks.length = 3 ∧ s1.FireworkUpdates.length = 3 ∧
      ∃ q rest, pairs s1 = q :: rest ∧ SurvivorOf env frameTime (f, u) q ∧
        0 < q.2.timer ∧ q.2.timer ≤ 1 / 20 ∧ rest.length = 2 ∧
        ∀ x ∈ rest, x.2.type = FireworkType.StarSimple := by
  have hft : frameTime < 2 / 5 := by
    rcases hin with ⟨-, h⟩ | ⟨-, h⟩ <;> rw [h]
    · norm_num
    · decide!
  have hvals : trailRounds ((f, u).2.timer - frameTime) = 2 ∧
      -500000 ≤ (f, u).2.timer - frameTime ∧
      0 < timerAfter 2 ((f, u).2.timer - frameTime) ∧
      timerAfter 2 ((f, u).2.timer - frameTime) ≤ 1 / 20 := by
    rcases hin with ⟨h1, h2⟩ | ⟨h1, h2⟩ <;> simp only [h1, h2] <;> decide!
  obtain ⟨hr, hrange, hpos, hle⟩ := hvals
  obtain ⟨q, S, rest, k1, hrun, hsurv, hqt, hS, hlen, hperm⟩ :=
    updateFireworks_oneTrail env fuel frameTime (f, u) k hty hlife hrange (by rw [hr]; omega)
      (by rw [hr]; decide)
  rw [hr] at hqt hlen
  have hfilter : (S.map (flightUpdate env frameTime)).filter (fun x => 0 < x.2.life) =
      S.map (flightUpdate env frameTime) := by
    rw [List.filter_eq_self]
    intro x hx
    obtain ⟨y, hy, rfl⟩ := List.mem_map.mp hx
    simp only [decide_eq_true_eq]
    rw [(flightUpdate_snd env frameTime y).1, (hS y hy).2]
    linarith
  rw [hfilter] at hperm
  have hrest : rest.length = 2 := by
    rw [hperm.length_eq, List.length_map, hlen]
  refine ⟨_, hrun, by simp [ofPairs, hrest], by simp [ofPairs, hrest], q, rest,
    pairs_ofPairs _ _, hsurv, by rw [hqt]; exact hpos, by rw [hqt]; exact hle, hrest,
    fun x hx => ?_⟩
  obtain ⟨y, hy, rfl⟩ := List.mem_map.mp ((hperm.mem_iff).mp hx)
  exact (flightUpdate_snd env frameTime y).2.1.trans (hS y hy).1

/-- C10, amended, at the store `oneTrail`, with the `float` values `0.12f` and `0.2f`. -/
theorem trail_cadence_example_witness :
    (sampleUpdate FireworkType.StarSmallTrail 2 (roundFloat32 (3 / 25))).type =
        FireworkType.StarSmallTrail ∧
      (sampleUpdate FireworkType.StarSmallTrail 2 (roundFloat32 (3 / 25))).timer =
        roundFloat32 (3 / 25) ∧
      roundFloat32 (1 / 5) < (sampleUpdate FireworkType.StarSmallTrail 2
        (roundFloat32 (3 / 25))).life ∧
      ∃ s1, UpdateFireworks sampleEnv 3 (roundFloat32 (1 / 5))
          { Fireworks := [sampleFirework]
            FireworkUpdates := [sampleUpdate FireworkType.StarSmallTrail 2
              (roundFloat32 (3 / 25))]
            randomCalls := 0 } = some s1 ∧
        s1.Fireworks.length = 3 ∧ s1.FireworkUpdates.length = 3 ∧
        ∃ q rest, pairs s1 = q :: rest ∧
          SurvivorOf sampleEnv (roundFloat32 (1 / 5))
            (sampleFirework, sampleUpdate FireworkType.StarSmallTrail 2
              (roundFloat32 (3 / 25))) q ∧
          0 < q.2.timer ∧ q.2.timer ≤ 1 / 20 ∧ rest.length = 2 ∧
          ∀ x ∈ rest, x.2.type = FireworkType.StarSimple :=
  ⟨rfl, rfl, by decide!,
    trail_cadence_example sampleEnv 3 (roundFloat32 (1 / 5)) sampleFirework
      (sampleUpdate FireworkType.StarSmallTrail 2 (roundFloat32 (3 / 25))) 0 rfl
      (Or.inr ⟨rfl, rfl⟩) (by decide!) (by decide)⟩

/-! ## The trail loop, round by round -/

theorem emitTrailStar_calls (env : Env) (f : Firework) (u : FireworkUpdate) (s : Scene) :
    (emitTrailStar env f u s).randomCalls = s.randomCalls + 3 := by
  unfold emitTrailStar AddFirework
  simp only
  split <;> rfl

/-- In the range of `RearmInRange` the trail loop runs out of fuel exactly when it has fewer
than `trailRounds` rounds of fuel. -/
theorem trailLoop_none (env : Env) (f : Firework) (fuel : ℕ) (u : FireworkUpdate) (s : Scene)
    (hr : -500000 ≤ u.timer) (hfuel : fuel < trailRounds u.timer) :
    trailLoop env f fuel u s = none := by
  induction fuel generalizing u s with
  | zero =>
    have ht : u.timer ≤ 0 := by
      by_contra hc
      rw [trailRounds_pos _ (not_le.mp hc)] at hfuel
      omega
    unfold trailLoop
    rw [if_pos ht]
  | succ n ih =>
    have ht : u.timer ≤ 0 := by
      by_contra hc
      rw [trailRounds_pos _ (not_le.mp hc)] at hfuel
      omega
    have hp := rearm_progress _ hr ht
    rw [trailLoop, if_pos ht]
    apply ih
    · simp only
      linarith
    · simp only
      rw [trailRounds_step _ hr ht] at hfuel
      omega

/-- Each round of the trail loop draws three random numbers. -/
theorem trailLoop_calls (env : Env) (f : Firework) (fuel : ℕ) (u u1 : FireworkUpdate)
    (s s1 : Scene) (hr : -500000 ≤ u.timer) (h : trailLoop env f fuel u s = some (u1, s1)) :
    s1.randomCalls = s.randomCalls + 3 * trailRounds u.timer := by
  induction fuel generalizing u s with
  | zero =>
    unfold trailLoop at h
    split at h
    · exact absurd h (by simp)
    · rename_i ht
      simp only [Option.some.injEq, Prod.mk.injEq] at h
      obtain ⟨-, rfl⟩ := h
      rw [trailRounds_pos _ (not_le.mp ht)]
      rfl
  | succ n ih =>
    rw [trailLoop] at h
    split at h
    · rename_i ht
      have hp := rearm_progress _ hr ht
      rw [ih _ _ (by simp only; linarith) h, emitTrailStar_calls, trailRounds_step _ hr ht]
      simp only
      ring
    · rename_i ht
      simp only [Option.some.injEq, Prod.mk.injEq] at h
      obtain ⟨-, rfl⟩ := h
      rw [trailRounds_pos _ (not_le.mp ht)]
      rfl

/-- In the range of `RearmInRange`, `trailRounds` is the least number of rounds that leaves
the timer positive, and a loop that ran at least once leaves it at `0.05f` at most. -/
theorem timerAfter_trailRounds (t : ℚ) (hr : -500000 ≤ t) :
    0 < timerAfter (trailRounds t) t ∧
      (1 ≤ trailRounds t → timerAfter (trailRounds t) t ≤ roundFloat32 (1 / 20)) ∧
      ∀ j, j < trailRounds t → timerAfter j t ≤ 0 := by
  refine rearm_induction
    (fun t => 0 < timerAfter (trailRounds t) t ∧
      (1 ≤ trailRounds t → timerAfter (trailRounds t) t ≤ roundFloat32 (1 / 20)) ∧
      ∀ j, j < trailRounds t → timerAfter j t ≤ 0) ?_ ?_ t hr
  · intro t ht
    rw [trailRounds_pos t ht]
    exact ⟨ht, fun h => absurd h (by omega), fun j hj => absurd hj (by omega)⟩
  · intro t hr ht ⟨ih1, ih2, ih3⟩
    rw [trailRounds_step t hr ht]
    refine ⟨ih1, fun _ => ?_, fun j hj => ?_⟩
    · rcases Nat.eq_zero_or_pos (trailRounds (rearm t)) with h0 | h0
      · rw [h0]
        exact rearm_le t ht
      · exact ih2 h0
    · cases j with
      | zero => exact ht
      | succ j => exact ih3 j (by omega)

/-- On a timer between `-9` and `1`, `timer += 0.05f` adds `0.05f` up to two roundings of
`2 ^ -21` each. -/
theorem rearm_near (x : ℚ) (h1 : -9 ≤ x) (h2 : x ≤ 1) :
    |rearm x - (x + 13421773 / 268435456)| ≤ 1 / 1048576 := by
  have hr : |roundFloat32 x - x| ≤ 1 / 2097152 := by
    have h := roundFloat32_error x 3 (by norm_num) (by
      rw [abs_lt]
      norm_num
      constructor <;> linarith)
    norm_num at h
    linarith
  rw [abs_le] at hr
  have hs : |roundFloat32 (roundFloat32 x + 13421773 / 268435456) -
      (roundFloat32 x + 13421773 / 268435456)| ≤ 1 / 2097152 := by
    have h := roundFloat32_error (roundFloat32 x + 13421773 / 268435456) 3 (by norm_num) (by
      rw [abs_lt]
      norm_num
      constructor <;> linarith [hr.1, hr.2])
    norm_num at h
    linarith
  rw [abs_le] at hs ⊢
  unfold rearm addFloat32
  rw [roundFloat32_twentieth]
  constructor <;> linarith [hr.1, hr.2, hs.1, hs.2]

/-- From a timer of `-8` or more, `j` rounds of the trail loop that end below one add
`j` times `0.05f` up to `j * 2 ^ -20`. -/
theorem timerAfter_near (j : ℕ) (x : ℚ) (hx : -8 ≤ x)
    (hend : x + j * (13421773 / 268435456 + 1 / 1048576) ≤ 1) :
    |timerAfter j x - (x + j * (13421773 / 268435456))| ≤ j * (1 / 1048576) := by
  induction j generalizing x with
  | zero => simp [timerAfter]
  | succ n ih =>
    have hn : (0 : ℚ) ≤ n := Nat.cast_nonneg n
    push_cast at hend ⊢
    have hx1 : x ≤ 1 := by nlinarith
    have hr := rearm_near x (by linarith) hx1
    rw [abs_le] at hr
    have h := ih (rearm x) (by linarith [hr.1]) (by linarith [hr.2])
    rw [abs_le] at h ⊢
    rw [timerAfter]
    constructor <;> linarith [h.1, h.2, hr.1, hr.2]

/-- For a timer between `-8` and zero the trail loop runs the number of rounds of exact
arithmetic, `floor(-t / 0.05) + 1`, or one round more or less. -/
theorem trailRounds_near (t : ℚ) (ht : t ≤ 0) (hr : -8 ≤ t) :
    ⌊-t / (1 / 20)⌋.toNat + 1 ≤ trailRounds t + 1 ∧
      trailRounds t ≤ ⌊-t / (1 / 20)⌋.toNat + 1 + 1 := by
  obtain ⟨hpos, -, hleast⟩ := timerAfter_trailRounds t (by linarith)
  have h0 : 0 ≤ ⌊-t / (1 / 20)⌋ := Int.floor_nonneg.mpr (by
    rw [div_nonneg_iff]
    left
    constructor <;> linarith)
  obtain ⟨N, hN⟩ : ∃ N : ℕ, ⌊-t / (1 / 20)⌋ = (N : ℤ) := ⟨_, (Int.toNat_of_nonneg h0).symm⟩
  have hlo : (N : ℚ) ≤ -t / (1 / 20) := by
    have := Int.floor_le (-t / (1 / 20))
    rw [hN] at this
    exact_mod_cast this
  have hhi : -t / (1 / 20) < (N : ℚ) + 1 := by
    have := Int.lt_floor_add_one (-t / (1 / 20))
    rw [hN] at this
    exact_mod_cast this
  rw [le_div_iff₀ (by norm_num)] at hlo
  rw [div_lt_iff₀ (by norm_num)] at hhi
  have hNb : (N : ℚ) ≤ 160 := by linarith
  rw [hN, Int.toNat_ofNat]
  constructor
  · by_contra hcon
    have hk : trailRounds t + 1 ≤ N := by omega
    have hkq : (trailRounds t : ℚ) + 1 ≤ N := by exact_mod_cast hk
    have hk0 : (0 : ℚ) ≤ trailRounds t := Nat.cast_nonneg _
    have h := timerAfter_near (trailRounds t) t hr (by nlinarith)
    rw [abs_le] at h
    nlinarith [h.2]
  · by_contra hcon
    have hk : N + 1 + 1 < trailRounds t := by omega
    have hle := hleast (N + 1 + 1) hk
    have h := timerAfter_near (N + 1 + 1) t hr (by push_cast; nlinarith)
    rw [abs_le] at h
    push_cast at h
    nlinarith [h.1]

/-- The visit of a trail star, alive or not, is its in-flight update followed by the trail
loop; no other block applies to it. -/
theorem updateParticle_trail (env : Env) (tf : ℕ) (ft : ℚ) (p : Firework × FireworkUpdate)
    (s : Scene) (hty : p.2.type = FireworkType.StarSmallTrail) :
    updateParticle env tf ft p.1 p.2 s =
      (trailLoop env (flightUpdate env ft p).1 tf
        { (flightUpdate env ft p).2 with timer := p.2.timer - ft } s).map
        (fun us => ((flightUpdate env ft p).1, us.1, us.2)) := by
  have h1 := simpleStarUpdate_snd env ft (moveAndAge ft p.1 p.2).1 (moveAndAge ft p.1 p.2).2
  have h2 := moveAndAge_snd ft p.1 p.2
  have hty1 : (simpleStarUpdate env ft (moveAndAge ft p.1 p.2).1
      (moveAndAge ft p.1 p.2).2).2.type = FireworkType.StarSmallTrail := by
    rw [h1.2.1, h2.2.1, hty]
  have hflight : flightUpdate env ft p = fadeAndSlow env ft
      (simpleStarUpdate env ft (moveAndAge ft p.1 p.2).1 (moveAndAge ft p.1 p.2).2).1
      (simpleStarUpdate env ft (moveAndAge ft p.1 p.2).1 (moveAndAge ft p.1 p.2).2).2 := by
    unfold flightUpdate
    simp only
    rw [if_pos hty1]
  have htimer : (flightUpdate env ft p).2.timer = p.2.timer := (flightUpdate_snd env ft p).2.2
  unfold updateParticle
  simp only
  unfold trailStarUpdate
  rw [if_pos hty1]
  simp only
  rw [← hflight, htimer]
  cases hl : trailLoop env (flightUpdate env ft p).1 tf
      { (flightUpdate env ft p).2 with timer := p.2.timer - ft } s with
  | none => rfl
  | some us =>
    obtain ⟨u1, s1⟩ := us
    have hu1 := (trailLoop_some _ _ _ _ _ _ _ hl).2.1
    have hu1ty : u1.type = FireworkType.StarSmallTrail := by
      rw [hu1]
      exact (flightUpdate_snd env ft p).2.1.trans hty
    simp only [Option.map_some']
    rw [cometUpdate_of_ne _ _ _ _ (by rw [hu1ty]; decide),
      burstWhenDead_of_ne _ _ _ _ (by rw [hu1ty]; decide) (by rw [hu1ty]; decide)]

/-- A trail loop entered with a timer that is not positive and that `timer += 0.05f` leaves
as it is never ends. -/
theorem trailLoop_stuck (env : Env) (f : Firework) (fuel : ℕ) (u : FireworkUpdate) (s : Scene)
    (ht : u.timer ≤ 0) (hfix : rearm u.timer = u.timer) : trailLoop env f fuel u s = none := by
  induction fuel generalizing u s with
  | zero =>
    unfold trailLoop
    rw [if_pos ht]
  | succ n ih =>
    rw [trailLoop, if_pos ht]
    apply ih
    · simp only
      rw [hfix]
      exact ht
    · simp only
      rw [hfix, hfix]

/-- The visit of a trail star whose timer, lowered by the frame time, is not positive and
is left as it is by `timer += 0.05f`: no amount of fuel lets it return. -/
theorem updateParticle_stuck (env : Env) (tf : ℕ) (ft : ℚ) (p : Firework × FireworkUpdate)
    (s : Scene) (hty : p.2.type = FireworkType.StarSmallTrail)
    (ht : p.2.timer - ft ≤ 0) (hfix : rearm (p.2.timer - ft) = p.2.timer - ft) :
    updateParticle env tf ft p.1 p.2 s = none := by
  rw [updateParticle_trail env tf ft p s hty,
    trailLoop_stuck env _ tf _ _ (by simpa using ht) (by simpa using hfix)]
  rfl

/-- C19, as stated, fails in two ways.  The round count of the claim is that of exact
arithmetic: a trail star with timer `0` visited with frame time `0.5` enters the loop at
`-0.5`, for which the claim gives `k = floor(0.5 / 0.05) + 1 = 11` rounds and a timer of
`0.05` afterwards.  The loop adds the `float` `0.05f`, which is a little more than `0.05`,
and is above zero after ten rounds already: with fuel for ten rounds the visit returns, with
ten particles appended to the one in the store, thirty random draws made and the timer at
`5 * 2 ^ (-27)`; with fuel for nine it does not.  And the loop need not end: for the trail
star `stuckTrail`, with timer `-2097152`, visited with frame time `0`, `timer += 0.05f`
leaves the timer as it is, and the visit returns with no amount of fuel. -/
theorem general_trail_cadence_counterexample :
    (⌊((1 : ℚ) / 2 - (sampleUpdate FireworkType.StarSmallTrail 2 0).timer) / (1 / 20)⌋.toNat + 1
      = 11 ∧
    (sampleUpdate FireworkType.StarSmallTrail 2 0).timer - 1 / 2 + 1 / 20 * (11 : ℚ) = 1 / 20 ∧
    (updateParticle sampleEnv 10 (1 / 2) sampleFirework
      (sampleUpdate FireworkType.StarSmallTrail 2 0)
      (storeOf (sampleUpdate FireworkType.StarSmallTrail 2 0))).map
        (fun r => (r.2.1.timer, r.2.2.Fireworks.length, r.2.2.randomCalls))
      = some (5 / 134217728, 11, 30) ∧
    updateParticle sampleEnv 9 (1 / 2) sampleFirework
      (sampleUpdate FireworkType.StarSmallTrail 2 0)
      (storeOf (sampleUpdate FireworkType.StarSmallTrail 2 0)) = none) ∧
    (stuckTrail.type = FireworkType.StarSmallTrail ∧ stuckTrail.timer - 0 ≤ 0 ∧
      rearm (stuckTrail.timer - 0) = stuckTrail.timer - 0 ∧
      ∀ tf, updateParticle sampleEnv tf 0 sampleFirework stuckTrail (storeOf stuckTrail) =
        none) :=
  ⟨by decide!, rfl, by decide!, by decide!, fun tf =>
    updateParticle_stuck sampleEnv tf 0 (sampleFirework, stuckTrail) (storeOf stuckTrail) rfl
      (by decide!) (by decide!)⟩

/-- C19, amended. General trail cadence: for a trail star visited with timer `t` and frame
time `frameTime >= 0`, with `t - frameTime >= -500000`, let `k = trailRounds (t -
frameTime)`.  Then `k = 0` when `t - frameTime > 0`, and otherwise `k >= 1` is the least
number of `float` additions `timer += 0.05f` that leave the timer above zero, at most
`floor(64 * (frameTime - t)) + 1`, and for `frameTime - t <= 8` within one of the count
`floor((frameTime - t) / 0.05) + 1` of exact arithmetic.  The re-arm loop runs exactly `k`
rounds: the visit runs out of fuel with fewer, and with `k` or more it returns, having made
the `3 * k` random draws of `k` rounds; the timer is then `t - frameTime` after `k` such
additions, which is positive, and at most `0.05f` when `k >= 1`; and when the store has `k`
free slots, exactly `k` particles are appended, all simple stars. -/
theorem general_trail_cadence (env : Env) (tf : ℕ) (frameTime : ℚ)
    (p : Firework × FireworkUpdate) (s : Scene)
    (hty : p.2.type = FireworkType.StarSmallTrail) (_hft : 0 ≤ frameTime)
    (hrange : -500000 ≤ p.2.timer - frameTime) :
    (0 < p.2.timer - frameTime → trailRounds (p.2.timer - frameTime) = 0) ∧
    (p.2.timer - frameTime ≤ 0 →
      1 ≤ trailRounds (p.2.timer - frameTime) ∧
      trailRounds (p.2.timer - frameTime) ≤ ⌊(frameTime - p.2.timer) * 64⌋.toNat + 1 ∧
      (frameTime - p.2.timer ≤ 8 →
        ⌊(frameTime - p.2.timer) / (1 / 20)⌋.toNat + 1 ≤
            trailRounds (p.2.timer - frameTime) + 1 ∧
          trailRounds (p.2.timer - frameTime) ≤
            ⌊(frameTime - p.2.timer) / (1 / 20)⌋.toNat + 1 + 1) ∧
      0 < timerAfter (trailRounds (p.2.timer - frameTime)) (p.2.timer - frameTime) ∧
      ∀ j : ℕ, j < trailRounds (p.2.timer - frameTime) →
        timerAfter j (p.2.timer - frameTime) ≤ 0) ∧
    (tf < trailRounds (p.2.timer - frameTime) →
      updateParticle env tf frameTime p.1 p.2 s = none) ∧
    (trailRounds (p.2.timer - frameTime) ≤ tf →
      ∃ u1 s1, updateParticle env tf frameTime p.1 p.2 s =
          some ((flightUpdate env frameTime p).1, u1, s1) ∧
        u1 = { (flightUpdate env frameTime p).2 with timer := u1.timer } ∧
        u1.timer = timerAfter (trailRounds (p.2.timer - frameTime)) (p.2.timer - frameTime) ∧
        0 < u1.timer ∧
        (1 ≤ trailRounds (p.2.timer - frameTime) → u1.timer ≤ roundFloat32 (1 / 20)) ∧
        s1.randomCalls = s.randomCalls + 3 * trailRounds (p.2.timer - frameTime) ∧
        (s.Fireworks.length + trailRounds (p.2.timer - frameTime) ≤ MaxFireworks →
          ∃ lf lu, s1.Fireworks = s.Fireworks ++ lf ∧
            s1.FireworkUpdates = s.FireworkUpdates ++ lu ∧
            lf.length = trailRounds (p.2.timer - frameTime) ∧
            lu.length = trailRounds (p.2.timer - frameTime) ∧
            ∀ u ∈ lu, u.type = FireworkType.StarSimple)) := by
  obtain ⟨hpos, hle, hleast⟩ := timerAfter_trailRounds _ hrange
  refine ⟨fun h => trailRounds_pos _ h, fun h => ⟨?_, ?_, fun h8 => ?_, hpos, hleast⟩,
    fun h => ?_, fun h => ?_⟩
  · rw [trailRounds_step _ hrange h]
    omega
  · have hb := trailRounds_le (p.2.timer - frameTime)
    rw [show -(p.2.timer - frameTime) * 64 = (frameTime - p.2.timer) * 64 by ring] at hb
    exact hb
  · have hb := trailRounds_near (p.2.timer - frameTime) h (by linarith)
    rw [show -(p.2.timer - frameTime) = frameTime - p.2.timer by ring] at hb
    exact hb
  · rw [updateParticle_trail env tf frameTime p s hty,
      trailLoop_none env _ tf _ s (by simpa using hrange) (by simpa using h)]
    rfl
  · obtain ⟨u1, s1, hrun, ht1, -, heq⟩ := trailLoop_spec env (flightUpdate env frameTime p).1 tf
      { (flightUpdate env frameTime p).2 with timer := p.2.timer - frameTime } s hrange h
    simp only at ht1 heq
    obtain ⟨hg, hu1, -⟩ := trailLoop_some _ _ _ _ _ _ _ hrun
    have hcalls := trailLoop_calls _ _ _ _ _ _ _ (by simpa using hrange) hrun
    simp only at hcalls
    refine ⟨u1, s1, ?_, hu1, ht1, by rw [ht1]; exact hpos, fun hk => by rw [ht1]; exact hle hk,
      hcalls, fun hroom => ?_⟩
    · rw [updateParticle_trail env tf frameTime p s hty, hrun]
      rfl
    · obtain ⟨lf, lu, hl, hf, hu, hP, -⟩ := hg
      have hlen := heq hroom
      rw [hf, List.length_append] at hlen
      exact ⟨lf, lu, hf, hu, by omega, by omega, fun u hu => (hP u hu).1⟩

/-- C19, amended, at a trail star with timer `0.12f` visited with frame time `0.2f`, in the
store `oneTrail`: two rounds. -/
theorem general_trail_cadence_witness :
    (sampleUpdate FireworkType.StarSmallTrail 2 (roundFloat32 (3 / 25))).type =
        FireworkType.StarSmallTrail ∧
      (0 : ℚ) ≤ roundFloat32 (1 / 5) ∧
      -500000 ≤ (sampleUpdate FireworkType.StarSmallTrail 2 (roundFloat32 (3 / 25))).timer -
        roundFloat32 (1 / 5) ∧
      trailRounds ((sampleUpdate FireworkType.StarSmallTrail 2 (roundFloat32 (3 / 25))).timer -
        roundFloat32 (1 / 5)) = 2 ∧
      updateParticle sampleEnv 1 (roundFloat32 (1 / 5)) sampleFirework
        (sampleUpdate FireworkType.StarSmallTrail 2 (roundFloat32 (3 / 25))) oneTrail = none ∧
      (updateParticle sampleEnv 2 (roundFloat32 (1 / 5)) sampleFirework
        (sampleUpdate FireworkType.StarSmallTrail 2 (roundFloat32 (3 / 25))) oneTrail).map
          (fun r => (r.2.1.timer, r.2.2.Fireworks.length, r.2.2.randomCalls))
        = some (1342177 / 67108864, 3, 6) :=
  ⟨rfl, by decide!, by decide!, by decide!,
    (general_trail_cadence sampleEnv 1 (roundFloat32 (1 / 5))
      (sampleFirework, sampleUpdate FireworkType.StarSmallTrail 2 (roundFloat32 (3 / 25)))
      oneTrail rfl (by decide!) (by decide!)).2.2.1 (by decide!),
    by decide!⟩

/-! ## The rule of the simple star -/

/-- C20. Simple-star tick rule: the visit of a simple star with position `p`, velocity
`v`, life `l`, alpha `a` and scale `s` leaves it with position `p + v * frameTime` (the
velocity from before gravity), velocity `(v + (0, -30 * frameTime, 0)) * powf(0.5,
frameTime)`, life `l - frameTime`, alpha `a - 0.5 * frameTime`, scale
`s - 1.0 * frameTime`, unchanged red, green, blue and rotation, and emits no particle (the
store is otherwise unchanged); and a simple star that survives a complete step (`life >
frameTime`) is in the final store with exactly these values. -/
theorem simple_star_tick_rule (env : Env) (frameTime : ℚ) (p : Firework × FireworkUpdate)
    (hty : p.2.type = FireworkType.StarSimple) :
    (∀ tf s, updateParticle env tf frameTime p.1 p.2 s =
      some ((simpleStarTick env frameTime p).1, (simpleStarTick env frameTime p).2, s)) ∧
    (simpleStarTick env frameTime p).1.position =
      { x := p.1.position.x + p.2.velocity.x * frameTime,
        y := p.1.position.y + p.2.velocity.y * frameTime,
        z := p.1.position.z + p.2.velocity.z * frameTime } ∧
    (simpleStarTick env frameTime p).2.velocity =
      { x := p.2.velocity.x * env.powf (1 / 2) frameTime,
        y := (p.2.velocity.y + -30 * frameTime) * env.powf (1 / 2) frameTime,
        z := p.2.velocity.z * env.powf (1 / 2) frameTime } ∧
    (simpleStarTick env frameTime p).2.life = p.2.life - frameTime ∧
    (simpleStarTick env frameTime p).1.colour =
      { p.1.colour with a := p.1.colour.a - 1 / 2 * frameTime } ∧
    (simpleStarTick env frameTime p).1.scale = p.1.scale - 1 * frameTime ∧
    (simpleStarTick env frameTime p).1.rotation = p.1.rotation ∧
    (∀ fuel s s1, Aligned s → UpdateFireworks env fuel frameTime s = some s1 →
      p ∈ pairs s → frameTime < p.2.life →
      ∃ q ∈ pairs s1, q.1 = (simpleStarTick env frameTime p).1 ∧
        q.2.velocity = (simpleStarTick env frameTime p).2.velocity ∧
        q.2.life = p.2.life - frameTime ∧ q.2.type = FireworkType.StarSimple) := by
  refine ⟨fun tf s => ?_, rfl, rfl, rfl, rfl, rfl, rfl, fun fuel s s1 ha h hp hlife => ?_⟩
  · rw [updateParticle_star env tf frameTime p s hty, flightUpdate_star env frameTime p hty]
  · obtain ⟨q, hq, hq1, hq2⟩ := updateFireworks_tracked env fuel frameTime s s1 p ha h hp hlife
    rw [flightUpdate_star env frameTime p hty] at hq1 hq2
    refine ⟨q, hq, hq1, ?_, ?_, ?_⟩
    · rw [hq2]
    · rw [hq2]
      rfl
    · rw [hq2]
      exact hty

/-- C20 at the star of the store `oneStar` with a frame time of one second. -/
theorem simple_star_tick_rule_witness :
    (sampleUpdate FireworkType.StarSimple 2 0).type = FireworkType.StarSimple ∧
      Aligned oneStar ∧ UpdateFireworks sampleEnv 2 1 oneStar = some oneStarAfter ∧
      (sampleFirework, sampleUpdate FireworkType.StarSimple 2 0) ∈ pairs oneStar ∧
      (1 : ℚ) < (sampleUpdate FireworkType.StarSimple 2 0).life ∧
      ∃ q ∈ pairs oneStarAfter,
        q.1 = (simpleStarTick sampleEnv 1
          (sampleFirework, sampleUpdate FireworkType.StarSimple 2 0)).1 ∧
        q.2.velocity = (simpleStarTick sampleEnv 1
          (sampleFirework, sampleUpdate FireworkType.StarSimple 2 0)).2.velocity ∧
        q.2.life = (sampleUpdate FireworkType.StarSimple 2 0).life - 1 ∧
        q.2.type = FireworkType.StarSimple :=
  ⟨rfl, by decide, by decide!, by decide!, by decide!,
    (simple_star_tick_rule sampleEnv 1
      (sampleFirework, sampleUpdate FireworkType.StarSimple 2 0) rfl).2.2.2.2.2.2.2 2 oneStar
      oneStarAfter (by decide) (by decide!) (by decide!) (by decide!)⟩

/-! ## A type without a rule -/

theorem flightUpdate_of_not_star (env : Env) (ft : ℚ) (p : Firework × FireworkUpdate)
    (h1 : p.2.type ≠ FireworkType.StarSimple) (h2 : p.2.type ≠ FireworkType.StarSmallTrail) :
    flightUpdate env ft p = moveAndAge ft p.1 p.2 := by
  simp [flightUpdate, simpleStarUpdate, moveAndAge, h1, h2]

/-- The visit of a particle that is neither a star nor a comet and does not burst: only
movement, gravity and ageing. -/
theorem updateParticle_plain (env : Env) (tf : ℕ) (ft : ℚ) (p : Firework × FireworkUpdate)
    (s : Scene) (h1 : p.2.type ≠ FireworkType.StarSimple)
    (h2 : p.2.type ≠ FireworkType.StarSmallTrail) (h3 : p.2.type ≠ FireworkType.CometRocket)
    (h4 : burstWhenDead env (moveAndAge ft p.1 p.2).1 (moveAndAge ft p.1 p.2).2 s = s) :
    updateParticle env tf ft p.1 p.2 s =
      some ((moveAndAge ft p.1 p.2).1, (moveAndAge ft p.1 p.2).2, s) := by
  have hm : (moveAndAge ft p.1 p.2).2.type = p.2.type := rfl
  have hs : simpleStarUpdate env ft (moveAndAge ft p.1 p.2).1 (moveAndAge ft p.1 p.2).2 =
      moveAndAge ft p.1 p.2 := by
    unfold simpleStarUpdate
    rw [if_neg (by rw [hm]; exact h1)]
  unfold updateParticle
  simp only
  rw [hs]
  unfold trailStarUpdate
  rw [if_neg (by rw [hm]; exact h2)]
  simp only
  rw [cometUpdate_of_ne _ _ _ _ (by rw [hm]; exact h3), h4]

/-- C16, as stated, fails: a store holding a fancy peony rocket, for which
`UpdateFireworks` has no block, is stepped without any failure; the rocket is moved, pulled
down by gravity and aged like any particle. -/
theorem unregistered_type_fails_fast_counterexample :
    oneFancy.FireworkUpdates.map (fun u => u.type) = [FireworkType.FancyPeonyRocket] ∧
      UpdateFireworks sampleEnv 1 1 oneFancy = some oneFancyAfter := by
  decide!

/-- C16, amended. `UpdateFireworks` has no check for a type without a rule: the visit of a
fancy peony rocket always returns, applies movement, gravity and ageing to it and nothing
else, and emits nothing; a fancy peony rocket that outlives the frame time is in the store
a complete step returns, with exactly that update. -/
theorem unregistered_type_no_failure (env : Env) (frameTime : ℚ)
    (p : Firework × FireworkUpdate) (hty : p.2.type = FireworkType.FancyPeonyRocket) :
    (∀ tf s, updateParticle env tf frameTime p.1 p.2 s =
      some ((moveAndAge frameTime p.1 p.2).1, (moveAndAge frameTime p.1 p.2).2, s)) ∧
    (∀ fuel s s1, Aligned s → UpdateFireworks env fuel frameTime s = some s1 →
      p ∈ pairs s → frameTime < p.2.life →
      ∃ q ∈ pairs s1, q.1 = (moveAndAge frameTime p.1 p.2).1 ∧
        q.2 = { (moveAndAge frameTime p.1 p.2).2 with timer := q.2.timer }) := by
  have h1 : p.2.type ≠ FireworkType.StarSimple := by rw [hty]; decide
  have h2 : p.2.type ≠ FireworkType.StarSmallTrail := by rw [hty]; decide
  have h3 : p.2.type ≠ FireworkType.CometRocket := by rw [hty]; decide
  refine ⟨fun tf s => ?_, fun fuel s s1 ha h hp hlife => ?_⟩
  · apply updateParticle_plain env tf frameTime p s h1 h2 h3
    apply burstWhenDead_of_ne
    · change p.2.type ≠ FireworkType.PeonyRocket
      rw [hty]
      decide
    · change p.2.type ≠ FireworkType.BrocadeRocket
      rw [hty]
      decide
  · obtain ⟨q, hq, hq1, hq2⟩ := updateFireworks_tracked env fuel frameTime s s1 p ha h hp hlife
    rw [flightUpdate_of_not_star env frameTime p h1 h2] at hq1 hq2
    exact ⟨q, hq, hq1, hq2⟩

/-- C16, amended, at the store `oneFancy` with a frame time of one second. -/
theorem unregistered_type_no_failure_witness :
    (sampleUpdate FireworkType.FancyPeonyRocket 2 0).type = FireworkType.FancyPeonyRocket ∧
      Aligned oneFancy ∧ UpdateFireworks sampleEnv 1 1 oneFancy = some oneFancyAfter ∧
      (sampleFirework, sampleUpdate FireworkType.FancyPeonyRocket 2 0) ∈ pairs oneFancy ∧
      (1 : ℚ) < (sampleUpdate FireworkType.FancyPeonyRocket 2 0).life ∧
      ∃ q ∈ pairs oneFancyAfter,
        q.1 = (moveAndAge 1 sampleFirework
          (sampleUpdate FireworkType.FancyPeonyRocket 2 0)).1 ∧
        q.2 = { (moveAndAge 1 sampleFirework
          (sampleUpdate FireworkType.FancyPeonyRocket 2 0)).2 with timer := q.2.timer } :=
  ⟨rfl, by decide, by decide!, by decide!, by decide!,
    (unregistered_type_no_failure sampleEnv 1
      (sampleFirework, sampleUpdate FireworkType.FancyPeonyRocket 2 0) rfl).2 1 oneFancy
      oneFancyAfter (by decide) (by decide!) (by decide!) (by decide!)⟩

/-! ## A step of frame time zero -/

theorem moveAndAge_zero (f : Firework) (u : FireworkUpdate) : moveAndAge 0 f u = (f, u) := by
  simp [moveAndAge, CVector3.addAssign, CVector3.mul]

theorem fadeAndSlow_zero (env : Env) (f : Firework) (u : FireworkUpdate)
    (hpow : env.powf (1 / 2) 0 = 1) : fadeAndSlow env 0 f u = (f, u) := by
  have hpow1 : env.powf 2⁻¹ 0 = 1 := by simpa using hpow
  simp [fadeAndSlow, CVector3.mulAssign, hpow1]

theorem flightUpdate_zero (env : Env) (p : Firework × FireworkUpdate)
    (hpow : env.powf (1 / 2) 0 = 1) : flightUpdate env 0 p = p := by
  unfold flightUpdate simpleStarUpdate
  simp only [moveAndAge_zero, fadeAndSlow_zero env _ _ hpow]
  split <;> split <;> rfl

/-- With frame time zero, the visit of a live particle that is not a comet, and whose timer
is positive if it is a trail star, changes nothing. -/
theorem updateParticle_zero (env : Env) (tf : ℕ) (p : Firework × FireworkUpdate) (s : Scene)
    (hpow : env.powf (1 / 2) 0 = 1) (hlife : 0 < p.2.life)
    (hcomet : p.2.type ≠ FireworkType.CometRocket)
    (htimer : p.2.type = FireworkType.StarSmallTrail → 0 < p.2.timer) :
    updateParticle env tf 0 p.1 p.2 s = some (p.1, p.2, s) := by
  by_cases h1 : p.2.type = FireworkType.StarSimple
  · rw [updateParticle_star env tf 0 p s h1, flightUpdate_zero env p hpow]
  · by_cases h2 : p.2.type = FireworkType.StarSmallTrail
    · rw [updateParticle_trail env tf 0 p s h2, flightUpdate_zero env p hpow]
      have ht : ¬ (p.2.timer - 0 ≤ 0) := by
        have := htimer h2
        linarith
      have hu : ({ p.2 with timer := p.2.timer - 0 } : FireworkUpdate) = p.2 := by simp
      cases tf with
      | zero => rw [trailLoop, if_neg ht, hu]; rfl
      | succ n => rw [trailLoop, if_neg ht, hu]; rfl
    · have h := updateParticle_plain env tf 0 p s h1 h2 hcomet
        (by rw [moveAndAge_zero]; exact burstWhenDead_alive _ _ _ _ hlife)
      rw [moveAndAge_zero] at h
      exact h

/-- With frame time zero the loop walks over a stretch of such particles without changing
the store. -/
theorem updateLoop_zero (env : Env) (tf : ℕ) (k : ℕ) (hpow : env.powf (1 / 2) 0 = 1) :
    ∀ (B A : List (Firework × FireworkUpdate)) (fuel : ℕ),
      (∀ p ∈ B, 0 < p.2.life ∧ p.2.type ≠ FireworkType.CometRocket ∧
        (p.2.type = FireworkType.StarSmallTrail → 0 < p.2.timer)) →
      B.length ≤ fuel →
      updateLoop env tf 0 fuel (ofPairs (A ++ B) k) A.length A.length =
        some (ofPairs (A ++ B) k) := by
  intro B
  induction B with
  | nil =>
    intro A fuel _ _
    exact updateLoop_end _ _ _ _ _ _ _ (by simp [ofPairs])
  | cons p B ih =>
    intro A fuel hB hfuel
    obtain ⟨fuel1, rfl⟩ : ∃ fuel1, fuel = fuel1 + 1 := ⟨fuel - 1, by
      simp only [List.length_cons] at hfuel; omega⟩
    obtain ⟨hlife, hcomet, htimer⟩ := hB p (by simp)
    have hne : A.length ≠ (ofPairs (A ++ p :: B) k).Fireworks.length := by simp [ofPairs]
    have hstep : updateStep env tf 0 (ofPairs (A ++ p :: B) k) A.length A.length =
        some (ofPairs (A ++ p :: B) k, (A ++ [p]).length, (A ++ [p]).length) := by
      rw [updateStep_eq env tf 0 _ _ _ _ p.1 _ p.2 _ (getElem?_map_mid _ _ _ _)
        (getElem?_map_mid _ _ _ _) (updateParticle_zero env tf p _ hpow hlife hcomet htimer),
        writeBack_ofPairs, remove_ofPairs_alive _ _ _ _ hlife]
    rw [updateLoop_succ _ _ _ _ _ _ _ _ _ _ hne hstep]
    have h := ih (A ++ [p]) fuel1 (fun x hx => hB x (by simp [hx])) (by
      simp only [List.length_cons] at hfuel; omega)
    simpa using h

/-- C13, as stated, fails: in the store `mixedStore` every particle is alive, yet a step of
frame time zero leaves five particles where there were three: the comet emits a star on
every visit, and so does the trail star whose timer is not positive. -/
theorem zero_frame_time_noop_counterexample :
    Aligned mixedStore ∧ (∀ u ∈ mixedStore.FireworkUpdates, 0 < u.life) ∧
      mixedStore.Fireworks.length = 3 ∧
      (UpdateFireworks sampleEnv 9 0 mixedStore).map (fun s => s.Fireworks.length) = some 5 ∧
      UpdateFireworks sampleEnv 9 0 mixedStore ≠ some mixedStore := by
  decide!

/-- C13, amended. Zero frame time is a no-op on every aligned store whose particles all have
`life > 0`, that holds no comet rocket, and whose trail stars all have `timer > 0`:
`UpdateFireworks(0)`, given fuel for one round per particle, returns the store unchanged
(same records in the same order), `powf(0.5, 0)` being one. -/
theorem zero_frame_time_noop (env : Env) (fuel : ℕ) (s : Scene) (ha : Aligned s)
    (hlife : ∀ u ∈ s.FireworkUpdates, 0 < u.life)
    (hcomet : ∀ u ∈ s.FireworkUpdates, u.type ≠ FireworkType.CometRocket)
    (htimer : ∀ u ∈ s.FireworkUpdates, u.type = FireworkType.StarSmallTrail → 0 < u.timer)
    (hpow : env.powf (1 / 2) 0 = 1) (hfuel : s.Fireworks.length ≤ fuel) :
    UpdateFireworks env fuel 0 s = some s := by
  have h := updateLoop_zero env fuel s.randomCalls hpow (pairs s) [] fuel
    (fun p hp => ⟨hlife p.2 (mem_pairs_snd s p hp), hcomet p.2 (mem_pairs_snd s p hp),
      htimer p.2 (mem_pairs_snd s p hp)⟩)
    (by rw [length_pairs s ha]; exact hfuel)
  simp only [List.nil_append, List.length_nil, ofPairs_pairs s ha] at h
  exact h

/-- C13, amended, at the store `threeLive` of a peony rocket, a trail star with a running
timer and a simple star. -/
theorem zero_frame_time_noop_witness :
    Aligned threeLive ∧ (∀ u ∈ threeLive.FireworkUpdates, 0 < u.life) ∧
      (∀ u ∈ threeLive.FireworkUpdates, u.type ≠ FireworkType.CometRocket) ∧
      (∀ u ∈ threeLive.FireworkUpdates, u.type = FireworkType.StarSmallTrail → 0 < u.timer) ∧
      sampleEnv.powf (1 / 2) 0 = 1 ∧ threeLive.Fireworks.length ≤ 3 ∧
      UpdateFireworks sampleEnv 3 0 threeLive = some threeLive :=
  ⟨by decide, by decide!, by decide, by decide!, by decide!, by decide,
    zero_frame_time_noop sampleEnv 3 threeLive (by decide) (by decide!) (by decide)
      (by decide!) (by decide!) (by decide)⟩

/-! ## The burst loops -/

theorem emitPeonyStar_eq (env : Env) (f : Firework) (u : FireworkUpdate) :
    emitPeonyStar env f u = cappedEmit (burstFirework f u) (peonyUpdate env u) := rfl

theorem emitBrocadeStar_eq (env : Env) (f : Firework) (u : FireworkUpdate) :
    emitBrocadeStar env f u = cappedEmit (burstFirework f u) (brocadeUpdate env u) := rfl

theorem cappedEmit_ofPairs (fw : Firework) (mk : ℕ → FireworkUpdate)
    (l : List (Firework × FireworkUpdate)) (k : ℕ) :
    cappedEmit fw mk (ofPairs l k) =
      if l.length < MaxFireworks then ofPairs (l ++ [(fw, mk k)]) (k + 3)
      else ofPairs l (k + 3) := by
  unfold cappedEmit
  split
  · rename_i h
    rw [addFirework_room _ _ _ (by simpa [ofPairs] using h)]
    simp [ofPairs]
  · rename_i h
    rw [addFirework_full _ _ _ (by simpa [ofPairs] using h)]
    rfl

/-- A burst of `n` rounds appends one particle per round while there is room, and draws
three random numbers per round. -/
theorem burstLoop_ofPairs (fw : Firework) (mk : ℕ → FireworkUpdate) (n : ℕ)
    (l : List (Firework × FireworkUpdate)) (k : ℕ) :
    burstLoop (cappedEmit fw mk) n (ofPairs l k) =
      ofPairs (l ++ burstSpawns fw mk n l.length k) (k + 3 * n) := by
  induction n generalizing l k with
  | zero => simp [burstLoop, burstSpawns]
  | succ n ih =>
    rw [burstLoop, cappedEmit_ofPairs]
    split
    · rename_i h
      have hm : min (n + 1) (MaxFireworks - l.length) =
          min n (MaxFireworks - (l ++ [(fw, mk k)]).length) + 1 := by
        simp only [List.length_append, List.length_singleton]
        omega
      have hlist : (l ++ [(fw, mk k)]) ++
          burstSpawns fw mk n (l ++ [(fw, mk k)]).length (k + 3) =
          l ++ burstSpawns fw mk (n + 1) l.length k := by
        unfold burstSpawns
        rw [hm, List.range_succ_eq_map]
        simp only [List.map_cons, List.map_map, List.append_assoc, List.singleton_append,
          Nat.mul_zero, Nat.add_zero]
        congr 2
        apply List.map_congr_left
        intro i _
        simp only [Function.comp, Nat.succ_eq_add_one]
        rw [show k + 3 + 3 * i = k + 3 * (i + 1) by ring]
      rw [ih, hlist, show k + 3 + 3 * n = k + 3 * (n + 1) by ring]
    · rename_i h
      have hm : min (n + 1) (MaxFireworks - l.length) = 0 := by omega
      have hm1 : min n (MaxFireworks - l.length) = 0 := by omega
      have hlist : burstSpawns fw mk n l.length (k + 3) = burstSpawns fw mk (n + 1) l.length k := by
        unfold burstSpawns
        rw [hm, hm1]
        rfl
      rw [ih, hlist, show k + 3 + 3 * n = k + 3 * (n + 1) by ring]

theorem length_burstSpawns (fw : Firework) (mk : ℕ → FireworkUpdate) (n len k : ℕ) :
    (burstSpawns fw mk n len k).length = min n (MaxFireworks - len) := by
  simp [burstSpawns]

theorem mem_burstSpawns (fw : Firework) (mk : ℕ → FireworkUpdate) (n len k : ℕ)
    (x : Firework × FireworkUpdate) (hx : x ∈ burstSpawns fw mk n len k) :
    ∃ i, x = (fw, mk (k + 3 * i)) := by
  unfold burstSpawns at hx
  obtain ⟨i, -, rfl⟩ := List.mem_map.mp hx
  exact ⟨i, rfl⟩

/-- The visit of a particle that is neither a star nor a comet: movement, gravity and
ageing, then the burst block. -/
theorem updateParticle_rocket (env : Env) (tf : ℕ) (ft : ℚ) (p : Firework × FireworkUpdate)
    (s : Scene) (h1 : p.2.type ≠ FireworkType.StarSimple)
    (h2 : p.2.type ≠ FireworkType.StarSmallTrail) (h3 : p.2.type ≠ FireworkType.CometRocket) :
    updateParticle env tf ft p.1 p.2 s =
      some ((moveAndAge ft p.1 p.2).1, (moveAndAge ft p.1 p.2).2,
        burstWhenDead env (moveAndAge ft p.1 p.2).1 (moveAndAge ft p.1 p.2).2 s) := by
  have hm : (moveAndAge ft p.1 p.2).2.type = p.2.type := rfl
  have hs : simpleStarUpdate env ft (moveAndAge ft p.1 p.2).1 (moveAndAge ft p.1 p.2).2 =
      moveAndAge ft p.1 p.2 := by
    unfold simpleStarUpdate
    rw [if_neg (by rw [hm]; exact h1)]
  unfold updateParticle
  simp only
  rw [hs]
  unfold trailStarUpdate
  rw [if_neg (by rw [hm]; exact h2)]
  simp only
  rw [cometUpdate_of_ne _ _ _ _ (by rw [hm]; exact h3)]

/-- The visit of a peony rocket that expires: its burst. -/
theorem updateParticle_peony_dead (env : Env) (tf : ℕ) (ft : ℚ)
    (p : Firework × FireworkUpdate) (l : List (Firework × FireworkUpdate)) (k : ℕ)
    (hty : p.2.type = FireworkType.PeonyRocket) (hlife : p.2.life ≤ ft) :
    updateParticle env tf ft p.1 p.2 (ofPairs l k) =
      some ((moveAndAge ft p.1 p.2).1, (moveAndAge ft p.1 p.2).2,
        ofPairs (l ++ burstSpawns (burstFirework (moveAndAge ft p.1 p.2).1
            (moveAndAge ft p.1 p.2).2) (peonyUpdate env (moveAndAge ft p.1 p.2).2)
            p.2.payloadIntA.toNat l.length k)
          (k + 3 * p.2.payloadIntA.toNat)) := by
  have hm : (moveAndAge ft p.1 p.2).2.type = p.2.type := rfl
  have hl : (moveAndAge ft p.1 p.2).2.life ≤ 0 := by
    rw [(moveAndAge_snd ft p.1 p.2).1]
    linarith
  rw [updateParticle_rocket env tf ft p _ (by rw [hty]; decide) (by rw [hty]; decide)
    (by rw [hty]; decide)]
  unfold burstWhenDead peonyBurst brocadeBurst
  rw [if_pos hl, if_pos (hm.trans hty),
    if_neg (show ¬ (moveAndAge ft p.1 p.2).2.type = FireworkType.BrocadeRocket by
      rw [hm, hty]; decide),
    emitPeonyStar_eq, burstLoop_ofPairs]
  rfl

/-- The visit of a brocade rocket that expires: its burst. -/
theorem updateParticle_brocade_dead (env : Env) (tf : ℕ) (ft : ℚ)
    (p : Firework × FireworkUpdate) (l : List (Firework × FireworkUpdate)) (k : ℕ)
    (hty : p.2.type = FireworkType.BrocadeRocket) (hlife : p.2.life ≤ ft) :
    updateParticle env tf ft p.1 p.2 (ofPairs l k) =
      some ((moveAndAge ft p.1 p.2).1, (moveAndAge ft p.1 p.2).2,
        ofPairs (l ++ burstSpawns (burstFirework (moveAndAge ft p.1 p.2).1
            (moveAndAge ft p.1 p.2).2) (brocadeUpdate env (moveAndAge ft p.1 p.2).2)
            p.2.payloadIntA.toNat l.length k)
          (k + 3 * p.2.payloadIntA.toNat)) := by
  have hm : (moveAndAge ft p.1 p.2).2.type = p.2.type := rfl
  have hl : (moveAndAge ft p.1 p.2).2.life ≤ 0 := by
    rw [(moveAndAge_snd ft p.1 p.2).1]
    linarith
  rw [updateParticle_rocket env tf ft p _ (by rw [hty]; decide) (by rw [hty]; decide)
    (by rw [hty]; decide)]
  unfold burstWhenDead peonyBurst brocadeBurst
  rw [if_pos hl, if_pos (hm.trans hty),
    if_neg (show ¬ (moveAndAge ft p.1 p.2).2.type = FireworkType.PeonyRocket by
      rw [hm, hty]; decide),
    emitBrocadeStar_eq, burstLoop_ofPairs]
  rfl

/-- One round of the loop on a particle that its visit leaves dead: it is removed, and the
last particle of the store, if there is another one, takes its place. -/
theorem updateStep_ofPairs_dead (env : Env) (tf : ℕ) (ft : ℚ)
    (A B S : List (Firework × FireworkUpdate)) (p q : Firework × FireworkUpdate) (k k1 : ℕ)
    (hrun : updateParticle env tf ft p.1 p.2 (ofPairs (A ++ p :: B) k) =
      some (q.1, q.2, ofPairs (A ++ p :: B ++ S) k1))
    (hq : q.2.life ≤ 0) :
    (B ++ S = [] → updateStep env tf ft (ofPairs (A ++ p :: B) k) A.length A.length =
      some (ofPairs A k1, A.length, A.length)) ∧
    (∀ C x, B ++ S = C ++ [x] →
      updateStep env tf ft (ofPairs (A ++ p :: B) k) A.length A.length =
        some (ofPairs (A ++ x :: C) k1, A.length, A.length)) := by
  have hstep := updateStep_eq env tf ft _ _ _ _ p.1 _ p.2 _ (getElem?_map_mid _ _ _ _)
    (getElem?_map_mid _ _ _ _) hrun
  rw [show A ++ p :: B ++ S = A ++ p :: (B ++ S) by simp, writeBack_ofPairs] at hstep
  refine ⟨fun h => ?_, fun C x h => ?_⟩
  · rw [hstep, h, remove_ofPairs_last _ _ _ hq]
  · rw [hstep, h, remove_ofPairs_inner _ _ _ _ _ hq]

/-- A complete step over a tail of simple stars that all outlive the frame time: they are
all kept. -/
theorem updateLoop_stars_alive (env : Env) (tf : ℕ) (ft : ℚ) (k : ℕ)
    (A B : List (Firework × FireworkUpdate)) (fuel : ℕ)
    (hstar : ∀ p ∈ B, p.2.type = FireworkType.StarSimple ∧ ft < p.2.life)
    (hfuel : B.length ≤ fuel) :
    ∃ rest, updateLoop env tf ft fuel (ofPairs (A ++ B) k) A.length A.length
        = some (ofPairs (A ++ rest) k) ∧
      rest.Perm (B.map (flightUpdate env ft)) := by
  obtain ⟨rest, hrun, hperm⟩ := updateLoop_stars env tf ft k B.length A B fuel rfl
    (fun p hp => (hstar p hp).1) hfuel
  refine ⟨rest, hrun, ?_⟩
  have hfilter : (B.map (flightUpdate env ft)).filter (fun q => 0 < q.2.life) =
      B.map (flightUpdate env ft) := by
    rw [List.filter_eq_self]
    intro x hx
    obtain ⟨y, hy, rfl⟩ := List.mem_map.mp hx
    simp only [decide_eq_true_eq]
    rw [(flightUpdate_snd env ft y).1]
    have := (hstar y hy).2
    linarith
  rw [hfilter] at hperm
  exact hperm

/-- C11. Burst emission count: for a store holding one peony rocket with `payloadTypeA =
StarSimple`, `payloadIntA = n >= 0` and `life <= frameTime`, with `frameTime < 1.4`,
`UpdateFireworks(frameTime)`, given fuel for one round per particle, returns a store from
which the rocket is gone and which holds exactly `min(n, MaxFireworks - 1)` particles, all
simple stars with `1.4 - frameTime` seconds to live: the dying rocket occupies its slot
while it emits. -/
theorem burst_emission_count (env : Env) (fuel : ℕ) (frameTime : ℚ) (f : Firework)
    (u : FireworkUpdate) (k n : ℕ) (hty : u.type = FireworkType.PeonyRocket)
    (hpay : u.payloadTypeA = FireworkType.StarSimple) (hn : u.payloadIntA = (n : ℤ))
    (hlife : u.life ≤ frameTime) (hft : frameTime < 7 / 5)
    (hfuel : min n (MaxFireworks - 1) + 1 ≤ fuel) :
    ∃ s1, UpdateFireworks env fuel frameTime
        { Fireworks := [f], FireworkUpdates := [u], randomCalls := k } = some s1 ∧
      s1.Fireworks.length = min n (MaxFireworks - 1) ∧
      s1.FireworkUpdates.length = min n (MaxFireworks - 1) ∧
      ∀ x ∈ s1.FireworkUpdates,
        x.type = FireworkType.StarSimple ∧ x.life = 7 / 5 - frameTime := by
  obtain ⟨fuel1, rfl⟩ : ∃ fuel1, fuel = fuel1 + 1 := ⟨fuel - 1, by omega⟩
  have hrun := updateParticle_peony_dead env (fuel1 + 1) frameTime (f, u) [(f, u)] k hty hlife
  simp only [hn, Int.toNat_ofNat, List.length_singleton] at hrun
  generalize hS : burstSpawns (burstFirework (moveAndAge frameTime f u).1
    (moveAndAge frameTime f u).2) (peonyUpdate env (moveAndAge frameTime f u).2) n 1 k = S
    at hrun
  have hSlen : S.length = min n (MaxFireworks - 1) := by
    rw [← hS, length_burstSpawns]
  have hSmem : ∀ x ∈ S, x.2.type = FireworkType.StarSimple ∧ frameTime < x.2.life ∧
      x.2.life = 7 / 5 := by
    intro x hx
    rw [← hS] at hx
    obtain ⟨i, rfl⟩ := mem_burstSpawns _ _ _ _ _ _ hx
    exact ⟨hpay, hft, rfl⟩
  have hdead : (moveAndAge frameTime f u).2.life ≤ 0 := by
    rw [(moveAndAge_snd frameTime f u).1]
    linarith
  obtain ⟨hlast, hinner⟩ := updateStep_ofPairs_dead env (fuel1 + 1) frameTime [] [] S (f, u)
    (moveAndAge frameTime f u) k (k + 3 * n) hrun hdead
  have hne : 0 ≠ (ofPairs [(f, u)] k).Fireworks.length := by simp [ofPairs]
  have hinit : ({ Fireworks := [f], FireworkUpdates := [u], randomCalls := k } : Scene) =
      ofPairs [(f, u)] k := rfl
  simp only [List.nil_append, List.length_nil] at hlast hinner
  unfold UpdateFireworks
  rw [hinit]
  rcases List.eq_nil_or_concat S with hnil | ⟨C, x, hC⟩
  · subst hnil
    rw [updateLoop_succ _ _ _ _ _ _ _ _ _ _ hne (hlast rfl),
      updateLoop_end _ _ _ _ _ _ _ (by simp [ofPairs])]
    refine ⟨_, rfl, ?_, ?_, ?_⟩
    · simpa [ofPairs] using hSlen
    · simpa [ofPairs] using hSlen
    · intro x hx
      simp [ofPairs] at hx
  · rw [List.concat_eq_append] at hC
    obtain ⟨rest, hloop, hperm⟩ := updateLoop_stars_alive env (fuel1 + 1) frameTime
      (k + 3 * n) [] (x :: C) fuel1
      (fun y hy => by
        have hyS : y ∈ S := by
          rw [hC]
          rcases List.mem_cons.mp hy with h | h
          · simp [h]
          · simp [h]
        exact ⟨(hSmem y hyS).1, (hSmem y hyS).2.1⟩)
      (by
        have : S.length = C.length + 1 := by rw [hC]; simp
        simp only [List.length_cons]
        omega)
    rw [updateLoop_succ _ _ _ _ _ _ _ _ _ _ hne (hinner C x hC)]
    simp only [List.nil_append, List.length_nil] at hloop
    have hrest : rest.length = min n (MaxFireworks - 1) := by
      rw [hperm.length_eq, List.length_map, ← hSlen, hC]
      simp
    refine ⟨_, hloop, by simpa [ofPairs] using hrest, by simpa [ofPairs] using hrest, ?_⟩
    intro y hy
    simp only [ofPairs, List.mem_map] at hy
    obtain ⟨z, hz, rfl⟩ := hy
    obtain ⟨w, hw, rfl⟩ := List.mem_map.mp ((hperm.mem_iff).mp hz)
    have hwS : w ∈ S := by
      rw [hC]
      rcases List.mem_cons.mp hw with h | h
      · simp [h]
      · simp [h]
    refine ⟨(flightUpdate_snd env frameTime w).2.1.trans (hSmem w hwS).1, ?_⟩
    rw [(flightUpdate_snd env frameTime w).1, (hSmem w hwS).2.2]

/-- C11 at a peony rocket with `payloadIntA = 100` and `life = 0.01`, stepped with
`frameTime = 0.5`: exactly one hundred simple stars. -/
theorem burst_emission_count_witness :
    ({ sampleUpdate FireworkType.PeonyRocket (1 / 100) 0 with payloadIntA := 100 } :
        FireworkUpdate).type = FireworkType.PeonyRocket ∧
      ((1 : ℚ) / 100 ≤ 1 / 2) ∧ ((1 : ℚ) / 2 < 7 / 5) ∧
      min 100 (MaxFireworks - 1) = 100 ∧
      ∃ s1, UpdateFireworks sampleEnv 101 (1 / 2)
          { Fireworks := [sampleFirework]
            FireworkUpdates :=
              [{ sampleUpdate FireworkType.PeonyRocket (1 / 100) 0 with payloadIntA := 100 }]
            randomCalls := 0 } = some s1 ∧
        s1.Fireworks.length = min 100 (MaxFireworks - 1) ∧
        s1.FireworkUpdates.length = min 100 (MaxFireworks - 1) ∧
        ∀ x ∈ s1.FireworkUpdates,
          x.type = FireworkType.StarSimple ∧ x.life = 7 / 5 - 1 / 2 :=
  ⟨rfl, by decide!, by decide!, by decide,
    burst_emission_count sampleEnv 101 (1 / 2) sampleFirework
      { sampleUpdate FireworkType.PeonyRocket (1 / 100) 0 with payloadIntA := 100 } 0 100
      rfl rfl rfl (by decide!) (by decide!) (by decide)⟩

/-! ## The burst of an expiring rocket -/

/-- C12, as stated, fails for two of the three variants.  A comet rocket that expires with
a payload count of three emits only the one simple star of its in-flight block (scale
`0.75`), and no burst particle: after its visit the store holds two particles, and after
the step that one star.  A brocade rocket that expires with two simple stars as payload
emits two particles, but of type `StarSmallTrail`, not of its `payloadTypeA`. -/
theorem rocket_expiry_rule_counterexample :
    (deadComet.type = FireworkType.CometRocket ∧ deadComet.life ≤ 0 ∧
      deadComet.payloadIntA = 3 ∧
      (updateParticle sampleEnv 0 0 sampleFirework deadComet (storeOf deadComet)).map
        (fun r => r.2.2.FireworkUpdates.map (fun u => u.type))
        = some [FireworkType.CometRocket, FireworkType.StarSimple] ∧
      (UpdateFireworks sampleEnv 2 0 (storeOf deadComet)).map
        (fun s => s.Fireworks.map (fun f => f.scale)) = some [3 / 4]) ∧
    (deadBrocade.type = FireworkType.BrocadeRocket ∧ deadBrocade.life ≤ 0 ∧
      deadBrocade.payloadIntA = 2 ∧ deadBrocade.payloadTypeA = FireworkType.StarSimple ∧
      (updateParticle sampleEnv 0 0 sampleFirework deadBrocade (storeOf deadBrocade)).map
        (fun r => r.2.2.FireworkUpdates.map (fun u => u.type))
        = some [FireworkType.BrocadeRocket, FireworkType.StarSmallTrail,
            FireworkType.StarSmallTrail]) := by
  decide!

/-- C12, amended. The visit of a peony or brocade rocket that expires (`life <=
frameTime`) with `payloadIntA = n >= 0`, in an aligned store with at least `n` free slots,
appends exactly `n` burst particles to both vectors; each has the colour `payloadColourA`
of the rocket and the position of the rocket at its burst (after this visit's movement);
its type is the rocket's `payloadTypeA` for a peony rocket and `StarSmallTrail` for a
brocade rocket. -/
theorem rocket_expiry_rule (env : Env) (tf : ℕ) (frameTime : ℚ)
    (p : Firework × FireworkUpdate) (s : Scene) (n : ℕ) (ha : Aligned s)
    (hty : p.2.type = FireworkType.PeonyRocket ∨ p.2.type = FireworkType.BrocadeRocket)
    (hlife : p.2.life ≤ frameTime) (hn : p.2.payloadIntA = (n : ℤ))
    (hroom : s.Fireworks.length + n ≤ MaxFireworks) :
    ∃ (s1 : Scene) (S : List (Firework × FireworkUpdate)),
      updateParticle env tf frameTime p.1 p.2 s =
        some ((moveAndAge frameTime p.1 p.2).1, (moveAndAge frameTime p.1 p.2).2, s1) ∧
      s1.Fireworks = s.Fireworks ++ S.map Prod.fst ∧
      s1.FireworkUpdates = s.FireworkUpdates ++ S.map Prod.snd ∧
      S.length = n ∧
      ∀ x ∈ S,
        x.2.type = (if p.2.type = FireworkType.PeonyRocket then p.2.payloadTypeA
          else FireworkType.StarSmallTrail) ∧
        x.1.colour = p.2.payloadColourA ∧
        x.1.position = p.1.position.addAssign (p.2.velocity.mul frameTime) := by
  have hs := ofPairs_pairs s ha
  have hlen : min n (MaxFireworks - (pairs s).length) = n := by
    rw [length_pairs s ha]
    omega
  have hF : ∀ S k, (ofPairs (pairs s ++ S) k).Fireworks = s.Fireworks ++ S.map Prod.fst := by
    intro S k
    conv_rhs => rw [← hs]
    simp [ofPairs]
  have hU : ∀ S k, (ofPairs (pairs s ++ S) k).FireworkUpdates =
      s.FireworkUpdates ++ S.map Prod.snd := by
    intro S k
    conv_rhs => rw [← hs]
    simp [ofPairs]
  rcases hty with hty | hty
  · have hrun := updateParticle_peony_dead env tf frameTime p (pairs s) s.randomCalls hty hlife
    rw [hs, hn, Int.toNat_ofNat] at hrun
    refine ⟨_, _, hrun, hF _ _, hU _ _, ?_, fun x hx => ?_⟩
    · rw [length_burstSpawns, hlen]
    · obtain ⟨i, rfl⟩ := mem_burstSpawns _ _ _ _ _ _ hx
      rw [if_pos hty]
      exact ⟨rfl, rfl, rfl⟩
  · have hrun := updateParticle_brocade_dead env tf frameTime p (pairs s) s.randomCalls hty hlife
    rw [hs, hn, Int.toNat_ofNat] at hrun
    refine ⟨_, _, hrun, hF _ _, hU _ _, ?_, fun x hx => ?_⟩
    · rw [length_burstSpawns, hlen]
    · obtain ⟨i, rfl⟩ := mem_burstSpawns _ _ _ _ _ _ hx
      rw [if_neg (by rw [hty]; decide)]
      exact ⟨rfl, rfl, rfl⟩

/-- C12, amended, at a peony rocket that expires with two simple stars as payload. -/
theorem rocket_expiry_rule_witness :
    Aligned (storeOf deadPeony) ∧
      (deadPeony.type = FireworkType.PeonyRocket ∨
        deadPeony.type = FireworkType.BrocadeRocket) ∧
      deadPeony.life ≤ 0 ∧ deadPeony.payloadIntA = ((2 : ℕ) : ℤ) ∧
      (storeOf deadPeony).Fireworks.length + 2 ≤ MaxFireworks ∧
      ∃ (s1 : Scene) (S : List (Firework × FireworkUpdate)),
        updateParticle sampleEnv 0 0 sampleFirework deadPeony (storeOf deadPeony) =
          some ((moveAndAge 0 sampleFirework deadPeony).1,
            (moveAndAge 0 sampleFirework deadPeony).2, s1) ∧
        s1.Fireworks = (storeOf deadPeony).Fireworks ++ S.map Prod.fst ∧
        s1.FireworkUpdates = (storeOf deadPeony).FireworkUpdates ++ S.map Prod.snd ∧
        S.length = 2 ∧
        ∀ x ∈ S,
          x.2.type = (if deadPeony.type = FireworkType.PeonyRocket then deadPeony.payloadTypeA
            else FireworkType.StarSmallTrail) ∧
          x.1.colour = deadPeony.payloadColourA ∧
          x.1.position = sampleFirework.position.addAssign (deadPeony.velocity.mul 0) :=
  ⟨by decide, by decide, by decide!, by decide, by decide,
    rocket_expiry_rule sampleEnv 0 0 (sampleFirework, deadPeony) (storeOf deadPeony) 2
      (by decide) (by decide) (by decide!) (by decide) (by decide)⟩

/-! ## Emitted particles are visited in the same pass -/

theorem flightUpdate_position (env : Env) (ft : ℚ) (p : Firework × FireworkUpdate) :
    (flightUpdate env ft p).1.position = p.1.position.addAssign (p.2.velocity.mul ft) := by
  unfold flightUpdate simpleStarUpdate
  simp only
  split <;> split <;> rfl

theorem visitWeight_simple (ft : ℚ) (u : FireworkUpdate)
    (h : u.type = FireworkType.StarSimple) : visitWeight ft u = 1 := by
  simp [visitWeight, spawnCap, h]

theorem visitWeight_trail (ft : ℚ) (u : FireworkUpdate)
    (h : u.type = FireworkType.StarSmallTrail) :
    visitWeight ft u = 1 + trailRounds (u.timer - ft) := by
  simp [visitWeight, spawnCap, spawnWeightCap, h]

/-- The visit of a comet rocket: movement, gravity and ageing, then the one star of the
comet block. -/
theorem updateParticle_comet (env : Env) (tf : ℕ) (ft : ℚ) (p : Firework × FireworkUpdate)
    (s : Scene) (hty : p.2.type = FireworkType.CometRocket) :
    updateParticle env tf ft p.1 p.2 s =
      some ((moveAndAge ft p.1 p.2).1, (moveAndAge ft p.1 p.2).2,
        emitCometStar env (moveAndAge ft p.1 p.2).1 (moveAndAge ft p.1 p.2).2 s) := by
  have hm : (moveAndAge ft p.1 p.2).2.type = FireworkType.CometRocket := hty
  have hs : simpleStarUpdate env ft (moveAndAge ft p.1 p.2).1 (moveAndAge ft p.1 p.2).2 =
      moveAndAge ft p.1 p.2 := by
    unfold simpleStarUpdate
    rw [if_neg (by rw [hm]; decide)]
  unfold updateParticle
  simp only
  rw [hs]
  unfold trailStarUpdate
  rw [if_neg (by rw [hm]; decide)]
  simp only
  rw [burstWhenDead_of_ne _ _ _ _ (by rw [hm]; decide) (by rw [hm]; decide)]
  unfold cometUpdate
  rw [if_pos hm]

/-- The visit of a particle whose payload, if it is a peony rocket, is a star, with a frame
time of at most `500000`, its timer in the range of `RearmInRange` and trail fuel for its
weight: it returns, and appends at most `spawnCap` particles, all stars of weight at most
`spawnWeightCap` with their timers in that range. -/
theorem updateParticle_spawns (env : Env) (tf : ℕ) (ft : ℚ) (p : Firework × FireworkUpdate)
    (l : List (Firework × FireworkUpdate)) (k : ℕ)
    (hwf : p.2.type = FireworkType.PeonyRocket → IsStarType p.2.payloadTypeA)
    (hft : ft ≤ 500000) (hr : RearmInRange ft p.2) (htf : visitWeight ft p.2 ≤ tf) :
    ∃ (q : Firework × FireworkUpdate) (S : List (Firework × FireworkUpdate)) (k1 : ℕ),
      updateParticle env tf ft p.1 p.2 (ofPairs l k) = some (q.1, q.2, ofPairs (l ++ S) k1) ∧
      S.length ≤ spawnCap ft p.2 ∧
      ∀ x ∈ S, IsStarType x.2.type ∧ visitWeight ft x.2 ≤ spawnWeightCap ft p.2 ∧
        RearmInRange ft x.2 := by
  have hsimple : ∀ u : FireworkUpdate, u.type = FireworkType.StarSimple →
      RearmInRange ft u := fun u hu h => absurd (hu.symm.trans h) (by decide)
  have hnone : ∀ (q : Firework × FireworkUpdate),
      updateParticle env tf ft p.1 p.2 (ofPairs l k) = some (q.1, q.2, ofPairs l k) →
      ∃ (q : Firework × FireworkUpdate) (S : List (Firework × FireworkUpdate)) (k1 : ℕ),
        updateParticle env tf ft p.1 p.2 (ofPairs l k) =
          some (q.1, q.2, ofPairs (l ++ S) k1) ∧
        S.length ≤ spawnCap ft p.2 ∧
        ∀ x ∈ S, IsStarType x.2.type ∧ visitWeight ft x.2 ≤ spawnWeightCap ft p.2 ∧
          RearmInRange ft x.2 :=
    fun q hq => ⟨q, [], k, by simpa using hq, by simp, by simp⟩
  have hm : (moveAndAge ft p.1 p.2).2.type = p.2.type := rfl
  cases hty : p.2.type with
  | StarSimple => exact hnone _ (updateParticle_star env tf ft p _ hty)
  | FancyPeonyRocket =>
    exact hnone (moveAndAge ft p.1 p.2) (updateParticle_plain env tf ft p _
      (by rw [hty]; decide) (by rw [hty]; decide) (by rw [hty]; decide)
      (burstWhenDead_of_ne _ _ _ _ (by rw [hm, hty]; decide) (by rw [hm, hty]; decide)))
  | StarSmallTrail =>
    rw [visitWeight_trail ft p.2 hty] at htf
    obtain ⟨u1, s1, hrun, -, hle, -⟩ := trailLoop_spec env (flightUpdate env ft p).1 tf
      { (flightUpdate env ft p).2 with timer := p.2.timer - ft } (ofPairs l k)
      (hr hty) (by simp only; omega)
    obtain ⟨hg, -, -⟩ := trailLoop_some _ _ _ _ _ _ _ hrun
    obtain ⟨S, hs1, hS, hlen⟩ := growsBy_ofPairs _ _ _ hg
    have h0 : (ofPairs l k).Fireworks.length = l.length := by simp [ofPairs]
    simp only at hle
    rw [h0] at hle
    refine ⟨((flightUpdate env ft p).1, u1), S, s1.randomCalls, ?_, ?_, fun x hx => ?_⟩
    · rw [updateParticle_trail env tf ft p _ hty, hrun, Option.map_some']
      simp only
      rw [← hs1]
    · simp only [spawnCap, hty]
      omega
    · refine ⟨Or.inl (hS x hx).1, ?_, hsimple _ (hS x hx).1⟩
      rw [visitWeight_simple ft x.2 (hS x hx).1]
      simp [spawnWeightCap, hty]
  | CometRocket =>
    have hg := emitCometStar_grows env (moveAndAge ft p.1 p.2).1 (moveAndAge ft p.1 p.2).2
      (ofPairs l k)
    have hle := emitCometStar_length env (moveAndAge ft p.1 p.2).1 (moveAndAge ft p.1 p.2).2
      (ofPairs l k)
    obtain ⟨S, hs1, hS, hlen⟩ := growsBy_ofPairs _ _ _ hg
    have h0 : (ofPairs l k).Fireworks.length = l.length := by simp [ofPairs]
    rw [h0] at hle
    refine ⟨moveAndAge ft p.1 p.2, S,
      (emitCometStar env (moveAndAge ft p.1 p.2).1 (moveAndAge ft p.1 p.2).2
        (ofPairs l k)).randomCalls, ?_, ?_, fun x hx => ?_⟩
    · rw [updateParticle_comet env tf ft p _ hty, ← hs1]
    · simp only [spawnCap, hty]
      omega
    · refine ⟨Or.inl (hS x hx).1, ?_, hsimple _ (hS x hx).1⟩
      rw [visitWeight_simple ft x.2 (hS x hx).1]
      simp [spawnWeightCap, hty]
  | PeonyRocket =>
    by_cases hlife : p.2.life ≤ ft
    · refine ⟨moveAndAge ft p.1 p.2, _, _, updateParticle_peony_dead env tf ft p l k hty hlife,
        ?_, fun x hx => ?_⟩
      · rw [length_burstSpawns]
        simp only [spawnCap, hty]
        omega
      · obtain ⟨i, rfl⟩ := mem_burstSpawns _ _ _ _ _ _ hx
        have hxt : (peonyUpdate env (moveAndAge ft p.1 p.2).2 (k + 3 * i)).type =
            p.2.payloadTypeA := rfl
        refine ⟨hxt ▸ hwf hty, ?_, fun _ => ?_⟩
        · simp only [spawnWeightCap, hty]
          rcases hwf hty with h | h
          · rw [visitWeight_simple ft _ (hxt.trans h)]
            omega
          · rw [visitWeight_trail ft _ (hxt.trans h)]
            exact le_refl _
        · show -500000 ≤ (0 : ℚ) - ft
          linarith
    · exact hnone (moveAndAge ft p.1 p.2) (updateParticle_plain env tf ft p _
        (by rw [hty]; decide) (by rw [hty]; decide) (by rw [hty]; decide)
        (burstWhenDead_alive _ _ _ _ (by
          rw [(moveAndAge_snd ft p.1 p.2).1]
          linarith [not_le.mp hlife])))
  | BrocadeRocket =>
    by_cases hlife : p.2.life ≤ ft
    · refine ⟨moveAndAge ft p.1 p.2, _, _,
        updateParticle_brocade_dead env tf ft p l k hty hlife, ?_, fun x hx => ?_⟩
      · rw [length_burstSpawns]
        simp only [spawnCap, hty]
        omega
      · obtain ⟨i, rfl⟩ := mem_burstSpawns _ _ _ _ _ _ hx
        have hxt : (brocadeUpdate env (moveAndAge ft p.1 p.2).2 (k + 3 * i)).type =
            FireworkType.StarSmallTrail := rfl
        refine ⟨Or.inr hxt, ?_, fun _ => ?_⟩
        · simp only [spawnWeightCap, hty]
          rw [visitWeight_trail ft _ hxt]
          exact le_refl _
        · show -500000 ≤ roundFloat32 (1 / 20) - ft
          rw [roundFloat32_twentieth]
          linarith
    · exact hnone (moveAndAge ft p.1 p.2) (updateParticle_plain env tf ft p _
        (by rw [hty]; decide) (by rw [hty]; decide) (by rw [hty]; decide)
        (burstWhenDead_alive _ _ _ _ (by
          rw [(moveAndAge_snd ft p.1 p.2).1]
          linarith [not_le.mp hlife])))

theorem sum_visitWeight_le (ft : ℚ) (S : List (Firework × FireworkUpdate)) (n c : ℕ)
    (hlen : S.length ≤ n) (hS : ∀ x ∈ S, visitWeight ft x.2 ≤ c) :
    (S.map (fun p => visitWeight ft p.2)).sum ≤ n * c := by
  have h := List.sum_le_card_nsmul (S.map (fun p => visitWeight ft p.2)) c (by
    intro y hy
    obtain ⟨x, hx, rfl⟩ := List.mem_map.mp hy
    exact hS x hx)
  rw [List.length_map, smul_eq_mul] at h
  exact h.trans (Nat.mul_le_mul_right c hlen)

/-- The loop ends: with a frame time of at most `500000`, the iterators at the start of a
tail `B` whose peony rockets carry stars and whose trail stars have their timers in the
range of `RearmInRange`, and fuel, for the outer loop and for the trail loops, for the weight
of `B`. -/
theorem updateLoop_terminates (env : Env) (tf : ℕ) (ft : ℚ) (hft : ft ≤ 500000) :
    ∀ (fuel : ℕ) (A B : List (Firework × FireworkUpdate)) (k : ℕ),
      (∀ p ∈ B, p.2.type = FireworkType.PeonyRocket → IsStarType p.2.payloadTypeA) →
      (∀ p ∈ B, RearmInRange ft p.2) →
      (B.map (fun p => visitWeight ft p.2)).sum ≤ fuel →
      (B.map (fun p => visitWeight ft p.2)).sum ≤ tf →
      ∃ s1, updateLoop env tf ft fuel (ofPairs (A ++ B) k) A.length A.length = some s1 := by
  intro fuel
  induction fuel with
  | zero =>
    intro A B k _ _ hfuel _
    cases B with
    | nil => exact ⟨_, updateLoop_end _ _ _ _ _ _ _ (by simp [ofPairs])⟩
    | cons p B =>
      simp only [List.map_cons, List.sum_cons, visitWeight] at hfuel
      omega
  | succ fuel ih =>
    intro A B k hwf hrange hfuel htf
    cases B with
    | nil => exact ⟨_, updateLoop_end _ _ _ _ _ _ _ (by simp [ofPairs])⟩
    | cons p B =>
      simp only [List.map_cons, List.sum_cons] at hfuel htf
      obtain ⟨q, S, k1, hrun, hlen, hS⟩ := updateParticle_spawns env tf ft p (A ++ p :: B) k
        (hwf p (by simp)) hft (hrange p (by simp)) (by omega)
      have hsum := sum_visitWeight_le ft S _ _ hlen (fun x hx => (hS x hx).2.1)
      have hrangeS : ∀ x ∈ B ++ S, RearmInRange ft x.2 := by
        intro x hx
        rcases List.mem_append.mp hx with h | h
        · exact hrange x (by simp [h])
        · exact (hS x h).2.2
      have hw : visitWeight ft p.2 = 1 + spawnCap ft p.2 * spawnWeightCap ft p.2 := rfl
      have hwfS : ∀ x ∈ B ++ S,
          x.2.type = FireworkType.PeonyRocket → IsStarType x.2.payloadTypeA := by
        intro x hx hxt
        rcases List.mem_append.mp hx with h | h
        · exact hwf x (by simp [h]) hxt
        · rcases (hS x h).1 with h1 | h1 <;> rw [h1] at hxt <;> exact absurd hxt (by decide)
      have hsumBS : ((B ++ S).map (fun p => visitWeight ft p.2)).sum ≤ fuel ∧
          ((B ++ S).map (fun p => visitWeight ft p.2)).sum ≤ tf := by
        rw [List.map_append, List.sum_append]
        constructor <;> omega
      have hne : A.length ≠ (ofPairs (A ++ p :: B) k).Fireworks.length := by simp [ofPairs]
      by_cases hq : 0 < q.2.life
      · have hstep : updateStep env tf ft (ofPairs (A ++ p :: B) k) A.length A.length =
            some (ofPairs (A ++ q :: (B ++ S)) k1, (A ++ [q]).length, (A ++ [q]).length) := by
          rw [updateStep_eq env tf ft _ _ _ _ p.1 _ p.2 _ (getElem?_map_mid _ _ _ _)
            (getElem?_map_mid _ _ _ _) hrun,
            show A ++ p :: B ++ S = A ++ p :: (B ++ S) by simp, writeBack_ofPairs,
            remove_ofPairs_alive _ _ _ _ hq]
        obtain ⟨s1, hs1⟩ := ih (A ++ [q]) (B ++ S) k1 hwfS hrangeS hsumBS.1 hsumBS.2
        refine ⟨s1, ?_⟩
        rw [updateLoop_succ _ _ _ _ _ _ _ _ _ _ hne hstep]
        simpa using hs1
      · obtain ⟨hlast, hinner⟩ := updateStep_ofPairs_dead env tf ft A B S p q k k1 hrun
          (not_lt.mp hq)
        rcases List.eq_nil_or_concat (B ++ S) with hnil | ⟨C, x, hC⟩
        · refine ⟨ofPairs A k1, ?_⟩
          rw [updateLoop_succ _ _ _ _ _ _ _ _ _ _ hne (hlast hnil)]
          exact updateLoop_end _ _ _ _ _ _ _ (by simp [ofPairs])
        · rw [List.concat_eq_append] at hC
          have hsumC : ((x :: C).map (fun p => visitWeight ft p.2)).sum =
              ((B ++ S).map (fun p => visitWeight ft p.2)).sum := by
            rw [hC]
            simp only [List.map_cons, List.sum_cons, List.map_append, List.sum_append,
              List.map_nil, List.sum_nil]
            omega
          obtain ⟨s1, hs1⟩ := ih A (x :: C) k1
            (fun y hy => hwfS y (by
              rw [hC]
              rcases List.mem_cons.mp hy with h | h
              · simp [h]
              · simp [h]))
            (fun y hy => hrangeS y (by
              rw [hC]
              rcases List.mem_cons.mp hy with h | h
              · simp [h]
              · simp [h]))
            (by rw [hsumC]; exact hsumBS.1) (by rw [hsumC]; exact hsumBS.2)
          refine ⟨s1, ?_⟩
          rw [updateLoop_succ _ _ _ _ _ _ _ _ _ _ hne (hinner C x hC)]
          exact hs1

/-- A step on a store of one trail star whose timer, lowered by the frame time, is not
positive and is left as it is by `timer += 0.05f`: no amount of fuel lets it return. -/
theorem updateFireworks_stuck (env : Env) (fuel : ℕ) (ft : ℚ) (f : Firework)
    (u : FireworkUpdate) (k : ℕ) (hty : u.type = FireworkType.StarSmallTrail)
    (ht : u.timer - ft ≤ 0) (hfix : rearm (u.timer - ft) = u.timer - ft) :
    UpdateFireworks env fuel ft { Fireworks := [f], FireworkUpdates := [u], randomCalls := k }
      = none := by
  have hvisit : updateParticle env fuel ft f u
      { Fireworks := [f], FireworkUpdates := [u], randomCalls := k } = none := by
    rw [updateParticle_trail env fuel ft (f, u) _ hty,
      trailLoop_stuck env _ fuel _ _ (by simpa using ht) (by simpa using hfix)]
    rfl
  unfold UpdateFireworks
  cases fuel with
  | zero =>
    unfold updateLoop
    rw [if_neg (by simp)]
  | succ n =>
    unfold updateLoop
    rw [if_neg (by simp)]
    unfold updateStep
    simp only [List.getElem?_cons_zero]
    rw [hvisit]

/-- C15, as stated, fails for large frame times.  A trail star with timer `0` stepped with
`frameTime = 2 ^ 21` enters its re-arm loop with the timer at `-2 ^ 21`, where the `float`
sum `timer + 0.05f` rounds back to `-2 ^ 21`: the timer never rises and the loop does not
end, whatever the fuel. -/
theorem step_terminates_counterexample :
    Aligned (storeOf (sampleUpdate FireworkType.StarSmallTrail 2 0)) ∧
      (∀ u ∈ (storeOf (sampleUpdate FireworkType.StarSmallTrail 2 0)).FireworkUpdates,
        IsRocketType u.type → IsStarType u.payloadTypeA) ∧
      rearm ((sampleUpdate FireworkType.StarSmallTrail 2 0).timer - 2097152) =
        (sampleUpdate FireworkType.StarSmallTrail 2 0).timer - 2097152 ∧
      ∀ fuel, UpdateFireworks sampleEnv fuel 2097152
        (storeOf (sampleUpdate FireworkType.StarSmallTrail 2 0)) = none :=
  ⟨by decide, by decide, by decide!,
    fun fuel => updateFireworks_stuck sampleEnv fuel 2097152 sampleFirework
      (sampleUpdate FireworkType.StarSmallTrail 2 0) 0 rfl (by decide!) (by decide!)⟩

/-- C15, amended. Termination of a step: on every aligned store in which every rocket's
`payloadTypeA` is a star type and every trail star has `timer - frameTime >= -500000`, and
for every frame time of at most `500000`, `UpdateFireworks` returns, given the fuel
`terminationFuel`: although particles are appended behind the iterators and visited in the
same pass, the trail loops and the outer loop end after finitely many rounds. -/
theorem step_terminates (env : Env) (fuel : ℕ) (frameTime : ℚ) (s : Scene) (ha : Aligned s)
    (hpay : ∀ u ∈ s.FireworkUpdates, IsRocketType u.type → IsStarType u.payloadTypeA)
    (hft : frameTime ≤ 500000) (hrange : ∀ u ∈ s.FireworkUpdates, RearmInRange frameTime u)
    (hfuel : terminationFuel frameTime s ≤ fuel) :
    ∃ s1, UpdateFireworks env fuel frameTime s = some s1 := by
  obtain ⟨s1, hs1⟩ := updateLoop_terminates env fuel frameTime hft fuel [] (pairs s)
    s.randomCalls (fun p hp hty => hpay p.2 (mem_pairs_snd s p hp) (Or.inl hty))
    (fun p hp => hrange p.2 (mem_pairs_snd s p hp)) hfuel hfuel
  refine ⟨s1, ?_⟩
  unfold UpdateFireworks
  simpa [ofPairs_pairs s ha] using hs1

/-- C15, amended, at the store `rocketStore` with a frame time of one second, in which the
peony and the brocade rocket burst into trail stars that emit in the same pass. -/
theorem step_terminates_witness :
    Aligned rocketStore ∧
      (∀ u ∈ rocketStore.FireworkUpdates, IsRocketType u.type → IsStarType u.payloadTypeA) ∧
      (1 : ℚ) ≤ 500000 ∧ (∀ u ∈ rocketStore.FireworkUpdates, RearmInRange 1 u) ∧
      terminationFuel 1 rocketStore ≤ 66 ∧
      (UpdateFireworks sampleEnv 66 1 rocketStore).map (fun s => s.Fireworks.length)
        = some 4 ∧
      ∃ s1, UpdateFireworks sampleEnv 66 1 rocketStore = some s1 :=
  ⟨by decide, by decide, by decide!, by decide!, by decide!, by decide!,
    step_terminates sampleEnv 66 1 rocketStore (by decide) (by decide) (by decide!)
      (by decide!) (by decide!)⟩

/-! ## Random vectors in a cone -/

theorem emitTrailStar_eq (env : Env) (f : Firework) (u : FireworkUpdate) :
    emitTrailStar env f u = cappedEmit (trailFirework f) (trailUpdate env u) := rfl

theorem emitCometStar_eq (env : Env) (f : Firework) (u : FireworkUpdate) :
    emitCometStar env f u = cappedEmit (trailFirework f) (cometStarUpdate env u) := rfl

/-- A vector plus a jitter drawn from `[-r, r]` lies within `r` of the vector on each
axis. -/
theorem withinJitter_add (env : Env) (r : ℚ) (k : ℕ) (v : CVector3)
    (hrand : RandomInRange env r) : WithinJitter r (v.add (randomJitter env k r)) v := by
  have h0 := hrand k
  have h1 := hrand (k + 1)
  have h2 := hrand (k + 2)
  simp only [WithinJitter, CVector3.add, randomJitter, add_sub_cancel_left]
  exact ⟨h0, h1, h2⟩

/-- In the range of `RearmInRange` and given fuel for `trailRounds` rounds, the trail loop
is a burst of that many rounds of its emission block, and leaves the timer as that many
rounds of `timer += 0.05f` make it. -/
theorem trailLoop_eq_burstLoop (env : Env) (f : Firework) (fuel : ℕ) (u : FireworkUpdate)
    (s : Scene) (hr : -500000 ≤ u.timer) (hfuel : trailRounds u.timer ≤ fuel) :
    trailLoop env f fuel u s =
      some ({ u with timer := timerAfter (trailRounds u.timer) u.timer },
        burstLoop (cappedEmit (trailFirework f) (trailUpdate env u)) (trailRounds u.timer) s) := by
  induction fuel generalizing u s with
  | zero =>
    have ht : 0 < u.timer := by
      by_contra hc
      rw [trailRounds_step _ hr (not_lt.mp hc)] at hfuel
      omega
    unfold trailLoop
    rw [if_neg (not_le.mpr ht), trailRounds_pos _ ht]
    rfl
  | succ n ih =>
    by_cases ht : u.timer ≤ 0
    · have hstep := trailRounds_step _ hr ht
      have hp := rearm_progress _ hr ht
      rw [trailLoop, if_pos ht, ih _ _ (by simp only; linarith) (by simp only; omega), hstep]
      rfl
    · rw [trailLoop, if_neg ht, trailRounds_pos _ (not_le.mp ht)]
      rfl

/-- The visit of a trail star, alive or not, in a store given as a list of pairs: the
particles of the trail loop are appended while there is room. -/
theorem updateParticle_trail_ofPairs (env : Env) (tf : ℕ) (ft : ℚ)
    (p : Firework × FireworkUpdate) (l : List (Firework × FireworkUpdate)) (k : ℕ)
    (hty : p.2.type = FireworkType.StarSmallTrail) (hr : -500000 ≤ p.2.timer - ft)
    (hfuel : trailRounds (p.2.timer - ft) ≤ tf) :
    updateParticle env tf ft p.1 p.2 (ofPairs l k) =
      some ((flightUpdate env ft p).1,
        { (flightUpdate env ft p).2 with
          timer := timerAfter (trailRounds (p.2.timer - ft)) (p.2.timer - ft) },
        ofPairs (l ++ burstSpawns (trailFirework (flightUpdate env ft p).1)
            (trailUpdate env (flightUpdate env ft p).2) (trailRounds (p.2.timer - ft))
            l.length k)
          (k + 3 * trailRounds (p.2.timer - ft))) := by
  rw [updateParticle_trail env tf ft p _ hty,
    trailLoop_eq_burstLoop env _ tf _ _ (by simpa using hr) (by simpa using hfuel)]
  simp only [Option.map_some']
  rw [show trailUpdate env { (flightUpdate env ft p).2 with timer := p.2.timer - ft } =
    trailUpdate env (flightUpdate env ft p).2 from rfl, burstLoop_ofPairs]

/-- The sample `Random` returns the middle of its range, which is inside the range. -/
theorem sampleEnv_randomInRange (r : ℚ) (hr : 0 ≤ r) : RandomInRange sampleEnv r := by
  intro k
  simp only [sampleEnv, neg_add_cancel, zero_div]
  exact ⟨by linarith, hr⟩

theorem flightUpdate_colour (env : Env) (ft : ℚ) (p : Firework × FireworkUpdate) :
    (p.2.type ≠ FireworkType.StarSimple → p.2.type ≠ FireworkType.StarSmallTrail →
      (flightUpdate env ft p).1.colour = p.1.colour ∧
        (flightUpdate env ft p).1.scale = p.1.scale) ∧
    (p.2.type = FireworkType.StarSimple ∨ p.2.type = FireworkType.StarSmallTrail →
      (flightUpdate env ft p).1.colour = { p.1.colour with a := p.1.colour.a - 1 / 2 * ft } ∧
        (flightUpdate env ft p).1.scale = p.1.scale - 1 * ft) := by
  constructor
  · intro h1 h3
    simp [flightUpdate, simpleStarUpdate, moveAndAge, h1, h3]
  · rintro (h | h)
    · simp [flightUpdate, simpleStarUpdate, moveAndAge, fadeAndSlow, h]
    · simp [flightUpdate, simpleStarUpdate, moveAndAge, fadeAndSlow, h]

/-- The two vectors of a store given as the pairs of an aligned store followed by a list of
pairs. -/
theorem ofPairs_append_pairs (s : Scene) (ha : Aligned s) (S : List (Firework × FireworkUpdate))
    (k : ℕ) :
    (ofPairs (pairs s ++ S) k).Fireworks = s.Fireworks ++ S.map Prod.fst ∧
      (ofPairs (pairs s ++ S) k).FireworkUpdates = s.FireworkUpdates ++ S.map Prod.snd := by
  have hs := ofPairs_pairs s ha
  constructor
  · conv_rhs => rw [← hs]
    simp [ofPairs]
  · conv_rhs => rw [← hs]
    simp [ofPairs]

/-! ## The record of a trail emission -/

/-- A trail loop that returns has run a number of rounds of its emission block: the least
number of additions `timer += 0.05f` that leave the timer positive. -/
theorem trailLoop_rounds (env : Env) (f : Firework) (fuel : ℕ) (u u1 : FireworkUpdate)
    (s s1 : Scene) (h : trailLoop env f fuel u s = some (u1, s1)) :
    ∃ n, n ≤ fuel ∧ u1.timer = timerAfter n u.timer ∧
      s1 = burstLoop (cappedEmit (trailFirework f) (trailUpdate env u)) n s ∧
      0 < timerAfter n u.timer ∧ ∀ j, j < n → timerAfter j u.timer ≤ 0 := by
  induction fuel generalizing u s with
  | zero =>
    unfold trailLoop at h
    split at h
    · exact absurd h (by simp)
    · rename_i ht
      simp only [Option.some.injEq, Prod.mk.injEq] at h
      obtain ⟨rfl, rfl⟩ := h
      exact ⟨0, le_rfl, rfl, rfl, not_le.mp ht, fun j hj => absurd hj (by omega)⟩
  | succ m ih =>
    unfold trailLoop at h
    split at h
    · rename_i ht
      obtain ⟨n, hn, ht1, hs, hpos, hleast⟩ := ih _ _ h
      refine ⟨n + 1, by omega, ht1, hs, hpos, fun j hj => ?_⟩
      cases j with
      | zero => exact ht
      | succ j => exact hleast j (by omega)
    · rename_i ht
      simp only [Option.some.injEq, Prod.mk.injEq] at h
      obtain ⟨rfl, rfl⟩ := h
      exact ⟨0, by omega, rfl, rfl, not_le.mp ht, fun j hj => absurd hj (by omega)⟩

/-- A visit of a trail star that returns, alive or not, in a store given as a list of
pairs: the particles of the rounds its trail loop ran are appended while there is room. -/
theorem updateParticle_trail_some (env : Env) (tf : ℕ) (ft : ℚ)
    (p : Firework × FireworkUpdate) (l : List (Firework × FireworkUpdate)) (k : ℕ)
    (r : Firework × FireworkUpdate × Scene)
    (hty : p.2.type = FireworkType.StarSmallTrail)
    (h : updateParticle env tf ft p.1 p.2 (ofPairs l k) = some r) :
    ∃ n, n ≤ tf ∧ r.1 = (flightUpdate env ft p).1 ∧
      r.2.1 = { (flightUpdate env ft p).2 with timer := timerAfter n (p.2.timer - ft) } ∧
      r.2.2 = ofPairs (l ++ burstSpawns (trailFirework (flightUpdate env ft p).1)
        (trailUpdate env (flightUpdate env ft p).2) n l.length k) (k + 3 * n) ∧
      0 < timerAfter n (p.2.timer - ft) ∧ ∀ j, j < n → timerAfter j (p.2.timer - ft) ≤ 0 := by
  rw [updateParticle_trail env tf ft p _ hty] at h
  cases hl : trailLoop env (flightUpdate env ft p).1 tf
      { (flightUpdate env ft p).2 with timer := p.2.timer - ft } (ofPairs l k) with
  | none =>
    rw [hl] at h
    exact absurd h (by simp)
  | some us =>
    obtain ⟨u1, s1⟩ := us
    rw [hl] at h
    simp only [Option.map_some', Option.some.injEq] at h
    subst h
    obtain ⟨n, hn, ht, hs, hpos, hleast⟩ := trailLoop_rounds _ _ _ _ _ _ _ hl
    obtain ⟨-, hu1, -⟩ := trailLoop_some _ _ _ _ _ _ _ hl
    refine ⟨n, hn, rfl, ?_, ?_, hpos, hleast⟩
    · simp only
      rw [hu1, ht]
    · simp only
      rw [hs, show trailUpdate env { (flightUpdate env ft p).2 with timer := p.2.timer - ft } =
        trailUpdate env (flightUpdate env ft p).2 from rfl, burstLoop_ofPairs]

/-- C22. Trail emission record: whenever the visit of a trail star in an aligned store
returns, with a `Random` that stays within `[-5, 5]`, every particle it has appended has
type `StarSimple`, life `0.4`, scale `0.75`, rotation `0`, the position of the trail star
after this visit's movement (`position + velocity * frameTime`), the colour of the trail
star after this visit's alpha fade (`a - 0.5 * frameTime`), and a velocity that differs on
each axis by at most `5` from half the velocity `v` of the trail star after this visit's
gravity and damping (`v = (velocity + (0, Gravity * frameTime, 0)) * powf(0.5,
frameTime)`).  And the visit does return, given fuel for the rounds of the loop, when the
timer is in the range of `RearmInRange` (`timer - frameTime >= -500000`, where the re-arm
loop ends); it then appends one particle per round while there is room (`min(k, free
slots)` particles for `k` rounds). -/
theorem trail_emission_record (env : Env) (tf : ℕ) (frameTime : ℚ)
    (p : Firework × FireworkUpdate) (s : Scene) (ha : Aligned s)
    (hty : p.2.type = FireworkType.StarSmallTrail) (hrand : RandomInRange env 5) :
    (flightUpdate env frameTime p).1.position =
      p.1.position.addAssign (p.2.velocity.mul frameTime) ∧
    (flightUpdate env frameTime p).1.colour =
      { p.1.colour with a := p.1.colour.a - 1 / 2 * frameTime } ∧
    (flightUpdate env frameTime p).2.velocity =
      CVector3.mulAssign { p.2.velocity with y := p.2.velocity.y + Gravity * frameTime }
        (env.powf (1 / 2) frameTime) ∧
    (∀ r, updateParticle env tf frameTime p.1 p.2 s = some r →
      ∃ S : List (Firework × FireworkUpdate),
        r.1 = (flightUpdate env frameTime p).1 ∧
        r.2.2.Fireworks = s.Fireworks ++ S.map Prod.fst ∧
        r.2.2.FireworkUpdates = s.FireworkUpdates ++ S.map Prod.snd ∧
        ∀ x ∈ S, x.2.type = FireworkType.StarSimple ∧ x.2.life = 2 / 5 ∧ x.1.scale = 3 / 4 ∧
          x.1.rotation = 0 ∧ x.1.position = (flightUpdate env frameTime p).1.position ∧
          x.1.colour = (flightUpdate env frameTime p).1.colour ∧
          WithinJitter 5 x.2.velocity
            ((flightUpdate env frameTime p).2.velocity.mul (1 / 2))) ∧
    (-500000 ≤ p.2.timer - frameTime → trailRounds (p.2.timer - frameTime) ≤ tf →
      ∃ (u1 : FireworkUpdate) (s1 : Scene) (S : List (Firework × FireworkUpdate)),
        updateParticle env tf frameTime p.1 p.2 s =
          some ((flightUpdate env frameTime p).1, u1, s1) ∧
        s1.Fireworks = s.Fireworks ++ S.map Prod.fst ∧
        s1.FireworkUpdates = s.FireworkUpdates ++ S.map Prod.snd ∧
        S.length =
          min (trailRounds (p.2.timer - frameTime)) (MaxFireworks - s.Fireworks.length) ∧
        ∀ x ∈ S, x.2.type = FireworkType.StarSimple ∧ x.2.life = 2 / 5 ∧ x.1.scale = 3 / 4 ∧
          x.1.rotation = 0 ∧ x.1.position = (flightUpdate env frameTime p).1.position ∧
          x.1.colour = (flightUpdate env frameTime p).1.colour ∧
          WithinJitter 5 x.2.velocity
            ((flightUpdate env frameTime p).2.velocity.mul (1 / 2))) := by
  refine ⟨flightUpdate_position env frameTime p,
    ((flightUpdate_colour env frameTime p).2 (Or.inr hty)).1,
    (flightUpdate_velocity env frameTime p).2 (Or.inr hty), fun r hr => ?_,
    fun hrange hfuel => ?_⟩
  · rw [← ofPairs_pairs s ha] at hr
    obtain ⟨n, -, h1, -, h3, -, -⟩ :=
      updateParticle_trail_some env tf frameTime p (pairs s) s.randomCalls r hty hr
    obtain ⟨hF, hU⟩ := ofPairs_append_pairs s ha
      (burstSpawns (trailFirework (flightUpdate env frameTime p).1)
        (trailUpdate env (flightUpdate env frameTime p).2) n (pairs s).length s.randomCalls)
      (s.randomCalls + 3 * n)
    refine ⟨_, h1, by rw [h3]; exact hF, by rw [h3]; exact hU, fun x hx => ?_⟩
    obtain ⟨i, rfl⟩ := mem_burstSpawns _ _ _ _ _ _ hx
    exact ⟨rfl, rfl, rfl, rfl, rfl, rfl, withinJitter_add env 5 _ _ hrand⟩
  · have hrun := updateParticle_trail_ofPairs env tf frameTime p (pairs s) s.randomCalls hty
      hrange hfuel
    rw [ofPairs_pairs s ha] at hrun
    obtain ⟨hF, hU⟩ := ofPairs_append_pairs s ha
      (burstSpawns (trailFirework (flightUpdate env frameTime p).1)
        (trailUpdate env (flightUpdate env frameTime p).2)
        (trailRounds (p.2.timer - frameTime)) (pairs s).length s.randomCalls)
      (s.randomCalls + 3 * trailRounds (p.2.timer - frameTime))
    refine ⟨_, _, _, hrun, hF, hU, ?_, fun x hx => ?_⟩
    · rw [length_burstSpawns, length_pairs s ha]
    · obtain ⟨i, rfl⟩ := mem_burstSpawns _ _ _ _ _ _ hx
      exact ⟨rfl, rfl, rfl, rfl, rfl, rfl, withinJitter_add env 5 _ _ hrand⟩

/-- C22 at the trail star of the store `oneTrail` (timer `0.12f`) visited with frame time
`0.2f`: two rounds, two particles. -/
theorem trail_emission_record_witness :
    Aligned oneTrail ∧
      (sampleUpdate FireworkType.StarSmallTrail 2 (roundFloat32 (3 / 25))).type =
        FireworkType.StarSmallTrail ∧
      RandomInRange sampleEnv 5 ∧
      -500000 ≤ (sampleUpdate FireworkType.StarSmallTrail 2 (roundFloat32 (3 / 25))).timer -
        roundFloat32 (1 / 5) ∧
      trailRounds ((sampleUpdate FireworkType.StarSmallTrail 2 (roundFloat32 (3 / 25))).timer -
        roundFloat32 (1 / 5)) ≤ 2 ∧
      ∃ (u1 : FireworkUpdate) (s1 : Scene) (S : List (Firework × FireworkUpdate)),
        updateParticle sampleEnv 2 (roundFloat32 (1 / 5)) sampleFirework
            (sampleUpdate FireworkType.StarSmallTrail 2 (roundFloat32 (3 / 25))) oneTrail =
          some ((flightUpdate sampleEnv (roundFloat32 (1 / 5))
            (sampleFirework,
              sampleUpdate FireworkType.StarSmallTrail 2 (roundFloat32 (3 / 25)))).1, u1, s1) ∧
        s1.Fireworks = oneTrail.Fireworks ++ S.map Prod.fst ∧
        s1.FireworkUpdates = oneTrail.FireworkUpdates ++ S.map Prod.snd ∧
        S.length =
          min (trailRounds ((sampleUpdate FireworkType.StarSmallTrail 2
              (roundFloat32 (3 / 25))).timer - roundFloat32 (1 / 5)))
            (MaxFireworks - oneTrail.Fireworks.length) ∧
        ∀ x ∈ S, x.2.type = FireworkType.StarSimple ∧ x.2.life = 2 / 5 ∧ x.1.scale = 3 / 4 ∧
          x.1.rotation = 0 ∧
          x.1.position = (flightUpdate sampleEnv (roundFloat32 (1 / 5))
            (sampleFirework,
              sampleUpdate FireworkType.StarSmallTrail 2 (roundFloat32 (3 / 25)))).1.position ∧
          x.1.colour = (flightUpdate sampleEnv (roundFloat32 (1 / 5))
            (sampleFirework,
              sampleUpdate FireworkType.StarSmallTrail 2 (roundFloat32 (3 / 25)))).1.colour ∧
          WithinJitter 5 x.2.velocity ((flightUpdate sampleEnv (roundFloat32 (1 / 5))
            (sampleFirework,
              sampleUpdate FireworkType.StarSmallTrail 2
                (roundFloat32 (3 / 25)))).2.velocity.mul (1 / 2)) :=
  ⟨by decide, rfl, sampleEnv_randomInRange 5 (by norm_num), by decide!, by decide!,
    (trail_emission_record sampleEnv 2 (roundFloat32 (1 / 5))
      (sampleFirework, sampleUpdate FireworkType.StarSmallTrail 2 (roundFloat32 (3 / 25)))
      oneTrail (by decide) rfl (sampleEnv_randomInRange 5 (by norm_num))).2.2.2.2
      (by decide!) (by decide!)⟩

/-! ## The record of a peony burst -/

/-- C23. Peony burst record: the visit of a peony rocket that expires (`life <=
frameTime`), with a `Random` that stays within `[-50, 50]`, appends to an aligned store one
particle per unit of `payloadIntA` while there is room, and every particle it appends has
the position of the rocket after this visit's movement (`position + velocity *
frameTime`), the colour `payloadColourA` and the type `payloadTypeA` of the rocket, scale
`1.5`, rotation `0`, life `1.4`, timer `0`, and a velocity that differs on each axis by at
most `50` from the velocity of the rocket after this visit's gravity; the visit of a peony
rocket whose life after the decrement is still positive appends nothing. -/
theorem peony_burst_record (env : Env) (tf : ℕ) (frameTime : ℚ)
    (p : Firework × FireworkUpdate) (s : Scene) (ha : Aligned s)
    (hty : p.2.type = FireworkType.PeonyRocket) (hrand : RandomInRange env 50) :
    (p.2.life ≤ frameTime →
      ∃ (s1 : Scene) (S : List (Firework × FireworkUpdate)),
        updateParticle env tf frameTime p.1 p.2 s =
          some ((moveAndAge frameTime p.1 p.2).1, (moveAndAge frameTime p.1 p.2).2, s1) ∧
        s1.Fireworks = s.Fireworks ++ S.map Prod.fst ∧
        s1.FireworkUpdates = s.FireworkUpdates ++ S.map Prod.snd ∧
        S.length = min p.2.payloadIntA.toNat (MaxFireworks - s.Fireworks.length) ∧
        ∀ x ∈ S,
          x.1.position = p.1.position.addAssign (p.2.velocity.mul frameTime) ∧
          x.1.colour = p.2.payloadColourA ∧ x.2.type = p.2.payloadTypeA ∧
          x.1.scale = 3 / 2 ∧ x.1.rotation = 0 ∧ x.2.life = 7 / 5 ∧ x.2.timer = 0 ∧
          WithinJitter 50 x.2.velocity
            { p.2.velocity with y := p.2.velocity.y + Gravity * frameTime }) ∧
    (0 < p.2.life - frameTime →
      updateParticle env tf frameTime p.1 p.2 s =
        some ((moveAndAge frameTime p.1 p.2).1, (moveAndAge frameTime p.1 p.2).2, s)) := by
  refine ⟨fun hlife => ?_, fun hlife => ?_⟩
  · have hrun := updateParticle_peony_dead env tf frameTime p (pairs s) s.randomCalls hty hlife
    rw [ofPairs_pairs s ha] at hrun
    obtain ⟨hF, hU⟩ := ofPairs_append_pairs s ha
      (burstSpawns (burstFirework (moveAndAge frameTime p.1 p.2).1
        (moveAndAge frameTime p.1 p.2).2) (peonyUpdate env (moveAndAge frameTime p.1 p.2).2)
        p.2.payloadIntA.toNat (pairs s).length s.randomCalls)
      (s.randomCalls + 3 * p.2.payloadIntA.toNat)
    refine ⟨_, _, hrun, hF, hU, ?_, fun x hx => ?_⟩
    · rw [length_burstSpawns, length_pairs s ha]
    · obtain ⟨i, rfl⟩ := mem_burstSpawns _ _ _ _ _ _ hx
      exact ⟨rfl, rfl, rfl, rfl, rfl, rfl, rfl, withinJitter_add env 50 _ _ hrand⟩
  · rw [updateParticle_rocket env tf frameTime p s (by rw [hty]; decide) (by rw [hty]; decide)
      (by rw [hty]; decide),
      burstWhenDead_alive _ _ _ _ (by rw [(moveAndAge_snd frameTime p.1 p.2).1]; exact hlife)]

/-- C23 at a peony rocket that expires with two simple stars as payload. -/
theorem peony_burst_record_witness :
    Aligned (storeOf deadPeony) ∧ deadPeony.type = FireworkType.PeonyRocket ∧
      RandomInRange sampleEnv 50 ∧ deadPeony.life ≤ 0 ∧
      ∃ (s1 : Scene) (S : List (Firework × FireworkUpdate)),
        updateParticle sampleEnv 0 0 sampleFirework deadPeony (storeOf deadPeony) =
          some ((moveAndAge 0 sampleFirework deadPeony).1,
            (moveAndAge 0 sampleFirework deadPeony).2, s1) ∧
        s1.Fireworks = (storeOf deadPeony).Fireworks ++ S.map Prod.fst ∧
        s1.FireworkUpdates = (storeOf deadPeony).FireworkUpdates ++ S.map Prod.snd ∧
        S.length =
          min deadPeony.payloadIntA.toNat (MaxFireworks - (storeOf deadPeony).Fireworks.length) ∧
        ∀ x ∈ S,
          x.1.position = sampleFirework.position.addAssign (deadPeony.velocity.mul 0) ∧
          x.1.colour = deadPeony.payloadColourA ∧ x.2.type = deadPeony.payloadTypeA ∧
          x.1.scale = 3 / 2 ∧ x.1.rotation = 0 ∧ x.2.life = 7 / 5 ∧ x.2.timer = 0 ∧
          WithinJitter 50 x.2.velocity
            { deadPeony.velocity with y := deadPeony.velocity.y + Gravity * 0 } :=
  ⟨by decide, rfl, sampleEnv_randomInRange 50 (by norm_num), by decide!,
    (peony_burst_record sampleEnv 0 0 (sampleFirework, deadPeony) (storeOf deadPeony)
      (by decide) rfl (sampleEnv_randomInRange 50 (by norm_num))).1 (by decide!)⟩

/-! ## The star a comet emits in flight -/

/-- C24. Comet in-flight emission: the visit of a comet rocket, whatever the frame time,
its timer and its life, and with a `Random` that stays within `[-5, 5]`, moves and ages
the comet, leaves its scale, colour and rotation as they were, and makes exactly one
emission: three random draws and one call of `AddFirework`.  A full store is left as it is;
to a store with a free slot exactly one particle is appended, of type `StarSimple`, with
life `0.4`, scale `0.75`, rotation `0`, the position of the comet after this visit's
movement, the colour of the comet, and a velocity that differs on each axis by at most `5`
from half the velocity of the comet after this visit's gravity. -/
theorem comet_inflight_emission (env : Env) (tf : ℕ) (frameTime : ℚ)
    (p : Firework × FireworkUpdate) (s : Scene)
    (hty : p.2.type = FireworkType.CometRocket) (hrand : RandomInRange env 5) :
    ∃ s1 : Scene,
      updateParticle env tf frameTime p.1 p.2 s =
        some ((moveAndAge frameTime p.1 p.2).1, (moveAndAge frameTime p.1 p.2).2, s1) ∧
      s1.randomCalls = s.randomCalls + 3 ∧
      (MaxFireworks ≤ s.Fireworks.length →
        s1.Fireworks = s.Fireworks ∧ s1.FireworkUpdates = s.FireworkUpdates) ∧
      (s.Fireworks.length < MaxFireworks →
        ∃ x : Firework × FireworkUpdate,
          s1.Fireworks = s.Fireworks ++ [x.1] ∧ s1.FireworkUpdates = s.FireworkUpdates ++ [x.2] ∧
          x.2.type = FireworkType.StarSimple ∧ x.2.life = 2 / 5 ∧ x.1.scale = 3 / 4 ∧
          x.1.rotation = 0 ∧
          x.1.position = p.1.position.addAssign (p.2.velocity.mul frameTime) ∧
          x.1.colour = p.1.colour ∧
          WithinJitter 5 x.2.velocity
            (CVector3.mul { p.2.velocity with y := p.2.velocity.y + Gravity * frameTime }
              (1 / 2))) ∧
      (moveAndAge frameTime p.1 p.2).1.scale = p.1.scale ∧
      (moveAndAge frameTime p.1 p.2).1.colour = p.1.colour ∧
      (moveAndAge frameTime p.1 p.2).1.rotation = p.1.rotation := by
  refine ⟨_, updateParticle_comet env tf frameTime p s hty, ?_, fun hfull => ?_,
    fun hroom => ?_, rfl, rfl, rfl⟩
  · rw [emitCometStar_eq]
    unfold cappedEmit AddFirework
    simp only
    split <;> rfl
  · rw [emitCometStar_eq]
    unfold cappedEmit
    rw [addFirework_full _ _ ⟨s.Fireworks, s.FireworkUpdates, s.randomCalls + 3⟩ hfull]
    exact ⟨rfl, rfl⟩
  · rw [emitCometStar_eq]
    unfold cappedEmit
    rw [addFirework_room _ _ ⟨s.Fireworks, s.FireworkUpdates, s.randomCalls + 3⟩ hroom]
    exact ⟨(trailFirework (moveAndAge frameTime p.1 p.2).1,
      cometStarUpdate env (moveAndAge frameTime p.1 p.2).2 s.randomCalls), rfl, rfl, rfl, rfl,
      rfl, rfl, rfl, rfl, withinJitter_add env 5 _ _ hrand⟩

/-- C24 at the comet of the store `oneComet`, visited with frame time zero. -/
theorem comet_inflight_emission_witness :
    (sampleUpdate FireworkType.CometRocket 2 0).type = FireworkType.CometRocket ∧
      RandomInRange sampleEnv 5 ∧ oneComet.Fireworks.length < MaxFireworks ∧
      ∃ s1 : Scene,
        updateParticle sampleEnv 0 0 sampleFirework (sampleUpdate FireworkType.CometRocket 2 0)
            oneComet =
          some ((moveAndAge 0 sampleFirework (sampleUpdate FireworkType.CometRocket 2 0)).1,
            (moveAndAge 0 sampleFirework (sampleUpdate FireworkType.CometRocket 2 0)).2, s1) ∧
        s1.randomCalls = oneComet.randomCalls + 3 ∧
        s1.Fireworks.length = 2 ∧ s1.FireworkUpdates.length = 2 :=
  ⟨rfl, sampleEnv_randomInRange 5 (by norm_num), by decide,
    (comet_inflight_emission sampleEnv 0 0
      (sampleFirework, sampleUpdate FireworkType.CometRocket 2 0) oneComet rfl
      (sampleEnv_randomInRange 5 (by norm_num))).imp fun s1 h =>
        ⟨h.1, h.2.1, by
          obtain ⟨x, hF, hU, -⟩ := h.2.2.2.1 (by decide)
          rw [hF, hU]
          exact ⟨rfl, rfl⟩⟩⟩

/-! ## Two steps against one -/

/-- Rounding a value below `16` in magnitude moves it by at most `2 ^ -21`. -/
theorem roundFloat32_near (x : ℚ) (hx : |x| < 16) : |roundFloat32 x - x| ≤ 1 / 2097152 := by
  have h := roundFloat32_error x 3 (by norm_num) (by norm_num; exact hx)
  norm_num at h
  linarith

/-- Rounding a value below `2048` in magnitude moves it by at most `2 ^ -14`. -/
theorem roundFloat32_near_large (x : ℚ) (hx : |x| < 2048) :
    |roundFloat32 x - x| ≤ 1 / 16384 := by
  have h := roundFloat32_error x 10 (by norm_num) (by norm_num; exact hx)
  norm_num at h
  linarith

theorem subFloat32_near (a b : ℚ) (ha : |a| ≤ 11) (hb : |b| ≤ 9 / 2) :
    |subFloat32 a b - (a - b)| ≤ 3 / 2097152 := by
  have h1 := roundFloat32_near a (by linarith)
  have h2 := roundFloat32_near b (by linarith)
  rw [abs_le] at ha hb h1 h2
  have h3 := roundFloat32_near (roundFloat32 a - roundFloat32 b)
    (by rw [abs_lt]; constructor <;> linarith [ha.1, ha.2, hb.1, hb.2, h1.1, h1.2, h2.1, h2.2])
  rw [abs_le] at h3 ⊢
  unfold subFloat32
  constructor <;> linarith [h1.1, h1.2, h2.1, h2.2, h3.1, h3.2]

theorem addFloat32_near (a b : ℚ) (ha : |a| ≤ 11) (hb : |b| ≤ 9 / 2) :
    |addFloat32 a b - (a + b)| ≤ 3 / 2097152 := by
  have h1 := roundFloat32_near a (by linarith)
  have h2 := roundFloat32_near b (by linarith)
  rw [abs_le] at ha hb h1 h2
  have h3 := roundFloat32_near (roundFloat32 a + roundFloat32 b)
    (by rw [abs_lt]; constructor <;> linarith [ha.1, ha.2, hb.1, hb.2, h1.1, h1.2, h2.1, h2.2])
  rw [abs_le] at h3 ⊢
  unfold addFloat32
  constructor <;> linarith [h1.1, h1.2, h2.1, h2.2, h3.1, h3.2]

theorem mulFloat32_half_near (t : ℚ) (ht : |t| ≤ 9 / 2) :
    |mulFloat32 (1 / 2) t - 1 / 2 * t| ≤ 3 / 4194304 := by
  have h0 : roundFloat32 (1 / 2) = 1 / 2 := by decide!
  have h1 := roundFloat32_near t (by linarith)
  rw [abs_le] at ht h1
  have h3 := roundFloat32_near (1 / 2 * roundFloat32 t)
    (by rw [abs_lt]; constructor <;> linarith [ht.1, ht.2, h1.1, h1.2])
  rw [abs_le] at h3 ⊢
  unfold mulFloat32
  rw [h0]
  constructor <;> linarith [h1.1, h1.2, h3.1, h3.2]

theorem mulFloat32_one_near (t : ℚ) (ht : |t| ≤ 9 / 2) :
    |mulFloat32 1 t - 1 * t| ≤ 2 / 2097152 := by
  have h0 : roundFloat32 1 = 1 := by decide!
  have h1 := roundFloat32_near t (by linarith)
  rw [abs_le] at ht h1
  have h3 := roundFloat32_near (1 * roundFloat32 t)
    (by rw [abs_lt]; constructor <;> linarith [ht.1, ht.2, h1.1, h1.2])
  rw [abs_le] at h3 ⊢
  unfold mulFloat32
  rw [h0]
  constructor <;> linarith [h1.1, h1.2, h3.1, h3.2]

/-- The product of a `float` below `1025` in magnitude with a `float` factor in `[0, 1]`
is rounded by at most `2 ^ -14`. -/
theorem mulFloat32_near (v p : ℚ) (hv : |v| ≤ 1025) (hp0 : 0 ≤ p) (hp1 : p ≤ 1)
    (hpf : roundFloat32 p = p) :
    |mulFloat32 v p - v * p| ≤ |roundFloat32 v - v| + 1 / 16384 ∧
      |mulFloat32 v p| ≤ |v| + |roundFloat32 v - v| + 1 / 16384 := by
  have h1 := roundFloat32_near_large v (by linarith)
  have hvp : |roundFloat32 v * p - v * p| ≤ |roundFloat32 v - v| := by
    rw [← sub_mul, abs_mul, abs_of_nonneg hp0]
    exact mul_le_of_le_one_right (abs_nonneg _) hp1
  have hvp2 : |v * p| ≤ |v| := by
    rw [abs_mul, abs_of_nonneg hp0]
    exact mul_le_of_le_one_right (abs_nonneg _) hp1
  have hprod : |roundFloat32 v * p| < 2048 := by
    have := abs_sub_abs_le_abs_sub (roundFloat32 v * p) (v * p)
    linarith
  have h3 := roundFloat32_near_large (roundFloat32 v * p) hprod
  unfold mulFloat32
  rw [hpf]
  constructor
  · have := abs_sub_le (roundFloat32 (roundFloat32 v * p)) (roundFloat32 v * p) (v * p)
    linarith
  · have h4 := abs_sub_abs_le_abs_sub (roundFloat32 (roundFloat32 v * p)) (roundFloat32 v * p)
    have h5 := abs_sub_abs_le_abs_sub (roundFloat32 v * p) (v * p)
    linarith

theorem velocity_two_steps (v p1 p2 p12 e : ℚ) (hv : |v| ≤ 1024) (hvf : roundFloat32 v = v)
    (h1 : 0 ≤ p1 ∧ p1 ≤ 1 ∧ roundFloat32 p1 = p1) (h2 : 0 ≤ p2 ∧ p2 ≤ 1 ∧ roundFloat32 p2 = p2)
    (h12 : 0 ≤ p12 ∧ p12 ≤ 1 ∧ roundFloat32 p12 = p12) (he : |p1 * p2 - p12| ≤ e) :
    |mulFloat32 (mulFloat32 v p1) p2 - mulFloat32 v p12| ≤ |v| * e + 1 / 4096 := by
  obtain ⟨a1, a2⟩ := mulFloat32_near v p1 (by linarith) h1.1 h1.2.1 h1.2.2
  rw [hvf, sub_self, abs_zero] at a1 a2
  have hw : |mulFloat32 v p1| ≤ 1025 := by linarith
  have hwr := roundFloat32_near_large (mulFloat32 v p1) (by linarith)
  obtain ⟨b0, -⟩ := mulFloat32_near (mulFloat32 v p1) p2 hw h2.1 h2.2.1 h2.2.2
  have b1 : |mulFloat32 (mulFloat32 v p1) p2 - mulFloat32 v p1 * p2| ≤ 2 / 16384 := by linarith
  obtain ⟨c1, -⟩ := mulFloat32_near v p12 (by linarith) h12.1 h12.2.1 h12.2.2
  rw [hvf, sub_self, abs_zero] at c1
  have hmid : |mulFloat32 v p1 * p2 - v * p1 * p2| ≤ 1 / 16384 := by
    rw [← sub_mul, abs_mul, abs_of_nonneg h2.1]
    exact le_trans (mul_le_of_le_one_right (abs_nonneg _) h2.2.1) (by linarith)
  have hexact : |v * p1 * p2 - v * p12| ≤ |v| * e := by
    rw [mul_assoc, ← mul_sub, abs_mul]
    exact mul_le_mul_of_nonneg_left he (abs_nonneg _)
  rw [abs_le] at a1 b1 c1 hmid hexact ⊢
  constructor <;> linarith [a1.1, a1.2, b1.1, b1.2, c1.1, c1.2, hmid.1, hmid.2, hexact.1,
    hexact.2]

/-- One visit in `float` against the exact update of `simpleStarTick`: life, alpha and scale
are within `2 ^ -18` of `life - frameTime`, `alpha - 0.5 * frameTime` and
`scale - 1.0 * frameTime`. -/
theorem starDecay32_near (env : Env) (ft : ℚ) (d : StarDecay) (hft : |ft| ≤ 9 / 2)
    (hl : |d.life| ≤ 11) (ha : |d.alpha| ≤ 11) (hs : |d.scale| ≤ 11) :
    |(starDecay32 env ft d).life - (d.life - ft)| ≤ 1 / 262144 ∧
      |(starDecay32 env ft d).alpha - (d.alpha - 1 / 2 * ft)| ≤ 1 / 262144 ∧
      |(starDecay32 env ft d).scale - (d.scale - 1 * ft)| ≤ 1 / 262144 := by
  have m1 := mulFloat32_half_near ft hft
  have m2 := mulFloat32_one_near ft hft
  have b1 : |mulFloat32 (1 / 2) ft| ≤ 9 / 2 := by
    rw [abs_le] at m1 hft ⊢
    constructor <;> linarith [m1.1, m1.2, hft.1, hft.2]
  have b2 : |mulFloat32 1 ft| ≤ 9 / 2 + 1 / 1048576 := by
    rw [abs_le] at m2 hft ⊢
    constructor <;> linarith [m2.1, m2.2, hft.1, hft.2]
  have s1 := subFloat32_near d.life ft hl hft
  have s2 := subFloat32_near d.alpha (mulFloat32 (1 / 2) ft) ha b1
  have r1 := roundFloat32_near d.scale (by linarith)
  have r2 := roundFloat32_near (mulFloat32 1 ft) (by linarith)
  rw [abs_le] at hs b2 r1 r2
  have r3 := roundFloat32_near (roundFloat32 d.scale - roundFloat32 (mulFloat32 1 ft))
    (by rw [abs_lt]; constructor <;> linarith [hs.1, hs.2, b2.1, b2.2, r1.1, r1.2, r2.1, r2.2])
  refine ⟨?_, ?_, ?_⟩
  · exact le_trans s1 (by norm_num)
  · rw [abs_le] at s2 m1 ⊢
    show _ ≤ subFloat32 d.alpha (mulFloat32 (1 / 2) ft) - _ ∧
      subFloat32 d.alpha (mulFloat32 (1 / 2) ft) - _ ≤ _
    constructor <;> linarith [s2.1, s2.2, m1.1, m1.2]
  · rw [abs_le] at r3 m2 ⊢
    show _ ≤ roundFloat32 (roundFloat32 d.scale - roundFloat32 (mulFloat32 1 ft)) - _ ∧
      roundFloat32 (roundFloat32 d.scale - roundFloat32 (mulFloat32 1 ft)) - _ ≤ _
    constructor <;> linarith [r1.1, r1.2, r2.1, r2.2, r3.1, r3.2, m2.1, m2.2]

/-- C21, as stated, fails in `float` arithmetic.  The simple star `freshStar` (life `3`)
stepped twice with the frame time `0.1f` ends with life `2936013 / 1048576`
(`2.8000002`); stepped once with the `float` sum `0.1f + 0.1f = 0.2f` it ends with life
`11744051 / 4194304` (`2.7999999`).  It outlives both steps, and the two lives differ. -/
theorem star_decay_frame_rate_independent_counterexample :
    (0 : ℚ) ≤ roundFloat32 (1 / 10) ∧
      addFloat32 (roundFloat32 (1 / 10)) (roundFloat32 (1 / 10)) = roundFloat32 (1 / 5) ∧
      (starDecay32 floatEnv (roundFloat32 (1 / 10))
        (starDecay32 floatEnv (roundFloat32 (1 / 10)) freshStar)).life = 2936013 / 1048576 ∧
      (starDecay32 floatEnv (addFloat32 (roundFloat32 (1 / 10)) (roundFloat32 (1 / 10)))
        freshStar).life = 11744051 / 4194304 ∧
      (starDecay32 floatEnv (roundFloat32 (1 / 10))
        (starDecay32 floatEnv (roundFloat32 (1 / 10)) freshStar)).life ≠
      (starDecay32 floatEnv (addFloat32 (roundFloat32 (1 / 10)) (roundFloat32 (1 / 10)))
        freshStar).life := by
  decide!

/-- C21, amended. Frame-rate independence of star decay holds up to rounding.  For the
decaying fields of a simple star with life, alpha and scale at most `8` in magnitude and
`float` velocity components at most `1024` in magnitude, and frame times `t1, t2` in
`[0, 2]`, whether or not the star outlives the steps: the update by `t1` followed by the
update by `t2`, against the single update by the `float` sum of `t1` and `t2`, gives a life,
an alpha and a scale that differ by at most `2 ^ -16`, and horizontal velocity components
that differ by at most `|v| * e + 2 ^ -12`, where `e` bounds the distance of
`powf(0.5, t1) * powf(0.5, t2)` from `powf(0.5, t1 + t2)` and the three values of `powf`
are `float` values in `[0, 1]`. -/
theorem star_decay_frame_rate_independent (env : Env) (t1 t2 e : ℚ) (d : StarDecay)
    (h1 : 0 ≤ t1 ∧ t1 ≤ 2) (h2 : 0 ≤ t2 ∧ t2 ≤ 2)
    (hl : |d.life| ≤ 8) (ha : |d.alpha| ≤ 8) (hs : |d.scale| ≤ 8)
    (hx : |d.vx| ≤ 1024 ∧ roundFloat32 d.vx = d.vx)
    (hz : |d.vz| ≤ 1024 ∧ roundFloat32 d.vz = d.vz)
    (hp1 : 0 ≤ env.powf (1 / 2) t1 ∧ env.powf (1 / 2) t1 ≤ 1 ∧
      roundFloat32 (env.powf (1 / 2) t1) = env.powf (1 / 2) t1)
    (hp2 : 0 ≤ env.powf (1 / 2) t2 ∧ env.powf (1 / 2) t2 ≤ 1 ∧
      roundFloat32 (env.powf (1 / 2) t2) = env.powf (1 / 2) t2)
    (hp12 : 0 ≤ env.powf (1 / 2) (addFloat32 t1 t2) ∧ env.powf (1 / 2) (addFloat32 t1 t2) ≤ 1 ∧
      roundFloat32 (env.powf (1 / 2) (addFloat32 t1 t2)) = env.powf (1 / 2) (addFloat32 t1 t2))
    (hpow : |env.powf (1 / 2) t1 * env.powf (1 / 2) t2 - env.powf (1 / 2) (addFloat32 t1 t2)|
      ≤ e) :
    |(starDecay32 env t2 (starDecay32 env t1 d)).life -
        (starDecay32 env (addFloat32 t1 t2) d).life| ≤ 1 / 65536 ∧
      |(starDecay32 env t2 (starDecay32 env t1 d)).alpha -
        (starDecay32 env (addFloat32 t1 t2) d).alpha| ≤ 1 / 65536 ∧
      |(starDecay32 env t2 (starDecay32 env t1 d)).scale -
        (starDecay32 env (addFloat32 t1 t2) d).scale| ≤ 1 / 65536 ∧
      |(starDecay32 env t2 (starDecay32 env t1 d)).vx -
        (starDecay32 env (addFloat32 t1 t2) d).vx| ≤ |d.vx| * e + 1 / 4096 ∧
      |(starDecay32 env t2 (starDecay32 env t1 d)).vz -
        (starDecay32 env (addFloat32 t1 t2) d).vz| ≤ |d.vz| * e + 1 / 4096 := by
  have ht1 : |t1| ≤ 9 / 2 := by rw [abs_le]; constructor <;> linarith [h1.1, h1.2]
  have ht2 : |t2| ≤ 9 / 2 := by rw [abs_le]; constructor <;> linarith [h2.1, h2.2]
  have hT := addFloat32_near t1 t2 (by linarith) ht2
  have hTb : |addFloat32 t1 t2| ≤ 9 / 2 := by
    rw [abs_le] at hT ⊢
    constructor <;> linarith [hT.1, hT.2, h1.1, h1.2, h2.1, h2.2]
  obtain ⟨a1, a2, a3⟩ := starDecay32_near env t1 d ht1 (by linarith) (by linarith)
    (by linarith)
  have hb : ∀ x y : ℚ, |x| ≤ 8 → |y - (x - t1)| ≤ 1 / 262144 → |y| ≤ 11 := by
    intro x y hx hy
    rw [abs_le] at hx hy ⊢
    constructor <;> linarith [hx.1, hx.2, hy.1, hy.2, h1.1, h1.2]
  have hb2 : ∀ x y : ℚ, |x| ≤ 8 → |y - (x - 1 / 2 * t1)| ≤ 1 / 262144 → |y| ≤ 11 := by
    intro x y hx hy
    rw [abs_le] at hx hy ⊢
    constructor <;> linarith [hx.1, hx.2, hy.1, hy.2, h1.1, h1.2]
  obtain ⟨b1, b2, b3⟩ := starDecay32_near env t2 (starDecay32 env t1 d) ht2
    (hb _ _ hl a1) (hb2 _ _ ha a2) (hb _ _ hs (by simpa using a3))
  obtain ⟨c1, c2, c3⟩ := starDecay32_near env (addFloat32 t1 t2) d hTb (by linarith)
    (by linarith) (by linarith)
  rw [abs_le] at a1 a2 a3 b1 b2 b3 c1 c2 c3 hT
  refine ⟨?_, ?_, ?_, ?_, ?_⟩
  · rw [abs_le]
    constructor <;> linarith [a1.1, a1.2, b1.1, b1.2, c1.1, c1.2, hT.1, hT.2]
  · rw [abs_le]
    constructor <;> linarith [a2.1, a2.2, b2.1, b2.2, c2.1, c2.2, hT.1, hT.2]
  · rw [abs_le]
    constructor <;> linarith [a3.1, a3.2, b3.1, b3.2, c3.1, c3.2, hT.1, hT.2]
  · exact velocity_two_steps d.vx _ _ _ e hx.1 hx.2 hp1 hp2 hp12 hpow
  · exact velocity_two_steps d.vz _ _ _ e hz.1 hz.2 hp1 hp2 hp12 hpow

/-- C21, amended, at the star `freshStar` with `t1 = t2 = 0.1f`, with the `powf` of
`floatEnv`, for which `powf(0.5, 0.1f) ^ 2` is within `10 ^ -7` of `powf(0.5, 0.2f)`. -/
theorem star_decay_frame_rate_independent_witness :
    ((0 : ℚ) ≤ roundFloat32 (1 / 10) ∧ roundFloat32 (1 / 10) ≤ 2) ∧
      |freshStar.life| ≤ 8 ∧ |freshStar.alpha| ≤ 8 ∧ |freshStar.scale| ≤ 8 ∧
      (|freshStar.vx| ≤ 1024 ∧ roundFloat32 freshStar.vx = freshStar.vx) ∧
      (|freshStar.vz| ≤ 1024 ∧ roundFloat32 freshStar.vz = freshStar.vz) ∧
      floatEnv.powf (1 / 2) (roundFloat32 (1 / 10)) = 244589 / 262144 ∧
      floatEnv.powf (1 / 2) (addFloat32 (roundFloat32 (1 / 10)) (roundFloat32 (1 / 10))) =
        14605415 / 16777216 ∧
      |floatEnv.powf (1 / 2) (roundFloat32 (1 / 10)) *
          floatEnv.powf (1 / 2) (roundFloat32 (1 / 10)) -
        floatEnv.powf (1 / 2) (addFloat32 (roundFloat32 (1 / 10)) (roundFloat32 (1 / 10)))|
          ≤ 1 / 10000000 ∧
      (|(starDecay32 floatEnv (roundFloat32 (1 / 10))
            (starDecay32 floatEnv (roundFloat32 (1 / 10)) freshStar)).life -
          (starDecay32 floatEnv (addFloat32 (roundFloat32 (1 / 10)) (roundFloat32 (1 / 10)))
            freshStar).life| ≤ 1 / 65536 ∧
        |(starDecay32 floatEnv (roundFloat32 (1 / 10))
            (starDecay32 floatEnv (roundFloat32 (1 / 10)) freshStar)).alpha -
          (starDecay32 floatEnv (addFloat32 (roundFloat32 (1 / 10)) (roundFloat32 (1 / 10)))
            freshStar).alpha| ≤ 1 / 65536 ∧
        |(starDecay32 floatEnv (roundFloat32 (1 / 10))
            (starDecay32 floatEnv (roundFloat32 (1 / 10)) freshStar)).scale -
          (starDecay32 floatEnv (addFloat32 (roundFloat32 (1 / 10)) (roundFloat32 (1 / 10)))
            freshStar).scale| ≤ 1 / 65536 ∧
        |(starDecay32 floatEnv (roundFloat32 (1 / 10))
            (starDecay32 floatEnv (roundFloat32 (1 / 10)) freshStar)).vx -
          (starDecay32 floatEnv (addFloat32 (roundFloat32 (1 / 10)) (roundFloat32 (1 / 10)))
            freshStar).vx| ≤ |freshStar.vx| * (1 / 10000000) + 1 / 4096 ∧
        |(starDecay32 floatEnv (roundFloat32 (1 / 10))
            (starDecay32 floatEnv (roundFloat32 (1 / 10)) freshStar)).vz -
          (starDecay32 floatEnv (addFloat32 (roundFloat32 (1 / 10)) (roundFloat32 (1 / 10)))
            freshStar).vz| ≤ |freshStar.vz| * (1 / 10000000) + 1 / 4096) :=
  ⟨by decide!, by decide!, by decide!, by decide!, by decide!, by decide!, by decide!,
    by decide!, by decide!,
    star_decay_frame_rate_independent floatEnv (roundFloat32 (1 / 10)) (roundFloat32 (1 / 10))
      (1 / 10000000) freshStar (by decide!) (by decide!) (by decide!) (by decide!)
      (by decide!) (by decide!) (by decide!) (by decide!) (by decide!) (by decide!)
      (by decide!)⟩

/-! ## A trail star that expires -/

/-- In the range of `RearmInRange`, `timer += 0.05f` raises a timer that is not positive by
at most `1 / 12`. -/
theorem rearm_upper (t : ℚ) (hr : -500000 ≤ t) (ht : t ≤ 0) : rearm t ≤ t + 1 / 12 := by
  have h1 := roundFloat32_error t 18 (by norm_num) (by
    rw [abs_of_nonpos ht]
    norm_num
    linarith)
  have h0 := roundFloat32_nonpos t ht
  rw [abs_le] at h1
  have h2 := roundFloat32_error (roundFloat32 t + roundFloat32 (1 / 20)) 18 (by norm_num) (by
    rw [roundFloat32_twentieth, abs_lt]
    norm_num at h1 ⊢
    constructor <;> linarith)
  rw [abs_le] at h2
  unfold rearm addFloat32
  rw [roundFloat32_twentieth] at h2 ⊢
  norm_num at h1 h2 ⊢
  linarith

/-- A timer that is `n / 12` or more below zero takes more than `n` rounds of the trail
loop. -/
theorem trailRounds_ge (n : ℕ) (t : ℚ) (hr : -500000 ≤ t) (h : t + n / 12 ≤ 0) :
    n + 1 ≤ trailRounds t := by
  induction n generalizing t with
  | zero =>
    rw [trailRounds_step t hr (by simpa using h)]
    omega
  | succ n ih =>
    have hn : (0 : ℚ) ≤ n := Nat.cast_nonneg n
    push_cast at h
    have ht : t ≤ 0 := by linarith
    have hu := rearm_upper t hr ht
    have hp := rearm_progress t hr ht
    have := ih (rearm t) (by linarith) (by linarith)
    rw [trailRounds_step t hr ht]
    omega

/-- A complete step on a store holding one trail star that expires in it (`life <=
frameTime`), with a frame time below `0.4`: the star runs its trail loop and is removed,
and the particles the loop appended, each updated once, are what the store holds. -/
theorem updateFireworks_dyingTrail (env : Env) (fuel : ℕ) (ft : ℚ) (f : Firework)
    (u : FireworkUpdate) (k : ℕ) (hty : u.type = FireworkType.StarSmallTrail)
    (hlife : u.life ≤ ft) (hft : ft < 2 / 5) (hr : -500000 ≤ u.timer - ft)
    (hfuel : trailRounds (u.timer - ft) + 1 ≤ fuel) :
    ∃ rest, UpdateFireworks env fuel ft
        { Fireworks := [f], FireworkUpdates := [u], randomCalls := k } =
          some (ofPairs rest (k + 3 * trailRounds (u.timer - ft))) ∧
      rest.Perm ((burstSpawns (trailFirework (flightUpdate env ft (f, u)).1)
        (trailUpdate env (flightUpdate env ft (f, u)).2) (trailRounds (u.timer - ft)) 1 k).map
          (flightUpdate env ft)) := by
  obtain ⟨fuel1, rfl⟩ : ∃ fuel1, fuel = fuel1 + 1 := ⟨fuel - 1, by omega⟩
  have hrun := updateParticle_trail_ofPairs env (fuel1 + 1) ft (f, u) [(f, u)] k hty hr
    (by simp only; omega)
  simp only [List.length_singleton] at hrun
  generalize hS : burstSpawns (trailFirework (flightUpdate env ft (f, u)).1)
    (trailUpdate env (flightUpdate env ft (f, u)).2) (trailRounds (u.timer - ft)) 1 k = S
    at hrun
  have hSmem : ∀ x ∈ S, x.2.type = FireworkType.StarSimple ∧ ft < x.2.life := by
    intro x hx
    rw [← hS] at hx
    obtain ⟨i, rfl⟩ := mem_burstSpawns _ _ _ _ _ _ hx
    exact ⟨rfl, hft⟩
  obtain ⟨hlast, hinner⟩ := updateStep_ofPairs_dead env (fuel1 + 1) ft [] [] S (f, u)
    ((flightUpdate env ft (f, u)).1,
      { (flightUpdate env ft (f, u)).2 with
        timer := timerAfter (trailRounds (u.timer - ft)) (u.timer - ft) })
    k (k + 3 * trailRounds (u.timer - ft)) hrun
    (by
      show (flightUpdate env ft (f, u)).2.life ≤ 0
      rw [(flightUpdate_snd env ft (f, u)).1]
      simp only
      linarith)
  have hne : 0 ≠ (ofPairs [(f, u)] k).Fireworks.length := by simp [ofPairs]
  have hinit : ({ Fireworks := [f], FireworkUpdates := [u], randomCalls := k } : Scene) =
      ofPairs [(f, u)] k := rfl
  simp only [List.nil_append, List.length_nil] at hlast hinner
  unfold UpdateFireworks
  rw [hinit]
  rcases List.eq_nil_or_concat S with hnil | ⟨C, x, hC⟩
  · subst hnil
    rw [updateLoop_succ _ _ _ _ _ _ _ _ _ _ hne (hlast rfl),
      updateLoop_end _ _ _ _ _ _ _ (by simp [ofPairs])]
    exact ⟨[], rfl, by simp⟩
  · rw [List.concat_eq_append] at hC
    obtain ⟨rest, hloop, hperm⟩ := updateLoop_stars_alive env (fuel1 + 1) ft
      (k + 3 * trailRounds (u.timer - ft)) [] (x :: C) fuel1
      (fun y hy => by
        have hyS : y ∈ S := by
          rw [hC]
          rcases List.mem_cons.mp hy with h | h
          · simp [h]
          · simp [h]
        exact hSmem y hyS)
      (by
        have h1 : S.length = C.length + 1 := by rw [hC]; simp
        have h2 : S.length ≤ trailRounds (u.timer - ft) := by
          rw [← hS, length_burstSpawns]
          exact min_le_left _ _
        simp only [List.length_cons]
        omega)
    rw [updateLoop_succ _ _ _ _ _ _ _ _ _ _ hne (hinner C x hC)]
    simp only [List.nil_append, List.length_nil] at hloop
    refine ⟨rest, hloop, hperm.trans ?_⟩
    rw [hC]
    exact (List.Perm.map _ (List.perm_append_singleton x C).symm)

/-- A complete step that returns, on a store holding one trail star that expires in it
(`life <= frameTime`) and enters its loop (`timer <= frameTime`), with a frame time below
`0.4`: the star has run `n >= 1` rounds of its trail loop, the least number of additions
`timer += 0.05f` that leave the timer positive, and has been removed, and the particles the
loop appended, each updated once, are what the store holds. -/
theorem updateFireworks_dyingTrail_some (env : Env) (fuel : ℕ) (ft : ℚ) (f : Firework)
    (u : FireworkUpdate) (k : ℕ) (s1 : Scene) (hty : u.type = FireworkType.StarSmallTrail)
    (hlife : u.life ≤ ft) (htimer : u.timer ≤ ft) (hft : ft < 2 / 5)
    (h : UpdateFireworks env fuel ft
      { Fireworks := [f], FireworkUpdates := [u], randomCalls := k } = some s1) :
    ∃ n rest, 1 ≤ n ∧ n ≤ fuel ∧ 0 < timerAfter n (u.timer - ft) ∧
      (∀ j, j < n → timerAfter j (u.timer - ft) ≤ 0) ∧
      s1 = ofPairs rest (k + 3 * n) ∧
      rest.Perm ((burstSpawns (trailFirework (flightUpdate env ft (f, u)).1)
        (trailUpdate env (flightUpdate env ft (f, u)).2) n 1 k).map (flightUpdate env ft)) := by
  have hinit : ({ Fireworks := [f], FireworkUpdates := [u], randomCalls := k } : Scene) =
      ofPairs [(f, u)] k := rfl
  have hne : 0 ≠ (ofPairs [(f, u)] k).Fireworks.length := by simp [ofPairs]
  unfold UpdateFireworks at h
  rw [hinit] at h
  cases fuel with
  | zero =>
    unfold updateLoop at h
    rw [if_neg hne] at h
    exact absurd h (by simp)
  | succ m =>
    cases hp : updateParticle env (m + 1) ft f u (ofPairs [(f, u)] k) with
    | none =>
      unfold updateLoop at h
      rw [if_neg hne] at h
      have hstep : updateStep env (m + 1) ft (ofPairs [(f, u)] k) 0 0 = none := by
        unfold updateStep
        simp only [ofPairs, List.map_cons, List.map_nil, List.getElem?_cons_zero]
        simp only [ofPairs, List.map_cons, List.map_nil] at hp
        rw [hp]
      rw [hstep] at h
      exact absurd h (by simp)
    | some r =>
      obtain ⟨n, hn, h1, h2, h3, hpos, hleast⟩ :=
        updateParticle_trail_some env (m + 1) ft (f, u) [(f, u)] k r hty hp
      simp only [List.length_singleton] at h3
      have hn1 : 1 ≤ n := by
        rcases Nat.eq_zero_or_pos n with h0 | h0
        · subst h0
          simp only [timerAfter] at hpos
          linarith
        · exact h0
      generalize hS : burstSpawns (trailFirework (flightUpdate env ft (f, u)).1)
        (trailUpdate env (flightUpdate env ft (f, u)).2) n 1 k = S at h3
      have hSmem : ∀ x ∈ S, x.2.type = FireworkType.StarSimple ∧ ft < x.2.life := by
        intro x hx
        rw [← hS] at hx
        obtain ⟨i, rfl⟩ := mem_burstSpawns _ _ _ _ _ _ hx
        exact ⟨rfl, hft⟩
      have hrun : updateParticle env (m + 1) ft (f, u).1 (f, u).2
          (ofPairs ([] ++ (f, u) :: []) k) =
          some (r.1, r.2.1, ofPairs ([] ++ (f, u) :: [] ++ S) (k + 3 * n)) := by
        show updateParticle env (m + 1) ft f u (ofPairs [(f, u)] k) =
          some (r.1, r.2.1, ofPairs ([(f, u)] ++ S) (k + 3 * n))
        rw [← h3]
        exact hp
      obtain ⟨hlast, hinner⟩ := updateStep_ofPairs_dead env (m + 1) ft [] [] S (f, u)
        (r.1, r.2.1) k (k + 3 * n) hrun
        (by
          show r.2.1.life ≤ 0
          rw [h2]
          show (flightUpdate env ft (f, u)).2.life ≤ 0
          rw [(flightUpdate_snd env ft (f, u)).1]
          simp only
          linarith)
      simp only [List.nil_append, List.length_nil] at hlast hinner
      rcases List.eq_nil_or_concat S with hnil | ⟨C, x, hC⟩
      · subst hnil
        rw [updateLoop_succ _ _ _ _ _ _ _ _ _ _ hne (hlast rfl),
          updateLoop_end _ _ _ _ _ _ _ (by simp [ofPairs])] at h
        simp only [Option.some.injEq] at h
        exact ⟨n, [], hn1, hn, hpos, hleast, h.symm, by rw [hS]; simp⟩
      · rw [List.concat_eq_append] at hC
        rw [updateLoop_succ _ _ _ _ _ _ _ _ _ _ hne (hinner C x hC)] at h
        obtain ⟨rest, hloop, hperm⟩ := updateLoop_stars_alive env (m + 1) ft (k + 3 * n) []
          (x :: C) (m + (x :: C).length)
          (fun y hy => by
            have hyS : y ∈ S := by
              rw [hC]
              rcases List.mem_cons.mp hy with h | h
              · simp [h]
              · simp [h]
            exact hSmem y hyS)
          (by omega)
        simp only [List.nil_append, List.length_nil] at hloop
        have hmono := updateLoop_fuel_mono env (m + 1) ft m (x :: C).length _ _ _ _ h
        rw [hloop] at hmono
        simp only [Option.some.injEq] at hmono
        refine ⟨n, rest, hn1, hn, hpos, hleast, hmono.symm, hperm.trans ?_⟩
        rw [hS, hC]
        exact (List.Perm.map _ (List.perm_append_singleton x C).symm)

/-- C25, as stated, fails in two ways.  The trail star `staleTrail` (life `0`, timer
`-5000`) stepped with frame time `0` meets the conditions of the claim; its re-arm loop runs
`k > 60000` rounds, of which only `MaxFireworks - 1 = 49999` are admitted next to the star
itself, so the store holds `49999` particles after the step, not `k`.  The trail star
`stuckTrail` (life `0`, timer `-2097152`) meets them too; `timer += 0.05f` leaves its timer
as it is, so its re-arm loop never ends and the step returns with no amount of fuel: the
star is never removed. -/
theorem final_inflight_update_on_expiry_counterexample :
    (staleTrail.type = FireworkType.StarSmallTrail ∧ staleTrail.life ≤ 0 ∧
      staleTrail.timer ≤ 0 ∧ (0 : ℚ) < 2 / 5 ∧
      60000 < trailRounds (staleTrail.timer - 0) ∧
      ∃ s1, UpdateFireworks sampleEnv (trailRounds (staleTrail.timer - 0) + 1) 0
          (storeOf staleTrail) = some s1 ∧
        s1.Fireworks.length = 49999 ∧
        s1.Fireworks.length ≠ trailRounds (staleTrail.timer - 0)) ∧
    (stuckTrail.type = FireworkType.StarSmallTrail ∧ stuckTrail.life ≤ 0 ∧
      stuckTrail.timer ≤ 0 ∧ (0 : ℚ) < 2 / 5 ∧
      rearm (stuckTrail.timer - 0) = stuckTrail.timer - 0 ∧
      ∀ fuel, UpdateFireworks sampleEnv fuel 0 (storeOf stuckTrail) = none) := by
  have hk : 60000 < trailRounds (staleTrail.timer - 0) :=
    trailRounds_ge 60000 _ (by decide!) (by decide!)
  refine ⟨⟨rfl, by decide!, by decide!, by decide!, hk, ?_⟩,
    ⟨rfl, by decide!, by decide!, by decide!, by decide!, fun fuel =>
      updateFireworks_stuck sampleEnv fuel 0 sampleFirework stuckTrail 0 rfl (by decide!)
        (by decide!)⟩⟩
  obtain ⟨rest, hrun, hperm⟩ := updateFireworks_dyingTrail sampleEnv
    (trailRounds (staleTrail.timer - 0) + 1) 0 sampleFirework staleTrail 0 rfl (by decide!)
    (by decide!) (by decide!) le_rfl
  have hlen : rest.length = 49999 := by
    rw [hperm.length_eq, List.length_map, length_burstSpawns]
    have : MaxFireworks - 1 = 49999 := by decide
    rw [this]
    exact min_eq_right (by omega)
  have hfw : (ofPairs rest (0 + 3 * trailRounds (staleTrail.timer - 0))).Fireworks.length =
      49999 := by
    show (rest.map Prod.fst).length = 49999
    rw [List.length_map, hlen]
  have hstore : storeOf staleTrail =
      { Fireworks := [sampleFirework], FireworkUpdates := [staleTrail], randomCalls := 0 } :=
    rfl
  rw [hstore]
  refine ⟨_, hrun, hfw, ?_⟩
  rw [hfw]
  omega

/-- C25, amended. For a store holding one trail star with timer `t` and life `l` such that
`l <= frameTime` and `t <= frameTime`, with `frameTime < 0.4`: whenever
`UpdateFireworks(frameTime)` returns, it has run the in-flight rule before the removal.  The
re-arm loop has run `n >= 1` rounds, the least number of additions `timer += 0.05f` that
leave the timer positive, the star is removed, and the store holds exactly the `min(n,
MaxFireworks - 1) >= 1` simple stars the loop appended, each updated once in the same step
(life `0.4 - frameTime > 0`).  And the step does return, given fuel for the `k =
trailRounds (t - frameTime)` rounds of the loop and one more round, when `t - frameTime >=
-500000`: the visit of the star appends `min(k, MaxFireworks - 1)` simple stars with life
`0.4` behind it, and the returned store holds exactly `k` particles when `k <= MaxFireworks
- 1`, as is the case when `frameTime - t <= 500`. -/
theorem final_inflight_update_on_expiry (env : Env) (fuel : ℕ) (frameTime : ℚ) (f : Firework)
    (u : FireworkUpdate) (k : ℕ) (hty : u.type = FireworkType.StarSmallTrail)
    (hlife : u.life ≤ frameTime) (htimer : u.timer ≤ frameTime) (hft : frameTime < 2 / 5) :
    (∀ s1, UpdateFireworks env fuel frameTime
        { Fireworks := [f], FireworkUpdates := [u], randomCalls := k } = some s1 →
      ∃ n, 1 ≤ n ∧ 0 < timerAfter n (u.timer - frameTime) ∧
        (∀ j, j < n → timerAfter j (u.timer - frameTime) ≤ 0) ∧
        s1.Fireworks.length = min n (MaxFireworks - 1) ∧
        s1.FireworkUpdates.length = min n (MaxFireworks - 1) ∧
        1 ≤ s1.Fireworks.length ∧
        ∀ x ∈ s1.FireworkUpdates, x.type = FireworkType.StarSimple ∧
          x.life = 2 / 5 - frameTime ∧ 0 < x.life) ∧
    (-500000 ≤ u.timer - frameTime → trailRounds (u.timer - frameTime) + 1 ≤ fuel →
    1 ≤ trailRounds (u.timer - frameTime) ∧
    ∃ (s1 : Scene) (S : List (Firework × FireworkUpdate)),
      (updateParticle env fuel frameTime f u
          { Fireworks := [f], FireworkUpdates := [u], randomCalls := k }).map
        (fun r => r.2.2) =
          some (ofPairs ((f, u) :: S) (k + 3 * trailRounds (u.timer - frameTime))) ∧
      S.length = min (trailRounds (u.timer - frameTime)) (MaxFireworks - 1) ∧
      (∀ x ∈ S, x.2.type = FireworkType.StarSimple ∧ x.2.life = 2 / 5) ∧
      UpdateFireworks env fuel frameTime
        { Fireworks := [f], FireworkUpdates := [u], randomCalls := k } = some s1 ∧
      (pairs s1).Perm (S.map (flightUpdate env frameTime)) ∧
      s1.Fireworks.length = min (trailRounds (u.timer - frameTime)) (MaxFireworks - 1) ∧
      s1.FireworkUpdates.length = min (trailRounds (u.timer - frameTime)) (MaxFireworks - 1) ∧
      1 ≤ s1.Fireworks.length ∧
      (trailRounds (u.timer - frameTime) ≤ MaxFireworks - 1 →
        s1.Fireworks.length = trailRounds (u.timer - frameTime)) ∧
      (frameTime - u.timer ≤ 500 → s1.Fireworks.length = trailRounds (u.timer - frameTime)) ∧
      ∀ x ∈ s1.FireworkUpdates, x.type = FireworkType.StarSimple ∧
        x.life = 2 / 5 - frameTime ∧ 0 < x.life) := by
  have hmax : 1 ≤ MaxFireworks - 1 := by decide
  refine ⟨fun s1 hrun => ?_, fun hrange hfuel => ?_⟩
  · obtain ⟨n, rest, hn1, -, hpos, hleast, rfl, hperm⟩ :=
      updateFireworks_dyingTrail_some env fuel frameTime f u k s1 hty hlife htimer hft hrun
    have hrest : rest.length = min n (MaxFireworks - 1) := by
      rw [hperm.length_eq, List.length_map, length_burstSpawns]
    refine ⟨n, hn1, hpos, hleast, ?_, ?_, ?_, fun y hy => ?_⟩
    · simpa [ofPairs] using hrest
    · simpa [ofPairs] using hrest
    · simp only [ofPairs, List.length_map, hrest]
      exact le_min hn1 hmax
    · simp only [ofPairs, List.mem_map] at hy
      obtain ⟨z, hz, rfl⟩ := hy
      obtain ⟨w, hw, rfl⟩ := List.mem_map.mp ((hperm.mem_iff).mp hz)
      obtain ⟨i, rfl⟩ := mem_burstSpawns _ _ _ _ _ _ hw
      refine ⟨(flightUpdate_snd env frameTime _).2.1, ?_, ?_⟩
      · rw [(flightUpdate_snd env frameTime _).1]
        rfl
      · rw [(flightUpdate_snd env frameTime _).1]
        show (0 : ℚ) < 2 / 5 - frameTime
        linarith
  · have hk : 1 ≤ trailRounds (u.timer - frameTime) := by
      rw [trailRounds_step _ hrange (by linarith)]
      omega
    refine ⟨hk, ?_⟩
    obtain ⟨rest, hrun, hperm⟩ := updateFireworks_dyingTrail env fuel frameTime f u k hty hlife
      hft hrange hfuel
    have hvisit := updateParticle_trail_ofPairs env fuel frameTime (f, u) [(f, u)] k hty hrange
      (by simp only; omega)
    simp only [List.length_singleton] at hvisit
    generalize hS : burstSpawns (trailFirework (flightUpdate env frameTime (f, u)).1)
      (trailUpdate env (flightUpdate env frameTime (f, u)).2)
      (trailRounds (u.timer - frameTime)) 1 k = S at hperm hvisit
    have hSlen : S.length = min (trailRounds (u.timer - frameTime)) (MaxFireworks - 1) := by
      rw [← hS, length_burstSpawns]
    have hSmem : ∀ x ∈ S, x.2.type = FireworkType.StarSimple ∧ x.2.life = 2 / 5 := by
      intro x hx
      rw [← hS] at hx
      obtain ⟨i, rfl⟩ := mem_burstSpawns _ _ _ _ _ _ hx
      exact ⟨rfl, rfl⟩
    have hrest : rest.length = min (trailRounds (u.timer - frameTime)) (MaxFireworks - 1) := by
      rw [hperm.length_eq, List.length_map, hSlen]
    refine ⟨_, S, ?_, hSlen, hSmem, hrun, ?_, ?_, ?_, ?_, ?_, ?_, ?_⟩
    · have hinit : ({ Fireworks := [f], FireworkUpdates := [u], randomCalls := k } : Scene) =
          ofPairs [(f, u)] k := rfl
      rw [hinit, hvisit]
      rfl
    · rw [pairs_ofPairs]
      exact hperm
    · simpa [ofPairs] using hrest
    · simpa [ofPairs] using hrest
    · simp only [ofPairs, List.length_map, hrest]
      exact le_min hk hmax
    · intro hroom
      simp only [ofPairs, List.length_map, hrest]
      exact min_eq_left hroom
    · intro hnear
      simp only [ofPairs, List.length_map, hrest]
      refine min_eq_left (le_trans (trailRounds_le _) ?_)
      have hfl : ⌊-(u.timer - frameTime) * 64⌋ ≤ 32000 := by
        have h1 : -(u.timer - frameTime) * 64 ≤ ((32000 : ℤ) : ℚ) := by
          push_cast
          linarith
        exact Int.floor_le_floor h1 |>.trans (by rw [Int.floor_intCast])
      have : MaxFireworks - 1 = 49999 := by decide
      omega
    · intro y hy
      simp only [ofPairs, List.mem_map] at hy
      obtain ⟨z, hz, rfl⟩ := hy
      obtain ⟨w, hw, rfl⟩ := List.mem_map.mp ((hperm.mem_iff).mp hz)
      refine ⟨(flightUpdate_snd env frameTime w).2.1.trans (hSmem w hw).1, ?_, ?_⟩
      · rw [(flightUpdate_snd env frameTime w).1, (hSmem w hw).2]
      · rw [(flightUpdate_snd env frameTime w).1, (hSmem w hw).2]
        linarith

/-- C25, amended, at the trail star `dyingTrail` (life `0.25`, timer `-0.25`) stepped with
frame time `0.25`: ten rounds, and the store then holds ten simple stars with `0.15` seconds
to live. -/
theorem final_inflight_update_on_expiry_witness :
    dyingTrail.type = FireworkType.StarSmallTrail ∧ dyingTrail.life ≤ 1 / 4 ∧
      dyingTrail.timer ≤ 1 / 4 ∧ (1 : ℚ) / 4 < 2 / 5 ∧
      (-500000 : ℚ) ≤ dyingTrail.timer - 1 / 4 ∧
      trailRounds (dyingTrail.timer - 1 / 4) + 1 ≤ 11 ∧
      trailRounds (dyingTrail.timer - 1 / 4) = 10 ∧
      ∃ s1 : Scene,
        UpdateFireworks sampleEnv 11 (1 / 4)
          { Fireworks := [sampleFirework], FireworkUpdates := [dyingTrail], randomCalls := 0 }
            = some s1 ∧
        s1.Fireworks.length = min (trailRounds (dyingTrail.timer - 1 / 4)) (MaxFireworks - 1) ∧
        s1.Fireworks.length = trailRounds (dyingTrail.timer - 1 / 4) ∧
        ∀ x ∈ s1.FireworkUpdates, x.type = FireworkType.StarSimple ∧
          x.life = 2 / 5 - 1 / 4 ∧ 0 < x.life :=
  ⟨rfl, by decide!, by decide!, by decide!, by decide!, by decide!, by decide!,
    ((final_inflight_update_on_expiry sampleEnv 11 (1 / 4) sampleFirework dyingTrail 0 rfl
      (by decide!) (by decide!) (by decide!)).2 (by decide!) (by decide!)).2.elim fun s1 h =>
        h.elim fun _ h => ⟨s1, h.2.2.2.1, h.2.2.2.2.2.1, h.2.2.2.2.2.2.2.2.2.1 (by decide!),
          h.2.2.2.2.2.2.2.2.2.2⟩⟩

end Fireworks
